import Mathlib

/-!
# Password-based security door lock: Control node and HMI node

Shallow embedding of the two programs of the repository
(`Door_Lock_Control/door_lock_control.c`, `Door_Lock_Control/external_eeprom.c`,
`Door_Lock_Control/i2c.c`, `Door_Lock_HMI/door_lock_hmi.c`).

Every C function becomes a state transformer over the globals of its node.
What a node does to the outside world (bytes put on the serial line, bytes
taken from it, keys read, display calls, delays, pin writes, store calls) is
appended to a chronological event trace, so that ordering properties can be
stated on the trace.  Blocking reads take their values from finite input
streams; a read on an exhausted stream blocks for ever.  Loops and calls are
bounded by a fuel argument; running out of fuel is an outcome of its own.
-/

namespace DoorLock

/-! ## Events, outcomes and the state/outcome monad -/

/-- Source position of a `UART_sendByte` call, kept as a ghost label on the
event: the handshake token, a command or verdict opcode, a byte of a new
credential (`EnterNewPass`), a byte of a candidate credential (`ChangePass`,
`OpenDoor`).  The byte on the wire is the second field of `Ev.send`. -/
inductive Role where
  | token
  | opcode
  | credential
  | candidate
  deriving DecidableEq, Repr

/-- Functions whose entry is recorded in the trace. -/
inductive Fn where
  | MainScreen
  | EnterNewPass
  | ChangePass
  | BlockSystem
  | OpenDoor
  | SetPassword
  | MotorOn
  | CheckPassword
  | EEPROM_CheckPassword
  deriving DecidableEq, Repr

/-- Texts shown on the display by the HMI node. -/
inductive Msg where
  | menuChange      -- "+ : Change PASS"
  | menuOpen        -- "- : Open Door"
  | enterRoot       -- "Enter Root PASS"
  | star            -- "*"
  | enterNew        -- "Enter New PASS"
  | reEnter         -- "ReEnter PASS"
  | notMatched      -- "PASS not matched"
  | confirmed       -- "Confirmed"
  | enterOld        -- "Enter Old PASS"
  | blocked         -- "System Blocked"
  | enterPass       -- "Enter  PASS"
  | doorOpen        -- "Door Open"
  | doorClose       -- "Door Close"
  deriving DecidableEq, Repr

/-- Observable events of a node, in the order in which they happen. -/
inductive Ev where
  | send (r : Role) (b : Nat)             -- UART_sendByte(b)
  | recv (b : Nat)                        -- UART_receiveByte() returned b
  | key (k : Nat)                         -- KeyPad_getPressedKey() returned k
  | call (f : Fn)                         -- entry of function f
  | lcdClear                              -- LCD_clearScreen()
  | lcdString (row col : Nat) (m : Msg)   -- LCD_displayStringRowColumn
  | delay (msec : Nat)                    -- one T1_delay_msec(msec)
  | timer2 (running : Bool)               -- Timer2_restartTimer / Timer2_stopTimer
  | pin (port pin value : Nat)            -- pinWrite(port, pin, value)
  | eeWrite (addr data result : Nat)      -- EEPROM_writeByte(addr, data) = result
  | eeRead (addr data result : Nat)       -- EEPROM_readByte(addr, &x) = result, x = data after it
  deriving DecidableEq, Repr

/-- Outcome of running a piece of code from a state. -/
inductive Res (σ α : Type) where
  | done (a : α) (s : σ)     -- returned the value a in state s
  | blocked (s : σ)          -- waits for ever for input that never arrives
  | noFuel (s : σ)           -- the model stops: fuel bound reached, or behaviour undefined in C
  deriving Repr

/-- State in which a run ended, whatever the outcome. -/
def Res.state {σ α : Type} : Res σ α → σ
  | .done _ s => s
  | .blocked s => s
  | .noFuel s => s

/-- Sequencing of an outcome with a continuation. -/
def Res.andThen {σ α β : Type} (r : Res σ α) (f : α → σ → Res σ β) : Res σ β :=
  match r with
  | .done a s => f a s
  | .blocked s => .blocked s
  | .noFuel s => .noFuel s

/-- Code over a state of type `σ` that returns an `α`. -/
def M (σ α : Type) : Type := σ → Res σ α

instance {σ : Type} : Monad (M σ) where
  pure a := fun s => Res.done a s
  bind m f := fun s => Res.andThen (m s) f

/-- Read the whole state. -/
def getS {σ : Type} : M σ σ := fun s => Res.done s s

/-- Update the state. -/
def modifyS {σ : Type} (f : σ → σ) : M σ Unit := fun s => Res.done () (f s)

/-- The loop `for (; cond; step) body` with at most `fuel` evaluations of the
condition. -/
def forLoop {σ : Type} (cond : σ → Bool) (step : σ → σ) (body : M σ Unit) : Nat → M σ Unit
  | 0 => fun s => Res.noFuel s
  | fuel + 1 => fun s =>
      if cond s then
        Res.andThen (body s) (fun _ s1 => forLoop cond step body fuel (step s1))
      else Res.done () s

/-! ## Globals and peripherals common to both nodes -/

/-- Globals and peripheral registers that both programs have; `app` holds the
globals particular to one node. -/
structure Node (α : Type) where
  g_password : Nat → Nat      -- uint8 g_password[PASS_SIZE]
  count : Nat                 -- uint8 count
  g_delayFlag : Bool          -- bool g_delayFlag
  OCR1A : Nat                 -- Timer1 compare register A (16 bit)
  OCR1B : Nat                 -- Timer1 compare register B (16 bit)
  TCNT1 : Nat                 -- Timer1 counter
  rx : List Nat               -- bytes that will arrive on the serial line
  trace : List Ev             -- events so far, oldest first
  app : α

section Common
variable {α : Type}

/-- Append one event to the trace. -/
def emit (e : Ev) : M (Node α) Unit :=
  fun s => Res.done () { s with trace := s.trace ++ [e] }

/-- `UART_sendByte(data)` (uart.c): the byte goes out on the line. -/
@[reducible] def UART_sendByte (r : Role) (data : Nat) : M (Node α) Unit :=
  emit (Ev.send r data)

/-- `UART_receiveByte()` (uart.c, receive interrupt disabled): waits for the
next byte of the line and returns it. -/
def UART_receiveByte : M (Node α) Nat := fun s =>
  match s.rx with
  | [] => Res.blocked s
  | b :: rest => Res.done b { s with rx := rest, trace := s.trace ++ [Ev.recv b] }

/-- The loop `while (UART_receiveByte() != tok);` run on the pending bytes. -/
def waitFor (tok : Nat) : List Nat → Node α → Res (Node α) Unit
  | [], s => Res.blocked { s with rx := [] }
  | b :: rest, s =>
      if b ≠ tok then
        waitFor tok rest { s with rx := rest, trace := s.trace ++ [Ev.recv b] }
      else Res.done () { s with rx := rest, trace := s.trace ++ [Ev.recv b] }

/-- `while (UART_receiveByte() != tok);`. -/
def UART_waitFor (tok : Nat) : M (Node α) Unit := fun s => waitFor tok s.rx s

/-- `T1_delay_msec(msec)` (both nodes): programs the compare registers with
`msec * 8` (16-bit arithmetic) and 0, clears the counter, starts Timer1, waits
until the compare interrupt has set `g_delayFlag`, and clears the flag. -/
def T1_delay_msec (msec : Nat) : M (Node α) Unit := fun s =>
  Res.done () { s with
    OCR1A := (msec * 8) % 65536
    OCR1B := 0
    TCNT1 := 0
    g_delayFlag := false
    trace := s.trace ++ [Ev.delay msec] }

/-- The loop `for (i = 0; i < sec; i++) T1_delay_msec(1000);` of `T1_delay_sec`
with the counter `int i` (16 bit, signed) at `i` and `todo = sec - i`
iterations still to make.  The increment of `i = 32767` overflows `int`, which
C leaves undefined: the model makes no statement on what follows and ends the
run there, with the outcome `noFuel`. -/
def T1_delay_sec_loop : Nat → Nat → M (Node α) Unit
  | 0, _ => pure ()
  | todo + 1, i => do
      T1_delay_msec 1000
      if i = 32767 then (fun s => Res.noFuel s) else T1_delay_sec_loop todo (i + 1)

/-- `T1_delay_sec(sec)` (both nodes), with `sec` of type `uint16`:
`int i; for (i = 0; i < sec; i++) T1_delay_msec(1000);`. -/
def T1_delay_sec (sec : Nat) : M (Node α) Unit := T1_delay_sec_loop (sec % 65536) 0

/-- `SET_BIT(REG,BIT)` on an 8-bit register. -/
def SET_BIT (reg bit : Nat) : Nat := reg ||| (1 <<< bit)

/-- `CLEAR_BIT(REG,BIT)` on an 8-bit register. -/
def CLEAR_BIT (reg bit : Nat) : Nat := reg &&& (0xFF ^^^ (1 <<< bit))

/-- `count++` on the `uint8` global. -/
def incrCount (s : Node α) : Node α := { s with count := (s.count + 1) % 256 }

end Common

/-! ## Control node: two-wire bus and external EEPROM driver -/

namespace Control

/-! Constants of `door_lock_control.h`, `external_eeprom.h` and `i2c.h`. -/

@[reducible, simp] def READY : Nat := 0x01
@[reducible, simp] def CHECK_PASSWORD : Nat := 0x02
@[reducible, simp] def MATCH : Nat := 0x03
@[reducible, simp] def DONT_MATCH : Nat := 0x04
@[reducible, simp] def CHANGE_PASSWORD : Nat := 0x05
@[reducible, simp] def OPEN_DOOR : Nat := 0x06
@[reducible, simp] def PASS_FOUND : Nat := 0x07
@[reducible, simp] def PASS_NOT_FOUND : Nat := 0x08
@[reducible, simp] def PASS_SIZE : Nat := 5
@[reducible, simp] def PASS_ADDRESS : Nat := 0x0100

@[reducible, simp] def ERROR : Nat := 0
@[reducible, simp] def SUCCESS : Nat := 1
@[reducible, simp] def EEPROM_FIXED_ADDRESS : Nat := 0xA0

@[reducible, simp] def TW_START : Nat := 0x08
@[reducible, simp] def TW_REP_START : Nat := 0x10
@[reducible, simp] def TW_MT_SLA_W_ACK : Nat := 0x18
@[reducible, simp] def TW_MT_SLA_R_ACK : Nat := 0x40
@[reducible, simp] def TW_MT_DATA_ACK : Nat := 0x28
@[reducible, simp] def TW_MR_DATA_ACK : Nat := 0x50
@[reducible, simp] def TW_MR_DATA_NACK : Nat := 0x58

/-- Reaction of the two-wire hardware, with the bus and the device behind it,
to the register accesses of `i2c.c`.  `β` is the state of that hardware.  Each
`on...` field is the state once the busy-wait on `TWINT` of the corresponding
driver function has ended. -/
structure TwiHw (β : Type) where
  onStart : β → β            -- TWCR = TWINT|TWSTA|TWEN            (TWI_start)
  onStop : β → β             -- TWCR = TWINT|TWSTO|TWEN            (TWI_stop)
  onWrite : Nat → β → β      -- TWDR = data; TWCR = TWINT|TWEN     (TWI_write)
  onReadNack : β → β         -- TWCR = TWINT|TWEN                  (TWI_readWithNACK)
  TWSR : β → Nat             -- status register
  TWDR : β → Nat             -- data register

section Driver
variable {β : Type} (hw : TwiHw β)

/-- `TWI_start()` (i2c.c). -/
def TWI_start (b : β) : β := hw.onStart b

/-- `TWI_stop()` (i2c.c). -/
def TWI_stop (b : β) : β := hw.onStop b

/-- `TWI_write(data)` (i2c.c); both branches of the source are the same. -/
def TWI_write (data : Nat) (b : β) : β := hw.onWrite data b

/-- `TWI_readWithNACK()` (i2c.c): returns `TWDR` after the transfer. -/
def TWI_readWithNACK (b : β) : Nat × β :=
  let b1 := hw.onReadNack b
  (hw.TWDR b1, b1)

/-- `TWI_getStatus()` (i2c.c): `TWSR & 0xF8`. -/
def TWI_getStatus (b : β) : Nat := hw.TWSR b &&& 0xF8

/-- `EEPROM_writeByte(u16addr, u8data)` (external_eeprom.c): result and bus
state after it. -/
def EEPROM_writeByte (u16addr u8data : Nat) (b : β) : Nat × β :=
  let b1 := TWI_start hw b
  if TWI_getStatus hw b1 ≠ TW_START then (ERROR, b1) else
  let b2 := TWI_write hw ((EEPROM_FIXED_ADDRESS ||| ((u16addr &&& 0x0700) >>> 7)) % 256) b1
  if TWI_getStatus hw b2 ≠ TW_MT_SLA_W_ACK then (ERROR, b2) else
  let b3 := TWI_write hw (u16addr % 256) b2
  if TWI_getStatus hw b3 ≠ TW_MT_DATA_ACK then (ERROR, b3) else
  let b4 := TWI_write hw u8data b3
  if TWI_getStatus hw b4 ≠ TW_MT_DATA_ACK then (ERROR, b4) else
  let b5 := TWI_stop hw b4
  (SUCCESS, b5)

/-- `EEPROM_readByte(u16addr, u8data)` (external_eeprom.c): result, the value
stored through the pointer `u8data` (`none` when nothing was stored), and the
bus state after it. -/
def EEPROM_readByte (u16addr : Nat) (b : β) : Nat × Option Nat × β :=
  let b1 := TWI_start hw b
  if TWI_getStatus hw b1 ≠ TW_START then (ERROR, none, b1) else
  let b2 := TWI_write hw ((EEPROM_FIXED_ADDRESS ||| ((u16addr &&& 0x0700) >>> 7)) % 256) b1
  if TWI_getStatus hw b2 ≠ TW_MT_SLA_W_ACK then (ERROR, none, b2) else
  let b3 := TWI_write hw (u16addr % 256) b2
  if TWI_getStatus hw b3 ≠ TW_MT_DATA_ACK then (ERROR, none, b3) else
  let b4 := TWI_start hw b3
  if TWI_getStatus hw b4 ≠ TW_REP_START then (ERROR, none, b4) else
  let b5 := TWI_write hw ((EEPROM_FIXED_ADDRESS ||| ((u16addr &&& 0x0700) >>> 7) ||| 1) % 256) b4
  if TWI_getStatus hw b5 ≠ TW_MT_SLA_R_ACK then (ERROR, none, b5) else
  let r := TWI_readWithNACK hw b5
  if TWI_getStatus hw r.2 ≠ TW_MR_DATA_NACK then (ERROR, some r.1, r.2) else
  let b7 := TWI_stop hw r.2
  (SUCCESS, some r.1, b7)

end Driver

/-! ### An acknowledging 2-Kbyte EEPROM behind the bus

The environment in which every bus transaction succeeds against a
byte-addressable store: a device that acknowledges each phase, decodes the
block bits of the device-select byte and the word address, stores a data byte
at the addressed cell and returns the addressed cell on a read. -/

/-- Where the device is in a transaction. -/
inductive ChipPhase where
  | idle
  | started
  | selectedW
  | addressed
  | restarted
  | selectedR
  | fault
  deriving DecidableEq, Repr

/-- The device and the status/data registers of the bus controller. -/
structure Chip where
  mem : Nat → Nat        -- content, by 11-bit address
  blk : Nat              -- block (address bits 10..8) selected last
  word : Nat             -- word address (address bits 7..0) received last
  phase : ChipPhase
  TWSR : Nat
  TWDR : Nat

/-- Cell that the device currently addresses. -/
def Chip.ptr (c : Chip) : Nat := c.blk * 256 + c.word

/-- Start condition: a first start is reported as 0x08, a start inside a
transaction as 0x10. -/
def Chip.onStart (c : Chip) : Chip :=
  if c.phase = ChipPhase.idle then { c with phase := ChipPhase.started, TWSR := 0x08 }
  else { c with phase := ChipPhase.restarted, TWSR := 0x10 }

/-- Stop condition. -/
def Chip.onStop (c : Chip) : Chip := { c with phase := ChipPhase.idle }

/-- One byte from the master to the device. -/
def Chip.onWrite (data : Nat) (c : Chip) : Chip :=
  match c.phase with
  | ChipPhase.started =>
      if data &&& 0xF1 = 0xA0 then
        { c with phase := ChipPhase.selectedW, blk := (data >>> 1) &&& 7, TWSR := 0x18 }
      else { c with phase := ChipPhase.fault, TWSR := 0x20 }
  | ChipPhase.selectedW =>
      { c with phase := ChipPhase.addressed, word := data % 256, TWSR := 0x28 }
  | ChipPhase.addressed =>
      { c with mem := Function.update c.mem c.ptr data, TWSR := 0x28 }
  | ChipPhase.restarted =>
      if data &&& 0xF1 = 0xA1 then
        { c with phase := ChipPhase.selectedR, blk := (data >>> 1) &&& 7, TWSR := 0x40 }
      else { c with phase := ChipPhase.fault, TWSR := 0x48 }
  | _ => { c with phase := ChipPhase.fault, TWSR := 0x30 }

/-- One byte from the device to the master, not acknowledged by the master. -/
def Chip.onReadNack (c : Chip) : Chip :=
  match c.phase with
  | ChipPhase.selectedR => { c with TWDR := c.mem c.ptr, TWSR := 0x58 }
  | _ => { c with phase := ChipPhase.fault, TWSR := 0x00 }

/-- The acknowledging device as bus hardware. -/
def chipHw : TwiHw Chip where
  onStart := Chip.onStart
  onStop := Chip.onStop
  onWrite := Chip.onWrite
  onReadNack := Chip.onReadNack
  TWSR := Chip.TWSR
  TWDR := Chip.TWDR

/-- The five bytes of the credential slot, addresses 0x0100..0x0104. -/
def Chip.slot (c : Chip) : List Nat :=
  (List.range PASS_SIZE).map (fun i => c.mem (PASS_ADDRESS + i))

/-! ## Control node: application (door_lock_control.c) -/

/-- Globals and registers particular to the Control node; `β` is the state of
the two-wire hardware. -/
structure App (β : Type) where
  g_EEPassword : Nat → Nat    -- uint8 g_EEPassword[PASS_SIZE]
  Data : Nat                  -- uint8 Data
  DDRD : Nat                  -- direction register of port D
  PORTD : Nat                 -- output register of port D
  bus : β

/-- State of the Control node. -/
abbrev State (β : Type) : Type := Node (App β)

@[reducible, simp] def HIGH : Nat := 1
@[reducible, simp] def LOW : Nat := 0
@[reducible, simp] def OUTPUT : Nat := 1
@[reducible, simp] def PD6 : Nat := 6
@[reducible, simp] def PD7 : Nat := 7
/-- Port name `D` of gpio.h (the character code of the letter). -/
@[reducible, simp] def portD : Nat := 0x44

section App
variable {β : Type} (hw : TwiHw β)

/-- Macro `pinWrite(D, pin, value)` of gpio.h. -/
def pinWriteD (pin value : Nat) : M (State β) Unit := fun s =>
  Res.done () { s with
    app := { s.app with
      PORTD := if value = HIGH then SET_BIT s.app.PORTD pin else CLEAR_BIT s.app.PORTD pin }
    trace := s.trace ++ [Ev.pin portD pin value] }

/-- Macro `pinMode(D, pin, mode)` of gpio.h: an output pin is also driven low. -/
def pinModeD (pin mode : Nat) : M (State β) Unit :=
  if mode = OUTPUT then do
    modifyS (fun s => { s with app := { s.app with DDRD := SET_BIT s.app.DDRD pin } })
    pinWriteD pin LOW
  else
    modifyS (fun s => { s with app := { s.app with DDRD := CLEAR_BIT s.app.DDRD pin } })

/-- The call `EEPROM_writeByte(addr, data)` made from the application; the
result is returned to the caller. -/
def storeWrite (addr data : Nat) : M (State β) Nat := fun s =>
  let r := EEPROM_writeByte hw addr data s.app.bus
  Res.done r.1 { s with
    app := { s.app with bus := r.2 }
    trace := s.trace ++ [Ev.eeWrite addr data r.1] }

/-- The call `EEPROM_readByte(addr, &g_EEPassword[count])` made from the
application; the result is returned to the caller. -/
def storeRead (addr : Nat) : M (State β) Nat := fun s =>
  let r := EEPROM_readByte hw addr s.app.bus
  let buf := match r.2.1 with
    | some v => Function.update s.app.g_EEPassword s.count v
    | none => s.app.g_EEPassword
  Res.done r.1 { s with
    app := { s.app with bus := r.2.2, g_EEPassword := buf }
    trace := s.trace ++ [Ev.eeRead addr (buf s.count) r.1] }

/-- The loop `for (; cond; step) body` whose body may execute `return`: the
body yields `true` when it has returned from the enclosing function, and so
does the loop. -/
def forLoopRet {σ : Type} (cond : σ → Bool) (step : σ → σ) (body : M σ Bool) : Nat → M σ Bool
  | 0 => fun s => Res.noFuel s
  | fuel + 1 => fun s =>
      if cond s then
        Res.andThen (body s) (fun returned s1 =>
          if returned then Res.done true s1
          else forLoopRet cond step body fuel (step s1))
      else Res.done false s

/-- Condition `count < PASS_SIZE` of the loops over the credential. -/
def countBelow (s : State β) : Bool := decide (s.count < PASS_SIZE)

/-- Assignment `count = 0` that opens each loop over the credential. -/
@[reducible] def resetCount : M (State β) Unit := modifyS (fun s => { s with count := 0 })

/-- Function `SetPassword()`: stores a new credential in the EEPROM. -/
def SetPassword (fuel : Nat) : M (State β) Unit := do
  emit (Ev.call Fn.SetPassword)
  resetCount
  forLoop countBelow incrCount (do
    UART_waitFor READY
    UART_sendByte Role.token READY
    let b ← UART_receiveByte
    modifyS (fun s => { s with g_password := Function.update s.g_password s.count b })
    let s ← getS
    let _ ← storeWrite hw ((PASS_ADDRESS + s.count) % 65536) (s.g_password s.count)
    T1_delay_msec 10) fuel

/-- Function `MotorOn()`: opens the door for 10 s, closes it for 10 s, stops. -/
def MotorOn : M (State β) Unit := do
  emit (Ev.call Fn.MotorOn)
  pinWriteD PD6 HIGH
  pinWriteD PD7 LOW
  T1_delay_sec 10
  pinWriteD PD6 LOW
  pinWriteD PD7 HIGH
  T1_delay_sec 10
  pinWriteD PD6 LOW
  pinWriteD PD7 LOW

/-- Function `CheckPassword()`: compares a received candidate with the
credential read from the EEPROM and sends the verdict. -/
def CheckPassword (fuel : Nat) : M (State β) Unit := do
  emit (Ev.call Fn.CheckPassword)
  resetCount
  forLoop countBelow incrCount (do
    UART_sendByte Role.token READY
    let b ← UART_receiveByte
    modifyS (fun s => { s with g_password := Function.update s.g_password s.count b })
    let s ← getS
    let _ ← storeRead hw ((PASS_ADDRESS + s.count) % 65536)
    T1_delay_msec 10) fuel
  resetCount
  let returned ← forLoopRet countBelow incrCount (do
    let s ← getS
    if s.g_password s.count ≠ s.app.g_EEPassword s.count then do
      UART_sendByte Role.opcode DONT_MATCH
      pure true
    else pure false) fuel
  if returned then pure ()
  else UART_sendByte Role.opcode MATCH

/-- Function `EEPROM_CheckPassword()`: looks for a credential in the EEPROM at
start-up and asks for one when there is none. -/
def EEPROM_CheckPassword (fuel : Nat) : M (State β) Unit := do
  emit (Ev.call Fn.EEPROM_CheckPassword)
  resetCount
  let returned ← forLoopRet countBelow incrCount (do
    let s ← getS
    let _ ← storeRead hw ((PASS_ADDRESS + s.count) % 65536)
    T1_delay_msec 10
    let s ← getS
    if s.app.g_EEPassword s.count ≠ 0xFF then do
      UART_sendByte Role.opcode PASS_FOUND
      pure true
    else pure false) fuel
  if returned then pure ()
  else do
    UART_sendByte Role.opcode PASS_NOT_FOUND
    SetPassword hw fuel

/-- The `if`/`else if` chain on the opcode `Data` in the command loop of `main()`. -/
def dispatch (fuel : Nat) (d : Nat) : M (State β) Unit :=
  if d = CHECK_PASSWORD then CheckPassword hw fuel
  else if d = CHANGE_PASSWORD then SetPassword hw fuel
  else if d = OPEN_DOOR then MotorOn
  else pure ()

/-- Command loop `while(1)` of `main()`: one handshake, one opcode, dispatch. -/
def mainLoop : Nat → M (State β) Unit
  | 0 => fun s => Res.noFuel s
  | fuel + 1 => do
      UART_waitFor READY
      UART_sendByte Role.token READY
      let d ← UART_receiveByte
      modifyS (fun s => { s with app := { s.app with Data := d } })
      dispatch hw fuel d
      mainLoop fuel

/-- Start-up part of `main()` up to the command loop: motor pins as outputs,
wait for the token of the HMI node, look for a stored credential.  The
configuration of the serial line, the bus clock and Timer1 is left out. -/
def boot (fuel : Nat) : M (State β) Unit := do
  pinModeD PD6 OUTPUT
  pinModeD PD7 OUTPUT
  UART_waitFor READY
  EEPROM_CheckPassword hw fuel

/-- Function `main()` of the Control node. -/
def main (fuel : Nat) : M (State β) Unit := do
  boot hw fuel
  mainLoop hw fuel

end App

/-- Power-on state of the Control node in front of a device holding `mem`,
with the bytes `rx` still to arrive on the serial line. -/
def initState (mem : Nat → Nat) (rx : List Nat) : State Chip where
  g_password := fun _ => 0
  count := 0
  g_delayFlag := false
  OCR1A := 0
  OCR1B := 0
  TCNT1 := 0
  rx := rx
  trace := []
  app :=
    { g_EEPassword := fun _ => 0
      Data := 0
      DDRD := 0
      PORTD := 0
      bus := { mem := mem, blk := 0, word := 0, phase := ChipPhase.idle, TWSR := 0xF8, TWDR := 0xFF } }

/-- Bytes on the serial line that carry the credential `C` to `SetPassword`:
the token of the HMI node before each byte. -/
def framed : List Nat → List Nat
  | [] => []
  | c :: cs => READY :: c :: framed cs

end Control

/-! ## HMI node (door_lock_hmi.c) -/

namespace HMI

/-! Constants of `door_lock_hmi.h` and `gpio.h`. -/

@[reducible, simp] def READY : Nat := 0x01
@[reducible, simp] def CHECK_PASSWORD : Nat := 0x02
@[reducible, simp] def MATCH : Nat := 0x03
@[reducible, simp] def DONT_MATCH : Nat := 0x04
@[reducible, simp] def CHANGE_PASSWORD : Nat := 0x05
@[reducible, simp] def OPEN_DOOR : Nat := 0x06
@[reducible, simp] def PASS_FOUND : Nat := 0x07
@[reducible, simp] def PASS_NOT_FOUND : Nat := 0x08
@[reducible, simp] def PASS_SIZE : Nat := 5
@[reducible, simp] def PASS_ADDRESS : Nat := 0x0100

@[reducible, simp] def HIGH : Nat := 1
@[reducible, simp] def LOW : Nat := 0
@[reducible, simp] def OUTPUT : Nat := 1
@[reducible, simp] def PC0 : Nat := 0
/-- Port name `C` of gpio.h (the character code of the letter). -/
@[reducible, simp] def portC : Nat := 0x43

/-- Key code of the character '+'. -/
@[reducible, simp] def KEY_PLUS : Nat := 43
/-- Key code of the character '-'. -/
@[reducible, simp] def KEY_MINUS : Nat := 45
/-- Key code of the character '='. -/
@[reducible, simp] def KEY_EQUAL : Nat := 61

/-- Array `uint8 ROOT_PASS[PASS_SIZE] = {2,6,4,9,5}`. -/
def ROOT_PASS (i : Nat) : Nat := [2, 6, 4, 9, 5].getD i 0

/-- Globals, registers and inputs particular to the HMI node. -/
structure App where
  g_rePassword : Nat → Nat    -- uint8 g_rePassword[PASS_SIZE]
  g_T2_tick : Nat             -- uint16 g_T2_tick
  ChangePass_i : Nat          -- static int i of ChangePass
  OpenDoor_i : Nat            -- static int i of OpenDoor
  DDRC : Nat                  -- direction register of port C
  PORTC : Nat                 -- output register of port C
  keys : List Nat             -- keys that will be pressed, in order

/-- State of the HMI node. -/
abbrev State : Type := Node App

/-- Modelled from the spec: the keypad scan `KeyPad_getPressedKey()` (keypad.c
is not among the sources) blocks for one input character and returns it.  The
characters come from the stream `keys`, each pressed before the input timeout. -/
def KeyPad_getPressedKey : M State Nat := fun s =>
  match s.app.keys with
  | [] => Res.blocked s
  | k :: rest =>
      Res.done k { s with app := { s.app with keys := rest }, trace := s.trace ++ [Ev.key k] }

/-- Function `LCD_clearScreen()` (lcd.c), seen as an event. -/
@[reducible] def LCD_clearScreen : M State Unit := emit Ev.lcdClear

/-- Function `LCD_displayStringRowColumn(row, col, text)` (lcd.c), seen as an event. -/
@[reducible] def LCD_displayStringRowColumn (row col : Nat) (m : Msg) : M State Unit :=
  emit (Ev.lcdString row col m)

/-- Function `Timer2_restartTimer()` (timer.c), seen as an event. -/
@[reducible] def Timer2_restartTimer : M State Unit := emit (Ev.timer2 true)

/-- Function `Timer2_stopTimer()` (timer.c), seen as an event. -/
@[reducible] def Timer2_stopTimer : M State Unit := emit (Ev.timer2 false)

/-- Macro `pinWrite(C, pin, value)` of gpio.h. -/
def pinWriteC (pin value : Nat) : M State Unit := fun s =>
  Res.done () { s with
    app := { s.app with
      PORTC := if value = HIGH then SET_BIT s.app.PORTC pin else CLEAR_BIT s.app.PORTC pin }
    trace := s.trace ++ [Ev.pin portC pin value] }

/-- Macro `pinMode(C, pin, mode)` of gpio.h: an output pin is also driven low. -/
def pinModeC (pin mode : Nat) : M State Unit :=
  if mode = OUTPUT then do
    modifyS (fun s => { s with app := { s.app with DDRC := SET_BIT s.app.DDRC pin } })
    pinWriteC pin LOW
  else
    modifyS (fun s => { s with app := { s.app with DDRC := CLEAR_BIT s.app.DDRC pin } })

/-- Condition `count < PASS_SIZE` of the loops over the credential. -/
def countBelow (s : State) : Bool := decide (s.count < PASS_SIZE)

/-- Assignment `count = 0` that opens each loop over the credential. -/
@[reducible] def resetCount : M State Unit := modifyS (fun s => { s with count := 0 })

/-- Assignment `g_password[count] = k`. -/
@[reducible] def storeDigit (k : Nat) : M State Unit :=
  modifyS (fun s => { s with g_password := Function.update s.g_password s.count k })

/-- Assignment `g_rePassword[count] = k`. -/
@[reducible] def storeReDigit (k : Nat) : M State Unit :=
  modifyS (fun s =>
    { s with app := { s.app with g_rePassword := Function.update s.app.g_rePassword s.count k } })

/-- Assignment `g_T2_tick = 0`. -/
@[reducible] def clearTick : M State Unit :=
  modifyS (fun s => { s with app := { s.app with g_T2_tick := 0 } })

/-- Function `EnterNewPass()`: asks twice for a new credential and sends it to
the Control node. -/
def EnterNewPass : Nat → M State Unit
  | 0 => fun s => Res.noFuel s
  | fuel + 1 => do
      emit (Ev.call Fn.EnterNewPass)
      LCD_clearScreen
      LCD_displayStringRowColumn 0 0 Msg.enterNew
      resetCount
      forLoop countBelow incrCount (do
        Timer2_restartTimer
        let k ← KeyPad_getPressedKey
        storeDigit k
        Timer2_stopTimer
        clearTick
        T1_delay_msec 500
        let s ← getS
        LCD_displayStringRowColumn 1 s.count Msg.star) (fuel + 1)
      LCD_clearScreen
      LCD_displayStringRowColumn 0 0 Msg.reEnter
      resetCount
      forLoop countBelow incrCount (do
        Timer2_restartTimer
        let k ← KeyPad_getPressedKey
        storeReDigit k
        Timer2_stopTimer
        clearTick
        T1_delay_msec 500
        let s ← getS
        LCD_displayStringRowColumn 1 s.count Msg.star) (fuel + 1)
      resetCount
      forLoop countBelow incrCount (do
        let s ← getS
        if s.g_password s.count ≠ s.app.g_rePassword s.count then do
          LCD_clearScreen
          LCD_displayStringRowColumn 0 0 Msg.notMatched
          T1_delay_sec 2
          EnterNewPass fuel
        else pure ()) (fuel + 1)
      LCD_clearScreen
      LCD_displayStringRowColumn 0 0 Msg.confirmed
      resetCount
      forLoop countBelow incrCount (do
        UART_sendByte Role.token READY
        UART_waitFor READY
        let s ← getS
        UART_sendByte Role.credential (s.g_password s.count)) (fuel + 1)
      T1_delay_msec 1000

/-- Function `BlockSystem()`: buzzer on PC0 for one minute. -/
def BlockSystem : M State Unit := do
  emit (Ev.call Fn.BlockSystem)
  LCD_clearScreen
  LCD_displayStringRowColumn 0 0 Msg.blocked
  pinModeC PC0 OUTPUT
  pinWriteC PC0 HIGH
  T1_delay_sec 60
  pinWriteC PC0 LOW

/-- Function `ChangePass()`: asks for the old credential, has it checked, and
on a match asks for a new one. -/
def ChangePass : Nat → M State Unit
  | 0 => fun s => Res.noFuel s
  | fuel + 1 => do
      emit (Ev.call Fn.ChangePass)
      T1_delay_msec 500
      LCD_clearScreen
      LCD_displayStringRowColumn 0 0 Msg.enterOld
      resetCount
      forLoop countBelow incrCount (do
        Timer2_restartTimer
        let k ← KeyPad_getPressedKey
        storeDigit k
        Timer2_stopTimer
        clearTick
        T1_delay_msec 350
        let s ← getS
        LCD_displayStringRowColumn 1 s.count Msg.star) (fuel + 1)
      UART_sendByte Role.token READY
      UART_waitFor READY
      UART_sendByte Role.opcode CHECK_PASSWORD
      resetCount
      forLoop countBelow incrCount (do
        UART_waitFor READY
        let s ← getS
        UART_sendByte Role.candidate (s.g_password s.count)) (fuel + 1)
      let r ← UART_receiveByte
      if r = MATCH then do
        UART_sendByte Role.token READY
        UART_waitFor READY
        UART_sendByte Role.opcode CHANGE_PASSWORD
        EnterNewPass fuel
      else do
        modifyS (fun s => { s with app := { s.app with ChangePass_i := s.app.ChangePass_i + 1 } })
        let s ← getS
        if s.app.ChangePass_i = 3 then do
          modifyS (fun s => { s with app := { s.app with ChangePass_i := 0 } })
          BlockSystem
        else pure ()
        ChangePass fuel

/-- Function `OpenDoor()`: asks for the credential, has it checked, and on a
match asks the Control node to open the door. -/
def OpenDoor : Nat → M State Unit
  | 0 => fun s => Res.noFuel s
  | fuel + 1 => do
      emit (Ev.call Fn.OpenDoor)
      T1_delay_msec 500
      LCD_clearScreen
      LCD_displayStringRowColumn 0 0 Msg.enterPass
      resetCount
      forLoop countBelow incrCount (do
        Timer2_restartTimer
        let k ← KeyPad_getPressedKey
        storeDigit k
        Timer2_stopTimer
        clearTick
        T1_delay_msec 350
        let s ← getS
        LCD_displayStringRowColumn 1 s.count Msg.star) (fuel + 1)
      UART_sendByte Role.token READY
      UART_waitFor READY
      UART_sendByte Role.opcode CHECK_PASSWORD
      resetCount
      forLoop countBelow incrCount (do
        UART_waitFor READY
        let s ← getS
        UART_sendByte Role.candidate (s.g_password s.count)) (fuel + 1)
      let r ← UART_receiveByte
      if r = MATCH then do
        UART_sendByte Role.token READY
        UART_waitFor READY
        UART_sendByte Role.opcode OPEN_DOOR
        LCD_clearScreen
        LCD_displayStringRowColumn 0 0 Msg.doorOpen
        T1_delay_sec 10
        LCD_clearScreen
        LCD_displayStringRowColumn 0 0 Msg.doorClose
        T1_delay_sec 10
      else do
        modifyS (fun s => { s with app := { s.app with OpenDoor_i := s.app.OpenDoor_i + 1 } })
        let s ← getS
        if s.app.OpenDoor_i = 3 then do
          modifyS (fun s => { s with app := { s.app with OpenDoor_i := 0 } })
          BlockSystem
        else pure ()
        OpenDoor fuel

/-- Function `MainScreen()`: shows the menu and runs the operation chosen by
the user; the hidden third choice asks for the root credential. -/
def MainScreen : Nat → M State Unit
  | 0 => fun s => Res.noFuel s
  | fuel + 1 => do
      emit (Ev.call Fn.MainScreen)
      LCD_displayStringRowColumn 0 0 Msg.menuChange
      LCD_displayStringRowColumn 1 0 Msg.menuOpen
      let k1 ← KeyPad_getPressedKey
      if k1 = KEY_PLUS then ChangePass fuel
      else do
        let k2 ← KeyPad_getPressedKey
        if k2 = KEY_MINUS then OpenDoor fuel
        else do
          let k3 ← KeyPad_getPressedKey
          if k3 = KEY_EQUAL then do
            T1_delay_sec 3
            let k4 ← KeyPad_getPressedKey
            if k4 = KEY_EQUAL then do
              LCD_clearScreen
              LCD_displayStringRowColumn 0 0 Msg.enterRoot
              T1_delay_msec 500
              resetCount
              forLoop countBelow incrCount (do
                Timer2_restartTimer
                let k ← KeyPad_getPressedKey
                storeDigit k
                Timer2_stopTimer
                clearTick
                T1_delay_msec 500
                let s ← getS
                LCD_displayStringRowColumn 1 s.count Msg.star
                if s.g_password s.count ≠ ROOT_PASS s.count then MainScreen fuel
                else pure ()) (fuel + 1)
              UART_sendByte Role.token READY
              UART_waitFor READY
              UART_sendByte Role.opcode CHANGE_PASSWORD
              EnterNewPass fuel
            else pure ()
          else pure ()

/-- Loop `while(1) MainScreen();` of `main()`. -/
def mainLoop : Nat → M State Unit
  | 0 => fun s => Res.noFuel s
  | fuel + 1 => do
      MainScreen fuel
      mainLoop fuel

/-- Function `main()` of the HMI node, from the first display call on.  The
calls that configure the serial line and the two timers (`UART_init`,
`Timer1_Init`, `Timer1_stopTimer`, `Timer1_setCallBack`, `Timer2_Init`,
`Timer2_setCallBack`) are left out; `Timer2_stopTimer()`, called after
`Timer2_Init`, is kept. -/
def main (fuel : Nat) : M State Unit := do
  LCD_clearScreen
  Timer2_stopTimer
  UART_sendByte Role.token READY
  let r ← UART_receiveByte
  if r = PASS_NOT_FOUND then EnterNewPass fuel
  else pure ()
  LCD_clearScreen
  mainLoop fuel

/-- Power-on state of the HMI node with the keys `keys` still to be pressed
and the bytes `rx` still to arrive on the serial line. -/
def initState (keys rx : List Nat) : State where
  g_password := fun _ => 0
  count := 0
  g_delayFlag := false
  OCR1A := 0
  OCR1B := 0
  TCNT1 := 0
  rx := rx
  trace := []
  app :=
    { g_rePassword := fun _ => 0
      g_T2_tick := 0
      ChangePass_i := 0
      OpenDoor_i := 0
      DDRC := 0
      PORTC := 0
      keys := keys }

end HMI

/-! ## Projections of a trace -/

/-- Bytes received from the serial line, in order. -/
def received : List Ev → List Nat
  | [] => []
  | Ev.recv b :: t => b :: received t
  | _ :: t => received t

/-- Bytes sent on the serial line from call sites of role `r`, in order. -/
def sentAs (r : Role) : List Ev → List Nat
  | [] => []
  | Ev.send r1 b :: t => if r1 = r then b :: sentAs r t else sentAs r t
  | _ :: t => sentAs r t

/-- All bytes sent on the serial line, in order. -/
def sent : List Ev → List Nat
  | [] => []
  | Ev.send _ b :: t => b :: sent t
  | _ :: t => sent t

/-- Calls of `EEPROM_writeByte` in a trace, as (address, data) pairs. -/
def storeWrites : List Ev → List (Nat × Nat)
  | [] => []
  | Ev.eeWrite a d _ :: t => (a, d) :: storeWrites t
  | _ :: t => storeWrites t

/-- Number of entries of function `f` in a trace. -/
def calls (f : Fn) : List Ev → Nat
  | [] => 0
  | Ev.call g :: t => (if g = f then 1 else 0) + calls f t
  | _ :: t => calls f t

/-- Events of the entry of one digit `k` at position `i`, echoed after `ms`
milliseconds. -/
def digitEvents (ms i k : Nat) : List Ev :=
  [Ev.timer2 true, Ev.key k, Ev.timer2 false, Ev.delay ms, Ev.lcdString 1 i Msg.star]

/-- Events of the entry of the digits `ks` at positions `i`, `i + 1`, ... -/
def entryEvents (ms : Nat) : Nat → List Nat → List Ev
  | _, [] => []
  | i, k :: ks => digitEvents ms i k ++ entryEvents ms (i + 1) ks

/-- Events of the transmission of a candidate: each byte goes out after the
token of the Control node has been received. -/
def candidateEvents : List Nat → List Ev
  | [] => []
  | k :: ks => Ev.recv HMI.READY :: Ev.send Role.candidate k :: candidateEvents ks

/-- Events of one attempt of `OpenDoor` or `ChangePass` (function `f`, prompt
`m`) with the digits `d`, answered by the byte `r`, on a line that carries no
other byte. -/
def attemptEvents (f : Fn) (m : Msg) (d : List Nat) (r : Nat) : List Ev :=
  [Ev.call f, Ev.delay 500, Ev.lcdClear, Ev.lcdString 0 0 m] ++ entryEvents 350 0 d ++
    [Ev.send Role.token HMI.READY, Ev.recv HMI.READY, Ev.send Role.opcode HMI.CHECK_PASSWORD] ++
    candidateEvents d ++ [Ev.recv r]

/-- Events of one run of `BlockSystem`. -/
def blockEvents : List Ev :=
  [Ev.call Fn.BlockSystem, Ev.lcdClear, Ev.lcdString 0 0 Msg.blocked,
    Ev.pin HMI.portC HMI.PC0 HMI.LOW, Ev.pin HMI.portC HMI.PC0 HMI.HIGH] ++
    List.replicate 60 (Ev.delay 1000) ++ [Ev.pin HMI.portC HMI.PC0 HMI.LOW]

/-- Bytes that answer one attempt on a line that carries no other byte: the
token that opens the command, one token per candidate byte, the verdict `r`. -/
def answers (r : Nat) : List Nat :=
  [HMI.READY, HMI.READY, HMI.READY, HMI.READY, HMI.READY, HMI.READY, r]

/-- Bytes sent by the Control node at start-up that are one of the two
start-up verdicts, in order. -/
def verdicts (t : List Ev) : List Nat :=
  (sent t).filter (fun b => b == Control.PASS_FOUND || b == Control.PASS_NOT_FOUND)

/-- The run from `s` to `s1` has appended a trace segment with property `P`. -/
def Seg {α : Type} (P : List Ev → Prop) (s s1 : Node α) : Prop :=
  ∃ t, s1.trace = s.trace ++ t ∧ P t

/-- Every event of a trace segment satisfies `Q`. -/
def Each (Q : Ev → Prop) (t : List Ev) : Prop := ∀ e ∈ t, Q e

/-- A relation between the state before and the state after holds for every
run of `m`, whatever its outcome. -/
def Sat {σ α : Type} (R : σ → σ → Prop) (m : M σ α) : Prop := ∀ s, R s (m s).state

/-- A reflexive and transitive relation on states. -/
structure Stable {σ : Type} (R : σ → σ → Prop) : Prop where
  refl : ∀ s, R s s
  trans : ∀ a b c, R a b → R b c → R a c

/-- A property of trace segments that holds of the empty segment and is kept
by concatenation. -/
structure Closed (P : List Ev → Prop) : Prop where
  nil : P []
  append : ∀ a b, P a → P b → P (a ++ b)

/-- Events that put nothing but the handshake token on the serial line. -/
def tokenOnly (e : Ev) : Prop := ∀ r b, e = Ev.send r b → r = Role.token ∧ b = Control.READY

/-- Events other than an entry of `MainScreen` and a display of one of the two
lines of the main menu. -/
def noMenu (e : Ev) : Prop :=
  e ≠ Ev.call Fn.MainScreen ∧
    ∀ row col, e ≠ Ev.lcdString row col Msg.menuChange ∧ e ≠ Ev.lcdString row col Msg.menuOpen

/-- The two attempt counters of the HMI node. -/
def HMI.counters (s : HMI.State) : Nat × Nat := (s.app.ChangePass_i, s.app.OpenDoor_i)

/-- The run from `s` to `s1` has left the value of `g` as it was. -/
def Keeps {σ γ : Type} (g : σ → γ) (s s1 : σ) : Prop := g s1 = g s

/-- Start of a run of the HMI node in which `OpenDoor` is answered `DONT_MATCH`,
`DONT_MATCH`, `MATCH`, and, when called again, `DONT_MATCH`. -/
def HMI.c6State : HMI.State :=
  HMI.initState ([1, 1, 1, 1, 1] ++ [2, 2, 2, 2, 2] ++ [3, 3, 3, 3, 3] ++ [4, 4, 4, 4, 4])
    (answers HMI.DONT_MATCH ++ answers HMI.DONT_MATCH ++ answers HMI.MATCH ++ [HMI.READY]
      ++ answers HMI.DONT_MATCH)

/-- Whether a run has returned. -/
def returned {σ α : Type} : Res σ α → Bool
  | Res.done _ _ => true
  | _ => false

/-- Keys read from the keypad, in order. -/
def keysRead : List Ev → List Nat
  | [] => []
  | Ev.key k :: t => k :: keysRead t
  | _ :: t => keysRead t

/-- Start of a run of `MainScreen` in which the user declines the two menu
entries, holds '=', and types 1,1,1,1,1 at the root prompt; after each of these
digits three keys that select nothing are pressed.  The Control node answers
the handshake. -/
def HMI.c7State : HMI.State :=
  HMI.initState ([0, 0, HMI.KEY_EQUAL, HMI.KEY_EQUAL] ++
    [1, 0, 0, 0] ++ [1, 0, 0, 0] ++ [1, 0, 0, 0] ++ [1, 0, 0, 0] ++ [1, 0, 0, 0]) [HMI.READY]

/-- Start of a run of `EnterNewPass` in which the user types 1,2,3,4,5, then
1,2,3,4,6 at the re-entry prompt, then 7,7,7,7,7 at both prompts.  The Control
node answers every handshake. -/
def HMI.c9State : HMI.State :=
  HMI.initState ([1, 2, 3, 4, 5] ++ [1, 2, 3, 4, 6] ++ [7, 7, 7, 7, 7] ++ [7, 7, 7, 7, 7])
    (List.replicate 10 HMI.READY)

/-- Events of the root path of `MainScreen` when the keys `k1`, `k2` decline the
two menu entries, '=' is held, the root credential 2,6,4,9,5 is typed, and the
bytes `junk` arrive before the token of the Control node. -/
def rootEvents (k1 k2 : Nat) (junk : List Nat) : List Ev :=
  [Ev.call Fn.MainScreen, Ev.lcdString 0 0 Msg.menuChange, Ev.lcdString 1 0 Msg.menuOpen,
    Ev.key k1, Ev.key k2, Ev.key HMI.KEY_EQUAL, Ev.delay 1000, Ev.delay 1000, Ev.delay 1000,
    Ev.key HMI.KEY_EQUAL, Ev.lcdClear, Ev.lcdString 0 0 Msg.enterRoot, Ev.delay 500] ++
    entryEvents 500 0 [2, 6, 4, 9, 5] ++ [Ev.send Role.token HMI.READY] ++ junk.map Ev.recv ++
    [Ev.recv HMI.READY, Ev.send Role.opcode HMI.CHANGE_PASSWORD]

/-- Where the HMI node stands in a handshake, as seen on the serial line:
`idle`: no handshake is going on; `asked`: the HMI has sent the token and the
token has not come back yet; `granted`: the token has come back, as the last
event; `offered`: the last event is the arrival of the token, which the Control
node has sent without having been asked. -/
inductive Shake where
  | idle
  | asked
  | granted
  | offered
  deriving DecidableEq, Repr

/-- One event seen by the handshake check, `none` when the event is a byte sent
out of turn.  An opcode and a byte of a new credential may be sent in the state
`granted` only; a byte of a candidate credential may be sent in the state
`cand` only.  An event that is not a byte on the line ends a handshake. -/
def Shake.step (cand : Shake) (q : Shake) : Ev → Option Shake
  | Ev.send Role.token b => some (if b = HMI.READY then Shake.asked else Shake.idle)
  | Ev.send Role.opcode _ => if q = Shake.granted then some Shake.idle else none
  | Ev.send Role.credential _ => if q = Shake.granted then some Shake.idle else none
  | Ev.send Role.candidate _ => if q = cand then some Shake.idle else none
  | Ev.recv b =>
      if b = HMI.READY then some (if q = Shake.asked then Shake.granted else Shake.offered)
      else some (if q = Shake.asked then Shake.asked else Shake.idle)
  | _ => some Shake.idle

/-- The handshake check run over a trace from the state `q`. -/
def Shake.run (cand : Shake) : Shake → List Ev → Option Shake
  | q, [] => some q
  | q, e :: t =>
      match Shake.step cand q e with
      | some q1 => Shake.run cand q1 t
      | none => none

/-- Every opcode and every byte of a new credential in the trace comes
immediately after the HMI has sent the token and received it back, and every
byte of a candidate credential comes immediately after the HMI has sent the
token and received it back (`cand = Shake.granted`), or immediately after the
token has arrived without having been asked for (`cand = Shake.offered`). -/
def handshaked (cand : Shake) (t : List Ev) : Bool := (Shake.run cand Shake.idle t).isSome

/-- The events of a trace that are bytes on the serial line. -/
def wire : List Ev → List Ev
  | [] => []
  | Ev.send r b :: t => Ev.send r b :: wire t
  | Ev.recv b :: t => Ev.recv b :: wire t
  | _ :: t => wire t

/-- States of the handshake check other than `asked`. -/
def Shake.free (q : Shake) : Prop := q ≠ Shake.asked

/-- Trace segments that the handshake check of the code accepts from every
state other than `asked`, and that do not end in `asked`. -/
def Shut (t : List Ev) : Prop :=
  ∀ q, Shake.free q → ∃ q1, Shake.run Shake.offered q t = some q1 ∧ Shake.free q1

/-- Every run of `m` appends a trace segment that the handshake check of the
code accepts from each state in `pre`; when the run returns the check ends in a
state in `post`. -/
def Hoare {α β : Type} (pre post : Shake → Prop) (m : M (Node α) β) : Prop :=
  ∀ s, ∃ t, (m s).state.trace = s.trace ++ t ∧
    ∀ q, pre q → ∃ q1, Shake.run Shake.offered q t = some q1 ∧
      (returned (m s) = true → post q1)

/-- Start of a run of `OpenDoor` in which the user types 2,6,4,9,5 and the
Control node answers the handshake, asks for the five bytes, reports a match
and answers the second handshake. -/
def HMI.c10State : HMI.State :=
  HMI.initState [2, 6, 4, 9, 5]
    ([HMI.READY] ++ List.replicate 5 HMI.READY ++ [HMI.MATCH, HMI.READY])

/-- Events of one run of `MotorOn`. -/
def motorEvents : List Ev :=
  [Ev.call Fn.MotorOn, Ev.pin Control.portD Control.PD6 Control.HIGH,
    Ev.pin Control.portD Control.PD7 Control.LOW] ++
    List.replicate 10 (Ev.delay 1000) ++
    [Ev.pin Control.portD Control.PD6 Control.LOW, Ev.pin Control.portD Control.PD7 Control.HIGH] ++
    List.replicate 10 (Ev.delay 1000) ++
    [Ev.pin Control.portD Control.PD6 Control.LOW, Ev.pin Control.portD Control.PD7 Control.LOW]

/-- Levels of the two motor pins, (PD6, PD7), in the output register of port D. -/
def Control.motorPins (portd : Nat) : Bool × Bool :=
  (portd.testBit Control.PD6, portd.testBit Control.PD7)

/-- The output register of port D after the pin writes of a trace, oldest
first, starting from the value `portd`. -/
def Control.portAfter : Nat → List Ev → Nat
  | portd, [] => portd
  | portd, Ev.pin port pin value :: t =>
      if port = Control.portD then
        Control.portAfter
          (if value = Control.HIGH then SET_BIT portd pin else CLEAR_BIT portd pin) t
      else Control.portAfter portd t
  | portd, _ :: t => Control.portAfter portd t

/-- The HMI node together with its watchdog control register. -/
structure HMI.Mcu where
  node : HMI.State
  WDTCR : Nat                 -- watchdog control register (8 bit)

/-- Function `Timer2_CallBack()`, called at each overflow of Timer2.  `WDE` is
the number of the watchdog enable bit (avr/io.h, not among the sources). -/
def HMI.Timer2_CallBack (WDE : Nat) (m : HMI.Mcu) : HMI.Mcu :=
  let m1 : HMI.Mcu := { m with
    node := { m.node with
      app := { m.node.app with g_T2_tick := (m.node.app.g_T2_tick + 1) % 65536 } } }
  if m1.node.app.g_T2_tick = 310 then
    { node := { m1.node with app := { m1.node.app with g_T2_tick := 0 } }
      WDTCR := (1 <<< WDE) % 256 }
  else m1

/-- The state after `n` overflows of Timer2 in a row. -/
def HMI.overflows (WDE : Nat) : Nat → HMI.Mcu → HMI.Mcu
  | 0, m => m
  | n + 1, m => HMI.overflows WDE n (HMI.Timer2_CallBack WDE m)

/-- Operations of the two-wire bus that the driver can issue. -/
inductive Control.BusOp where
  | start                   -- TWI_start()
  | stop                    -- TWI_stop()
  | write (data : Nat)      -- TWI_write(data)
  | readNack                -- TWI_readWithNACK()
  deriving DecidableEq, Repr

/-- The hardware `hw` with a record of the bus operations issued, oldest first. -/
def Control.logged {β : Type} (hw : Control.TwiHw β) : Control.TwiHw (β × List Control.BusOp) where
  onStart := fun p => (hw.onStart p.1, p.2 ++ [Control.BusOp.start])
  onStop := fun p => (hw.onStop p.1, p.2 ++ [Control.BusOp.stop])
  onWrite := fun data p => (hw.onWrite data p.1, p.2 ++ [Control.BusOp.write data])
  onReadNack := fun p => (hw.onReadNack p.1, p.2 ++ [Control.BusOp.readNack])
  TWSR := fun p => hw.TWSR p.1
  TWDR := fun p => hw.TWDR p.1

/-- State of the hardware after one bus operation. -/
def Control.issue {β : Type} (hw : Control.TwiHw β) (b : β) : Control.BusOp → β
  | Control.BusOp.start => hw.onStart b
  | Control.BusOp.stop => hw.onStop b
  | Control.BusOp.write data => hw.onWrite data b
  | Control.BusOp.readNack => hw.onReadNack b

/-- State of the hardware after the bus operations `ops`, issued in order. -/
def Control.issueAll {β : Type} (hw : Control.TwiHw β) : β → List Control.BusOp → β
  | b, [] => b
  | b, op :: t => Control.issueAll hw (Control.issue hw b op) t

/-- Values that `TWI_getStatus()` returns when it is called after each of the
bus operations `ops`, issued in order. -/
def Control.statuses {β : Type} (hw : Control.TwiHw β) : β → List Control.BusOp → List Nat
  | _, [] => []
  | b, op :: t =>
      Control.TWI_getStatus hw (Control.issue hw b op)
        :: Control.statuses hw (Control.issue hw b op) t

/-- Device-select byte with write intent for the address `u16addr`
(external_eeprom.c, lines 37 and 71). -/
def Control.selectW (u16addr : Nat) : Nat :=
  (Control.EEPROM_FIXED_ADDRESS ||| ((u16addr &&& 0x0700) >>> 7)) % 256

/-- Device-select byte with read intent for the address `u16addr`
(external_eeprom.c, line 88). -/
def Control.selectR (u16addr : Nat) : Nat :=
  (Control.EEPROM_FIXED_ADDRESS ||| ((u16addr &&& 0x0700) >>> 7) ||| 1) % 256

/-- Phases of a write transaction, each followed by a status check: start,
device select, low address byte, data byte. -/
def Control.writePhases (u16addr u8data : Nat) : List Control.BusOp :=
  [Control.BusOp.start, Control.BusOp.write (Control.selectW u16addr),
    Control.BusOp.write (u16addr % 256), Control.BusOp.write u8data]

/-- Statuses that a write transaction asks for, phase by phase. -/
def Control.writeAcks : List Nat :=
  [Control.TW_START, Control.TW_MT_SLA_W_ACK, Control.TW_MT_DATA_ACK, Control.TW_MT_DATA_ACK]

/-- Phases of a read transaction, each followed by a status check: start,
device select for writing, low address byte, repeated start, device select for
reading, receive without acknowledge. -/
def Control.readPhases (u16addr : Nat) : List Control.BusOp :=
  [Control.BusOp.start, Control.BusOp.write (Control.selectW u16addr),
    Control.BusOp.write (u16addr % 256), Control.BusOp.start,
    Control.BusOp.write (Control.selectR u16addr), Control.BusOp.readNack]

/-- Statuses that a read transaction asks for, phase by phase. -/
def Control.readAcks : List Nat :=
  [Control.TW_START, Control.TW_MT_SLA_W_ACK, Control.TW_MT_DATA_ACK, Control.TW_REP_START,
    Control.TW_MT_SLA_R_ACK, Control.TW_MR_DATA_NACK]

/-- Number of leading positions at which two lists agree. -/
def agreeLen : List Nat → List Nat → Nat
  | x :: xs, y :: ys => if x = y then agreeLen xs ys + 1 else 0
  | _, _ => 0

/-- Bytes on the serial line that carry a credential to `SetPassword` when
other bytes arrive in between: before each byte of the credential the bytes of
one list of `J` and then the token of the HMI node. -/
def Control.framedAfter : List (List Nat) → List Nat → List Nat
  | j :: js, c :: cs => j ++ Control.READY :: c :: Control.framedAfter js cs
  | _, _ => []

/-- Events of the rounds of `SetPassword` from index `i` on: in each round the
bytes of one list of `J` are received and dropped, the token is received and
echoed, one byte is received and written to 0x0100 + index with result
`SUCCESS`, and 10 ms pass. -/
def Control.storeRounds : Nat → List (List Nat) → List Nat → List Ev
  | i, j :: js, c :: cs =>
      j.map Ev.recv ++
        [Ev.recv Control.READY, Ev.send Role.token Control.READY, Ev.recv c,
          Ev.eeWrite (Control.PASS_ADDRESS + i) c Control.SUCCESS, Ev.delay 10] ++
        Control.storeRounds (i + 1) js cs
  | _, _, _ => []

/-- Addresses of the calls of `EEPROM_readByte` in a trace, in order. -/
def storeReads : List Ev → List Nat
  | [] => []
  | Ev.eeRead a _ _ :: t => a :: storeReads t
  | _ :: t => storeReads t

/-- Start of a run of `CheckPassword` with 2,6,4,9,5 in the slot and the
candidate 9,6,4,9,5, which differs from it at index 0. -/
def Control.c15State : Control.State Control.Chip :=
  Control.initState (fun a => [2, 6, 4, 9, 5].getD (a - 256) 0xFF) [9, 6, 4, 9, 5]

/-- A two-wire bus with no device on it, seen from the controller: a start
condition is reported as sent (0x08, also for a repeated one), no byte written
is acknowledged (0x20), a receive is reported as a bus error (0x00), and a stop
leaves the controller idle (0xF8).  The state is the status
register; the data register reads 0xFF. -/
def Control.noDevice : Control.TwiHw Nat where
  onStart := fun _ => 0x08
  onStop := fun _ => 0xF8
  onWrite := fun _ _ => 0x20
  onReadNack := fun _ => 0x00
  TWSR := fun b => b
  TWDR := fun _ => 0xFF

/-- Results of the calls of `EEPROM_readByte` and `EEPROM_writeByte` in a
trace, in order. -/
def storeResults : List Ev → List Nat
  | [] => []
  | Ev.eeRead _ _ r :: t => r :: storeResults t
  | Ev.eeWrite _ _ r :: t => r :: storeResults t
  | _ :: t => storeResults t

/-- Power-on state of the Control node on a bus without device, with the bytes
`rx` still to arrive on the serial line. -/
def Control.bareState (rx : List Nat) : Control.State Nat where
  g_password := fun _ => 0
  count := 0
  g_delayFlag := false
  OCR1A := 0
  OCR1B := 0
  TCNT1 := 0
  rx := rx
  trace := []
  app := { g_EEPassword := fun _ => 0, Data := 0, DDRD := 0, PORTD := 0, bus := 0xF8 }

/-- Whether a run has ended waiting for input that does not arrive. -/
def waiting {σ α : Type} : Res σ α → Bool
  | Res.blocked _ => true
  | _ => false

/-- Start of a run of `MainScreen` in which the user chooses to open the door
and types 1,1,1,1,1 three times; the Control node answers each attempt with
`DONT_MATCH`.  No further key is pressed. -/
def HMI.c16State : HMI.State :=
  HMI.initState ([0, HMI.KEY_MINUS] ++ [1, 1, 1, 1, 1] ++ [1, 1, 1, 1, 1] ++ [1, 1, 1, 1, 1])
    (answers HMI.DONT_MATCH ++ answers HMI.DONT_MATCH ++ answers HMI.DONT_MATCH)

/-- The first events of every call of `OpenDoor`: entry, 500 ms, and the prompt
for the credential. -/
def openDoorPrompt : List Ev :=
  [Ev.call Fn.OpenDoor, Ev.delay 500, Ev.lcdClear, Ev.lcdString 0 0 Msg.enterPass]

/-- Time that a timer clocked at `fcpu / prescaler` hertz takes for `ticks`
counts, in nanoseconds (timer.h: Time = Prescaler / F_CPU * Ticks). -/
def timerNanos (fcpu prescaler ticks : Nat) : Nat :=
  prescaler * ticks * 1000000000 / fcpu

/-- Number of calls `T1_delay_msec(msec)` in a trace. -/
def delayCalls (msec : Nat) : List Ev → Nat
  | [] => 0
  | Ev.delay m :: t => (if m = msec then 1 else 0) + delayCalls msec t
  | _ :: t => delayCalls msec t

/-- Levels of the two motor pins after each event of a trace, oldest first,
starting from the value `portd` of the output register of port D. -/
def Control.pinLevels : Nat → List Ev → List (Bool × Bool)
  | _, [] => []
  | portd, e :: t =>
      Control.motorPins (Control.portAfter portd [e]) ::
        Control.pinLevels (Control.portAfter portd [e]) t

/-- Levels of the two motor pins at each entry of `MotorOn` in a trace, oldest
first, starting from the value `portd` of the output register of port D. -/
def Control.entryLevels : Nat → List Ev → List (Bool × Bool)
  | _, [] => []
  | portd, e :: t =>
      (if e = Ev.call Fn.MotorOn then [Control.motorPins portd] else []) ++
        Control.entryLevels (Control.portAfter portd [e]) t

/-- Relation between the states before and after a run of code of the Control
node: the output register of port D follows the pin writes of the trace, and
when both motor pins are low before the run they are never high together
during it, they are low at every entry of `MotorOn`, and low after it. -/
def Control.PinsOk {β : Type} (s s1 : Control.State β) : Prop :=
  ∃ t, s1.trace = s.trace ++ t ∧ s1.app.PORTD = Control.portAfter s.app.PORTD t ∧
    (Control.motorPins s.app.PORTD = (false, false) →
      (true, true) ∉ Control.pinLevels s.app.PORTD t ∧
      (∀ l ∈ Control.entryLevels s.app.PORTD t, l = (false, false)) ∧
      Control.motorPins s1.app.PORTD = (false, false))

/-- Events that neither write a pin nor enter `MotorOn`. -/
def Control.quietEv (e : Ev) : Prop :=
  (∀ a b c, e ≠ Ev.pin a b c) ∧ e ≠ Ev.call Fn.MotorOn

/-- Power-on state of the Control node in front of an erased device, with a
session on the line that stores the credential 1 2 3 4 5 and then asks for
the door. -/
def Control.c30State : Control.State Chip :=
  Control.initState (fun _ => 0xFF)
    ([Control.READY] ++
      [Control.READY, 1, Control.READY, 2, Control.READY, 3, Control.READY, 4, Control.READY, 5] ++
      [Control.READY, Control.OPEN_DOOR])

/-- The payload bytes `p` sent while the keys `ks` were read come from one
round of ten keys whose re-entry equals its entry: `ks` ends with that round,
a whole number of rounds comes before it, and `p` is made of copies of its five
digits, the last copy cut short when the run has stopped while sending. -/
def HMI.fromMatchingRound (ks p : List Nat) : Prop :=
  p = [] ∨ ∃ pre e k, ks = pre ++ e ++ e ∧ pre.length % 10 = 0 ∧ e.length = HMI.PASS_SIZE ∧
    p <+: (List.replicate k e).flatten

/-- Property of the result `r` of a run that started in the state `s`: either
no payload byte has been sent and the run has not returned, or the keys read
end with a round whose re-entry equals its entry `e`, a whole number of rounds
comes before it, the payload sent is a prefix of `k + 1` copies of `e`, and if
the run has returned the payload is all of these copies, `g_password` holds
`e` and `count` is 5. -/
def HMI.confirmedRun (s : HMI.State) (r : Res HMI.State Unit) : Prop :=
  ∃ t, r.state.trace = s.trace ++ t ∧
    ((sentAs Role.credential t = [] ∧ ∀ s1, r ≠ Res.done () s1) ∨
     ∃ pre e k, keysRead t = pre ++ e ++ e ∧ pre.length % 10 = 0 ∧ e.length = 5 ∧
       sentAs Role.credential t <+: (List.replicate (k + 1) e).flatten ∧
       ∀ s1, r = Res.done () s1 →
         sentAs Role.credential t = (List.replicate (k + 1) e).flatten ∧
         (List.range' 0 5).map s1.g_password = e ∧ s1.count = 5)

/-- Run of a checking automaton with the transition function `step` over a
trace, from the state `q`; `none` when the automaton refuses an event. -/
def runA {Q : Type} (step : Q → Ev → Option Q) : Q → List Ev → Option Q
  | q, [] => some q
  | q, e :: t =>
      match step q e with
      | some q1 => runA step q1 t
      | none => none

/-- Every run of `m` appends a trace segment that the automaton `step` accepts
from each state in `pre`; when the run returns the value `a`, the automaton
ends in a state in `post a`. -/
def Tracks {α β Q : Type} (step : Q → Ev → Option Q) (pre : Q → Prop) (post : β → Q → Prop)
    (m : M (Node α) β) : Prop :=
  ∀ s, ∃ t, (m s).state.trace = s.trace ++ t ∧
    ∀ q, pre q → ∃ q1, runA step q t = some q1 ∧ ∀ a s1, m s = Res.done a s1 → post a q1

/-- Where an operation that needs a verified credential stands, as seen in its
trace: `out`: the operation has not been entered; `sending k`: an attempt is
going on, `k` bytes of the candidate have been sent and no result has arrived;
`matched`: the result byte of the current attempt was `MATCH`; `failed`: the
result byte of the current attempt was another byte. -/
inductive Gate where
  | out
  | sending (k : Nat)
  | matched
  | failed
  deriving DecidableEq, Repr

/-- One event seen by the check of the operation `fn` with the opcode `op`.
An entry of `fn` starts an attempt.  The byte received after the fifth byte of
the candidate is the result byte.  The opcode `op` may be sent in the state
`matched` only.  In the state `failed` nothing is sent, received or read from
the keypad, and Timer2 is not touched: the display, the pins and the delays
are all that can be used before the next attempt. -/
def Gate.step (fn : Fn) (op : Nat) (q0 : Gate) (e0 : Ev) : Option Gate :=
  match q0, e0 with
  | q, Ev.call g => some (if g = fn then Gate.sending 0 else q)
  | Gate.failed, Ev.send _ _ => none
  | Gate.failed, Ev.recv _ => none
  | Gate.failed, Ev.key _ => none
  | Gate.failed, Ev.timer2 _ => none
  | Gate.sending k, Ev.send Role.candidate _ => some (Gate.sending (k + 1))
  | Gate.sending k, Ev.recv b =>
      some (if k = HMI.PASS_SIZE then (if b = HMI.MATCH then Gate.matched else Gate.failed)
        else Gate.sending k)
  | q, Ev.send Role.opcode b => if b = op ∧ q ≠ Gate.matched then none else some q
  | q, _ => some q

/-- Events that leave the check of `fn` and `op` in the state `q`. -/
def Gate.keeps (fn : Fn) (op : Nat) (q : Gate) (e : Ev) : Prop := Gate.step fn op q e = some q

/-- Where Timer2 stands with respect to the keypad, as seen in the trace of
the HMI node: `off`: Timer2 is stopped; `on`: Timer2 has just been started;
`got`: a key has been read while Timer2 was running; `menu`: the main menu has
just been shown, or a key of the menu has just been read. -/
inductive Arm where
  | off
  | on
  | got
  | menu
  deriving DecidableEq, Repr

/-- One event seen by the check of the input timer.  A key is read either right
after a start of Timer2, and then the next event is the stop of Timer2, or
while the main menu is shown.  Timer2 is started only while it is stopped and
stopped only right after such a key. -/
def Arm.step (q0 : Arm) (e0 : Ev) : Option Arm :=
  match q0, e0 with
  | Arm.on, Ev.key _ => some Arm.got
  | Arm.on, _ => none
  | Arm.got, Ev.timer2 false => some Arm.off
  | Arm.got, _ => none
  | _, Ev.timer2 true => some Arm.on
  | _, Ev.timer2 false => none
  | _, Ev.lcdString _ _ Msg.menuOpen => some Arm.menu
  | Arm.menu, Ev.key _ => some Arm.menu
  | Arm.menu, Ev.delay _ => some Arm.menu
  | Arm.off, Ev.key _ => none
  | _, _ => some Arm.off

/-- Timer2 is stopped and no key is awaited under it. -/
def Arm.idle (q : Arm) : Prop := q = Arm.off ∨ q = Arm.menu

/-- Relation between the states before and after a run of code of the HMI
node: the tick count of the input timer is 0 when Timer2 has been stopped
during the run, and is unchanged otherwise. -/
def HMI.TickOk (s s1 : HMI.State) : Prop :=
  ∃ t, s1.trace = s.trace ++ t ∧
    s1.app.g_T2_tick = (if Ev.timer2 false ∈ t then 0 else s.app.g_T2_tick)

/-- A digit-entry loop of `EnterNewPass`, `ChangePass` and `OpenDoor`, with the
read of the keypad as the parameter `key`: `store` is the assignment of the
digit and `ms` the delay before the echo. -/
def HMI.digitLoop (key : M HMI.State Nat) (store : Nat → M HMI.State Unit) (ms fuel : Nat) :
    M HMI.State Unit :=
  forLoop HMI.countBelow incrCount (do
    HMI.Timer2_restartTimer
    let k ← key
    store k
    HMI.Timer2_stopTimer
    HMI.clearTick
    T1_delay_msec ms
    let s ← getS
    HMI.LCD_displayStringRowColumn 1 s.count Msg.star) fuel

/-- The digit-entry loop of the root prompt of `MainScreen`, with the read of
the keypad as the parameter `key` and the call made on a wrong digit as the
parameter `again`. -/
def HMI.rootLoop (key : M HMI.State Nat) (again : M HMI.State Unit) (fuel : Nat) :
    M HMI.State Unit :=
  forLoop HMI.countBelow incrCount (do
    HMI.Timer2_restartTimer
    let k ← key
    HMI.storeDigit k
    HMI.Timer2_stopTimer
    HMI.clearTick
    T1_delay_msec 500
    let s ← getS
    HMI.LCD_displayStringRowColumn 1 s.count Msg.star
    if s.g_password s.count ≠ HMI.ROOT_PASS s.count then again
    else pure ()) fuel

/-! ## Reasoning about runs -/

section RunLemmas
variable {σ α β : Type}

@[simp] theorem pure_run (a : α) (s : σ) : (pure a : M σ α) s = Res.done a s :=
  Eq.trans rfl rfl

@[simp] theorem bind_run (m : M σ α) (f : α → M σ β) (s : σ) :
    (m >>= f) s = Res.andThen (m s) f :=
  Eq.trans rfl rfl

@[simp] theorem andThen_done (a : α) (s : σ) (f : α → σ → Res σ β) :
    Res.andThen (Res.done a s) f = f a s :=
  Eq.trans rfl rfl

@[simp] theorem andThen_blocked (s : σ) (f : α → σ → Res σ β) :
    Res.andThen (Res.blocked s : Res σ α) f = Res.blocked s :=
  Eq.trans rfl rfl

@[simp] theorem andThen_noFuel (s : σ) (f : α → σ → Res σ β) :
    Res.andThen (Res.noFuel s : Res σ α) f = Res.noFuel s :=
  Eq.trans rfl rfl

@[simp] theorem state_done (a : α) (s : σ) : (Res.done a s).state = s :=
  Eq.trans rfl rfl

@[simp] theorem state_blocked (s : σ) : (Res.blocked s : Res σ α).state = s :=
  Eq.trans rfl rfl

@[simp] theorem state_noFuel (s : σ) : (Res.noFuel s : Res σ α).state = s :=
  Eq.trans rfl rfl

@[simp] theorem ite_run (c : Prop) [Decidable c] (m1 m2 : M σ α) (s : σ) :
    (if c then m1 else m2) s = if c then m1 s else m2 s := by
  split <;> rfl

theorem andThen_ite (c : Prop) [Decidable c] (r1 r2 : Res σ α) (f : α → σ → Res σ β) :
    Res.andThen (if c then r1 else r2) f = if c then Res.andThen r1 f else Res.andThen r2 f := by
  split <;> rfl

@[simp] theorem getS_run (s : σ) : (getS : M σ σ) s = Res.done s s :=
  Eq.trans rfl rfl

@[simp] theorem modifyS_run (f : σ → σ) (s : σ) : modifyS f s = Res.done () (f s) :=
  Eq.trans rfl rfl

@[simp] theorem emit_run (e : Ev) (s : Node α) :
    emit e s = Res.done () { s with trace := s.trace ++ [e] } :=
  Eq.trans rfl rfl

@[simp] theorem UART_sendByte_run (r : Role) (b : Nat) (s : Node α) :
    UART_sendByte r b s = Res.done () { s with trace := s.trace ++ [Ev.send r b] } :=
  Eq.trans rfl rfl

@[simp] theorem UART_waitFor_run (tok : Nat) (s : Node α) :
    UART_waitFor tok s = waitFor tok s.rx s :=
  Eq.trans rfl rfl

@[simp] theorem T1_delay_msec_run (msec : Nat) (s : Node α) :
    T1_delay_msec msec s = Res.done () { s with
      OCR1A := (msec * 8) % 65536, OCR1B := 0, TCNT1 := 0, g_delayFlag := false,
      trace := s.trace ++ [Ev.delay msec] } :=
  Eq.trans rfl rfl

theorem sat_pure {R : σ → σ → Prop} (hR : Stable R) (a : α) : Sat R (pure a : M σ α) :=
  fun s => hR.refl s

theorem sat_bind {R : σ → σ → Prop} (hR : Stable R) {m : M σ α} {f : α → M σ β}
    (hm : Sat R m) (hf : ∀ a, Sat R (f a)) : Sat R (m >>= f) := by
  intro s
  have h1 := hm s
  simp only [bind_run]
  cases h : m s with
  | done a s1 =>
      rw [h] at h1
      exact hR.trans _ _ _ h1 (hf a s1)
  | blocked s1 => rw [h] at h1; exact h1
  | noFuel s1 => rw [h] at h1; exact h1

theorem sat_ite {R : σ → σ → Prop} {c : Prop} [Decidable c] {m1 m2 : M σ α}
    (h1 : Sat R m1) (h2 : Sat R m2) : Sat R (if c then m1 else m2) := by
  split
  · exact h1
  · exact h2

theorem sat_getS {R : σ → σ → Prop} (hR : Stable R) : Sat R (getS : M σ σ) :=
  fun s => hR.refl s

theorem sat_modifyS {R : σ → σ → Prop} {f : σ → σ} (hf : ∀ s, R s (f s)) :
    Sat R (modifyS f) := fun s => hf s

theorem sat_forLoop {R : σ → σ → Prop} (hR : Stable R) {cond : σ → Bool} {step : σ → σ}
    {body : M σ Unit} (hstep : ∀ s, R s (step s)) (hbody : Sat R body) (fuel : Nat) :
    Sat R (forLoop cond step body fuel) := by
  induction fuel with
  | zero => intro s; exact hR.refl s
  | succ n ih =>
      intro s
      simp only [forLoop]
      split
      · have h1 := hbody s
        cases h : body s with
        | done a s1 =>
            rw [h] at h1
            exact hR.trans _ _ _ h1 (hR.trans _ _ _ (hstep s1) (ih (step s1)))
        | blocked s1 => rw [h] at h1; exact h1
        | noFuel s1 => rw [h] at h1; exact h1
      · exact hR.refl s

end RunLemmas

namespace Control

theorem sat_forLoopRet {σ : Type} {R : σ → σ → Prop} (hR : Stable R) {cond : σ → Bool}
    {step : σ → σ} {body : M σ Bool} (hstep : ∀ s, R s (step s)) (hbody : Sat R body)
    (fuel : Nat) : Sat R (forLoopRet cond step body fuel) := by
  induction fuel with
  | zero => intro s; exact hR.refl s
  | succ n ih =>
      intro s
      simp only [forLoopRet]
      split
      · have h1 := hbody s
        cases h : body s with
        | done a s1 =>
            rw [h] at h1
            simp only [andThen_done]
            split
            · exact h1
            · exact hR.trans _ _ _ h1 (hR.trans _ _ _ (hstep s1) (ih (step s1)))
        | blocked s1 => rw [h] at h1; exact h1
        | noFuel s1 => rw [h] at h1; exact h1
      · exact hR.refl s

end Control

/-! ## Properties of trace segments -/

section Segments
variable {α : Type}

theorem each_closed (Q : Ev → Prop) : Closed (Each Q) where
  nil := by intro e he; cases he
  append := by
    intro a b ha hb e he
    rcases List.mem_append.mp he with h | h
    · exact ha e h
    · exact hb e h

theorem each_single {Q : Ev → Prop} {e : Ev} (h : Q e) : Each Q [e] := by
  intro x hx
  rw [List.mem_singleton] at hx
  subst hx
  exact h

theorem seg_stable {P : List Ev → Prop} (hP : Closed P) :
    Stable (Seg P : Node α → Node α → Prop) where
  refl := fun s => ⟨[], by simp, hP.nil⟩
  trans := by
    rintro a b c ⟨t1, h1, p1⟩ ⟨t2, h2, p2⟩
    exact ⟨t1 ++ t2, by rw [h2, h1, List.append_assoc], hP.append _ _ p1 p2⟩

theorem seg_emit {P : List Ev → Prop} {e : Ev} (he : P [e]) :
    Sat (Seg P) (emit e : M (Node α) Unit) :=
  fun s => ⟨[e], by simp, he⟩

theorem seg_send {P : List Ev → Prop} {r : Role} {b : Nat} (he : P [Ev.send r b]) :
    Sat (Seg P) (UART_sendByte r b : M (Node α) Unit) :=
  fun s => ⟨[Ev.send r b], by simp, he⟩

theorem seg_modify {P : List Ev → Prop} (hP : Closed P) {f : Node α → Node α}
    (hf : ∀ s, (f s).trace = s.trace) : Sat (Seg P) (modifyS f) :=
  fun s => ⟨[], by simp [hf], hP.nil⟩

theorem seg_recv {P : List Ev → Prop} (hP : Closed P) (h : ∀ b, P [Ev.recv b]) :
    Sat (Seg P) (UART_receiveByte : M (Node α) Nat) := by
  intro s
  unfold UART_receiveByte
  split
  · exact ⟨[], by simp, hP.nil⟩
  · rename_i b rest hb
    exact ⟨[Ev.recv b], by simp, h b⟩

theorem seg_waitFor_aux {P : List Ev → Prop} (hP : Closed P) (h : ∀ b, P [Ev.recv b])
    (tok : Nat) (rx : List Nat) : ∀ s : Node α, Seg P s (waitFor tok rx s).state := by
  induction rx with
  | nil => intro s; exact ⟨[], by simp [waitFor], hP.nil⟩
  | cons b rest ih =>
      intro s
      simp only [waitFor]
      split
      · obtain ⟨t, ht, pt⟩ := ih { s with rx := rest, trace := s.trace ++ [Ev.recv b] }
        exact ⟨[Ev.recv b] ++ t, by rw [ht]; simp, hP.append _ _ (h b) pt⟩
      · exact ⟨[Ev.recv b], by simp, h b⟩

theorem seg_waitFor {P : List Ev → Prop} (hP : Closed P) (h : ∀ b, P [Ev.recv b])
    (tok : Nat) : Sat (Seg P) (UART_waitFor tok : M (Node α) Unit) :=
  fun s => seg_waitFor_aux hP h tok s.rx s

theorem seg_delay {P : List Ev → Prop} (msec : Nat) (h : P [Ev.delay msec]) :
    Sat (Seg P) (T1_delay_msec msec : M (Node α) Unit) :=
  fun s => ⟨[Ev.delay msec], by simp, h⟩

theorem sat_delay_loop {R : Node α → Node α → Prop} (hR : Stable R)
    (hd : Sat R (T1_delay_msec 1000 : M (Node α) Unit)) (todo : Nat) :
    ∀ i, Sat R (T1_delay_sec_loop todo i : M (Node α) Unit) := by
  induction todo with
  | zero => intro i; exact sat_pure hR ()
  | succ n ih =>
      intro i
      unfold T1_delay_sec_loop
      exact sat_bind hR hd (fun _ => sat_ite (fun s => hR.refl s) (ih (i + 1)))

theorem sat_delay_sec {R : Node α → Node α → Prop} (hR : Stable R)
    (hd : Sat R (T1_delay_msec 1000 : M (Node α) Unit)) (sec : Nat) :
    Sat R (T1_delay_sec sec : M (Node α) Unit) :=
  sat_delay_loop hR hd _ 0

theorem seg_delay_sec {P : List Ev → Prop} (hP : Closed P) (h : P [Ev.delay 1000])
    (sec : Nat) : Sat (Seg P) (T1_delay_sec sec : M (Node α) Unit) :=
  sat_delay_sec (seg_stable hP) (seg_delay 1000 h) sec

theorem seg_incrCount {P : List Ev → Prop} (hP : Closed P) (s : Node α) :
    Seg P s (incrCount s) := ⟨[], by simp [incrCount], hP.nil⟩

end Segments

namespace Control
open ChipPhase

/-! ### The acknowledging device seen from the driver -/

theorem chip_write (c : Chip) (a d : Nat) (h1 : 256 ≤ a) (h2 : a < 261) (h : c.phase = idle) :
    EEPROM_writeByte chipHw a d c
      = (1, { c with mem := Function.update c.mem a d, blk := 1, word := a - 256, TWSR := 0x28 }) := by
  obtain ⟨mem, blk, word, phase, sr, dr⟩ := c
  simp only at h
  subst h
  interval_cases a <;>
  simp +decide [EEPROM_writeByte, TWI_start, TWI_write, TWI_stop, TWI_getStatus, chipHw,
    Chip.onStart, Chip.onWrite, Chip.onStop, Chip.ptr] <;> rfl

theorem chip_read (c : Chip) (a : Nat) (h1 : 256 ≤ a) (h2 : a < 261) (h : c.phase = idle) :
    EEPROM_readByte chipHw a c
      = (1, some (c.mem a), { c with blk := 1, word := a - 256, TWSR := 0x58, TWDR := c.mem a }) := by
  obtain ⟨mem, blk, word, phase, sr, dr⟩ := c
  simp only at h
  subst h
  interval_cases a <;>
  simp +decide [EEPROM_readByte, TWI_start, TWI_write, TWI_stop, TWI_getStatus, chipHw,
    Chip.onStart, Chip.onWrite, Chip.onStop, Chip.ptr, Chip.onReadNack, TWI_readWithNACK] <;> rfl

theorem storeWrite_chip (s : State Chip) (a d : Nat) (h1 : 256 ≤ a) (h2 : a < 261)
    (h : s.app.bus.phase = idle) :
    storeWrite chipHw a d s = Res.done 1 { s with
      app := { s.app with bus := { s.app.bus with
        mem := Function.update s.app.bus.mem a d, blk := 1, word := a - 256, TWSR := 0x28 } }
      trace := s.trace ++ [Ev.eeWrite a d 1] } := by
  simp [storeWrite, chip_write, h1, h2, h]

theorem storeRead_chip (s : State Chip) (a : Nat) (h1 : 256 ≤ a) (h2 : a < 261)
    (h : s.app.bus.phase = idle) :
    storeRead chipHw a s = Res.done 1 { s with
      app := { s.app with
        bus := { s.app.bus with blk := 1, word := a - 256, TWSR := 0x58, TWDR := s.app.bus.mem a }
        g_EEPassword := Function.update s.app.g_EEPassword s.count (s.app.bus.mem a) }
      trace := s.trace ++ [Ev.eeRead a (s.app.bus.mem a) 1] } := by
  simp [storeRead, chip_read, h1, h2, h]

theorem list_of_length_five {α : Type} (C : List α) (h : C.length = 5) :
    ∃ c0 c1 c2 c3 c4, C = [c0, c1, c2, c3, c4] := by
  match C, h with
  | [c0, c1, c2, c3, c4], _ => exact ⟨c0, c1, c2, c3, c4, rfl⟩

theorem fuel_above_five (f : Nat) (h : 5 < f) : ∃ n, f = n + 6 :=
  ⟨f - 6, by omega⟩

/-! ### Credential round trip (C1) -/

/-- C1: for every credential `C` of `PASS_SIZE` bytes and every initial store
content, when `SetPassword` receives the bytes of `C` (each after the token of
the HMI node) and every bus transaction succeeds against the byte-addressable
device, `SetPassword` returns with `C` in the slot, and a following
`CheckPassword` that receives the same five bytes returns having sent exactly
one verdict, `MATCH`. -/
theorem C1_provision_then_verify (s : State Chip) (C rest : List Nat) (f1 f2 : Nat)
    (hC : C.length = PASS_SIZE) (hf1 : PASS_SIZE < f1) (hf2 : PASS_SIZE < f2)
    (hidle : s.app.bus.phase = ChipPhase.idle) (hrx : s.rx = framed C ++ C ++ rest) :
    ∃ s1 s2 t, SetPassword chipHw f1 s = Res.done () s1 ∧ s1.app.bus.slot = C ∧
      CheckPassword chipHw f2 s1 = Res.done () s2 ∧ s2.trace = s1.trace ++ t ∧
      received t = C ∧ sentAs Role.opcode t = [MATCH] := by
  obtain ⟨c0, c1, c2, c3, c4, rfl⟩ := list_of_length_five C hC
  obtain ⟨n1, rfl⟩ := fuel_above_five f1 hf1
  obtain ⟨n2, rfl⟩ := fuel_above_five f2 hf2
  obtain ⟨gp, cnt, fl, ra, rb, tc, rx, tr, ⟨ee, data, ddr, port, ⟨mem, blk, word, phase, sr, dr⟩⟩⟩ := s
  simp only at hidle hrx
  subst hidle hrx
  simp [SetPassword, CheckPassword, forLoop, forLoopRet, countBelow, resetCount, incrCount,
    waitFor, UART_receiveByte, storeWrite_chip, storeRead_chip, framed, Chip.slot,
    List.range_succ, received, sentAs]

/-- Witness for C1: the credential 2,6,4,9,5 on an erased device. -/
theorem C1_provision_then_verify_witness :
    ([2, 6, 4, 9, 5] : List Nat).length = PASS_SIZE ∧ PASS_SIZE < 6 ∧
    (initState (fun _ => 0xFF) (framed [2, 6, 4, 9, 5] ++ [2, 6, 4, 9, 5] ++ [])).app.bus.phase
      = ChipPhase.idle ∧
    ∃ s1 s2 t,
      SetPassword chipHw 6 (initState (fun _ => 0xFF) (framed [2, 6, 4, 9, 5] ++ [2, 6, 4, 9, 5] ++ []))
        = Res.done () s1 ∧ s1.app.bus.slot = [2, 6, 4, 9, 5] ∧
      CheckPassword chipHw 6 s1 = Res.done () s2 ∧ s2.trace = s1.trace ++ t ∧
      received t = [2, 6, 4, 9, 5] ∧ sentAs Role.opcode t = [MATCH] :=
  ⟨by decide, by decide, rfl,
    C1_provision_then_verify
      (initState (fun _ => 0xFF) (framed [2, 6, 4, 9, 5] ++ [2, 6, 4, 9, 5] ++ []))
      [2, 6, 4, 9, 5] [] 6 6 (by decide) (by decide) (by decide) rfl rfl⟩

/-! ### Verdict of a verification (C2) -/

/-- C2: with the stored credential in the slot and every store read
succeeding, `CheckPassword` receives the five bytes of the candidate `C'`,
sending nothing but its five tokens meanwhile, and then sends exactly one
verdict byte as its last action: `DONT_MATCH` when `C'` differs from the stored
credential (so `MATCH` is never sent then), `MATCH` when it is equal. -/
theorem C2_mismatch_verdict (s : State Chip) (C' rest : List Nat) (f : Nat)
    (hC : C'.length = PASS_SIZE) (hf : PASS_SIZE < f)
    (hidle : s.app.bus.phase = ChipPhase.idle) (hrx : s.rx = C' ++ rest) :
    ∃ t s2, CheckPassword chipHw f s = Res.done () s2 ∧
      s2.trace = s.trace ++ t ++
        [Ev.send Role.opcode (if C' = s.app.bus.slot then MATCH else DONT_MATCH)] ∧
      received t = C' ∧ sent t = [READY, READY, READY, READY, READY] := by
  obtain ⟨c0, c1, c2, c3, c4, rfl⟩ := list_of_length_five C' hC
  obtain ⟨n, rfl⟩ := fuel_above_five f hf
  obtain ⟨gp, cnt, fl, ra, rb, tc, rx, tr, ⟨ee, data, ddr, port, ⟨mem, blk, word, phase, sr, dr⟩⟩⟩ := s
  simp only at hidle hrx
  subst hidle hrx
  refine ⟨[Ev.call Fn.CheckPassword,
    Ev.send Role.token 1, Ev.recv c0, Ev.eeRead 256 (mem 256) 1, Ev.delay 10,
    Ev.send Role.token 1, Ev.recv c1, Ev.eeRead 257 (mem 257) 1, Ev.delay 10,
    Ev.send Role.token 1, Ev.recv c2, Ev.eeRead 258 (mem 258) 1, Ev.delay 10,
    Ev.send Role.token 1, Ev.recv c3, Ev.eeRead 259 (mem 259) 1, Ev.delay 10,
    Ev.send Role.token 1, Ev.recv c4, Ev.eeRead 260 (mem 260) 1, Ev.delay 10], ?_⟩
  simp [CheckPassword, forLoop, forLoopRet, countBelow, resetCount, incrCount,
    UART_receiveByte, storeRead_chip, Chip.slot, List.range_succ, andThen_ite, received, sent]
  split_ifs <;> simp_all

/-- Witness for C2: the slot holds 2,6,4,9,5 and the candidate is 2,6,4,9,1. -/
theorem C2_mismatch_verdict_witness :
    ([2, 6, 4, 9, 1] : List Nat).length = PASS_SIZE ∧ PASS_SIZE < 6 ∧
    (initState (fun a => [2, 6, 4, 9, 5].getD (a - 256) 0xFF) [2, 6, 4, 9, 1]).app.bus.phase
      = ChipPhase.idle ∧
    ∃ t s2,
      CheckPassword chipHw 6 (initState (fun a => [2, 6, 4, 9, 5].getD (a - 256) 0xFF) [2, 6, 4, 9, 1])
        = Res.done () s2 ∧
      s2.trace = (initState (fun a => [2, 6, 4, 9, 5].getD (a - 256) 0xFF) [2, 6, 4, 9, 1]).trace
        ++ t ++ [Ev.send Role.opcode
          (if [2, 6, 4, 9, 1]
              = (initState (fun a => [2, 6, 4, 9, 5].getD (a - 256) 0xFF) [2, 6, 4, 9, 1]).app.bus.slot
           then MATCH else DONT_MATCH)] ∧
      received t = [2, 6, 4, 9, 1] ∧ sent t = [READY, READY, READY, READY, READY] :=
  ⟨by decide, by decide, rfl,
    C2_mismatch_verdict (initState (fun a => [2, 6, 4, 9, 5].getD (a - 256) 0xFF) [2, 6, 4, 9, 1])
      [2, 6, 4, 9, 1] [] 6 (by decide) (by decide) rfl rfl⟩

/-! ### Verdict at start-up (C3) -/

theorem seg_storeWrite {β : Type} (hw : TwiHw β) {P : List Ev → Prop}
    (h : ∀ a d r, P [Ev.eeWrite a d r]) (a d : Nat) : Sat (Seg P) (storeWrite hw a d) :=
  fun _ => ⟨[Ev.eeWrite a d _], rfl, h _ _ _⟩

theorem seg_storeRead {β : Type} (hw : TwiHw β) {P : List Ev → Prop}
    (h : ∀ a d r, P [Ev.eeRead a d r]) (a : Nat) : Sat (Seg P) (storeRead hw a) :=
  fun _ => ⟨[Ev.eeRead a _ _], rfl, h _ _ _⟩

theorem SetPassword_tokenOnly {β : Type} (hw : TwiHw β) (f : Nat) :
    Sat (Seg (Each tokenOnly)) (SetPassword hw f) := by
  have hP := each_closed tokenOnly
  have hS : Stable (Seg (Each tokenOnly) : State β → State β → Prop) := seg_stable hP
  unfold SetPassword
  refine sat_bind hS (seg_emit (each_single (by simp [tokenOnly]))) fun _ => ?_
  refine sat_bind hS (seg_modify hP (fun _ => rfl)) fun _ => ?_
  refine sat_forLoop hS (seg_incrCount hP) ?_ f
  refine sat_bind hS (seg_waitFor hP (fun b => each_single (by simp [tokenOnly])) _) fun _ => ?_
  refine sat_bind hS (seg_send (each_single (by simp [tokenOnly]))) fun _ => ?_
  refine sat_bind hS (seg_recv hP (fun b => each_single (by simp [tokenOnly]))) fun _ => ?_
  refine sat_bind hS (seg_modify hP (fun _ => rfl)) fun _ => ?_
  refine sat_bind hS (sat_getS hS) fun _ => ?_
  exact sat_bind hS (seg_storeWrite hw (fun _ _ _ => each_single (by simp [tokenOnly])) _ _)
    fun _ => seg_delay _ (each_single (by simp [tokenOnly]))

theorem sent_append (a b : List Ev) : sent (a ++ b) = sent a ++ sent b := by
  induction a with
  | nil => rfl
  | cons e t ih => cases e <;> simp [sent, ih]

theorem verdicts_append (a b : List Ev) : verdicts (a ++ b) = verdicts a ++ verdicts b := by
  simp [verdicts, sent_append]

theorem verdicts_tokenOnly (t : List Ev) (h : Each tokenOnly t) : verdicts t = [] := by
  induction t with
  | nil => rfl
  | cons e t ih =>
      have ht : Each tokenOnly t := fun x hx => h x (List.mem_cons_of_mem _ hx)
      have he : tokenOnly e := h e (List.mem_cons_self _ _)
      have hv : verdicts (e :: t) = verdicts [e] ++ verdicts t := verdicts_append [e] t
      rw [hv, ih ht]
      cases e with
      | send r b =>
          obtain ⟨_, hb⟩ := he r b rfl
          subst hb
          rfl
      | _ => rfl

/-- C3: with every store read succeeding, whatever arrives on the serial line
afterwards and however the run ends, `EEPROM_CheckPassword` puts exactly one
start-up verdict on the line: `PASS_NOT_FOUND` if all five bytes at
0x0100..0x0104 are 0xFF, and `PASS_FOUND` otherwise (also when a single byte
differs from 0xFF). -/
theorem C3_bootstrap_verdict (s : State Chip) (f : Nat) (hf : PASS_SIZE < f)
    (hidle : s.app.bus.phase = ChipPhase.idle) :
    ∃ t, (EEPROM_CheckPassword chipHw f s).state.trace = s.trace ++ t ∧
      verdicts t = [if s.app.bus.slot = [0xFF, 0xFF, 0xFF, 0xFF, 0xFF] then PASS_NOT_FOUND
                    else PASS_FOUND] := by
  obtain ⟨n, rfl⟩ := fuel_above_five f hf
  obtain ⟨gp, cnt, fl, ra, rb, tc, rx, tr, ⟨ee, data, ddr, port, ⟨mem, blk, word, phase, sr, dr⟩⟩⟩ := s
  simp only at hidle
  subst hidle
  simp [EEPROM_CheckPassword, forLoopRet, countBelow, resetCount, incrCount,
    storeRead_chip, Chip.slot, List.range_succ, andThen_ite]
  split_ifs
  all_goals first | (simp_all [verdicts, sent]; done) | skip
  obtain ⟨t2, ht2, hq⟩ := SetPassword_tokenOnly chipHw (n + 6)
    { g_password := gp, count := 5, g_delayFlag := false, OCR1A := 80, OCR1B := 0, TCNT1 := 0,
      rx := rx,
      trace := tr ++ [Ev.call Fn.EEPROM_CheckPassword, Ev.eeRead 256 (mem 256) 1, Ev.delay 10,
        Ev.eeRead 257 (mem 257) 1, Ev.delay 10, Ev.eeRead 258 (mem 258) 1, Ev.delay 10,
        Ev.eeRead 259 (mem 259) 1, Ev.delay 10, Ev.eeRead 260 (mem 260) 1, Ev.delay 10,
        Ev.send Role.opcode 8],
      app :=
        { g_EEPassword := Function.update (Function.update (Function.update (Function.update
            (Function.update ee 0 (mem 256)) 1 (mem 257)) 2 (mem 258)) 3 (mem 259)) 4 (mem 260),
          Data := data, DDRD := ddr, PORTD := port,
          bus := { mem := mem, blk := 1, word := 4, phase := ChipPhase.idle, TWSR := 88,
                   TWDR := mem 260 } } }
  refine ⟨[Ev.call Fn.EEPROM_CheckPassword, Ev.eeRead 256 (mem 256) 1, Ev.delay 10,
        Ev.eeRead 257 (mem 257) 1, Ev.delay 10, Ev.eeRead 258 (mem 258) 1, Ev.delay 10,
        Ev.eeRead 259 (mem 259) 1, Ev.delay 10, Ev.eeRead 260 (mem 260) 1, Ev.delay 10,
        Ev.send Role.opcode 8] ++ t2, by rw [ht2, List.append_assoc], ?_⟩
  rw [verdicts_append, verdicts_tokenOnly t2 hq]
  simp_all [verdicts, sent]

/-- Witness for C3: a slot that is erased except for its third byte. -/
theorem C3_bootstrap_verdict_witness :
    PASS_SIZE < 6 ∧
    (initState (fun a => if a = 0x102 then 3 else 0xFF) []).app.bus.phase = ChipPhase.idle ∧
    ∃ t, (EEPROM_CheckPassword chipHw 6
            (initState (fun a => if a = 0x102 then 3 else 0xFF) [])).state.trace
          = (initState (fun a => if a = 0x102 then 3 else 0xFF) []).trace ++ t ∧
      verdicts t =
        [if (initState (fun a => if a = 0x102 then 3 else 0xFF) []).app.bus.slot
              = [0xFF, 0xFF, 0xFF, 0xFF, 0xFF]
         then PASS_NOT_FOUND else PASS_FOUND] :=
  ⟨by decide, rfl,
    C3_bootstrap_verdict (initState (fun a => if a = 0x102 then 3 else 0xFF) []) 6
      (by decide) rfl⟩

theorem mainLoop_first {β : Type} (hw : TwiHw β) (f d : Nat)
    (gp : Nat → Nat) (cnt : Nat) (fl : Bool) (ra rb tc : Nat) (rest : List Nat) (tr : List Ev)
    (app : App β) :
    mainLoop hw (f + 1)
        { g_password := gp, count := cnt, g_delayFlag := fl, OCR1A := ra, OCR1B := rb,
          TCNT1 := tc, rx := READY :: d :: rest, trace := tr, app := app }
      = (dispatch hw f d >>= fun _ => mainLoop hw f)
          { g_password := gp, count := cnt, g_delayFlag := fl, OCR1A := ra, OCR1B := rb,
            TCNT1 := tc, rx := rest,
            trace := tr ++ [Ev.recv READY, Ev.send Role.token READY, Ev.recv d],
            app := { app with Data := d } } := by
  rw [mainLoop]
  simp only [bind_run, andThen_done, UART_waitFor_run, waitFor, UART_sendByte_run,
    UART_receiveByte, modifyS_run, READY, List.append_assoc, List.singleton_append,
    List.cons_append, List.nil_append, ne_eq, not_true_eq_false, if_false]

end Control

namespace HMI

/-! ### Segment lemmas for the peripherals of the HMI node -/

theorem seg_key {P : List Ev → Prop} (hP : Closed P) (h : ∀ k, P [Ev.key k]) :
    Sat (Seg P) KeyPad_getPressedKey := by
  intro s
  unfold KeyPad_getPressedKey
  split
  · exact ⟨[], by simp, hP.nil⟩
  · rename_i k rest hk
    exact ⟨[Ev.key k], by simp, h k⟩

theorem seg_pinWriteC {P : List Ev → Prop} (h : ∀ a b c, P [Ev.pin a b c]) (pin value : Nat) :
    Sat (Seg P) (pinWriteC pin value) :=
  fun _ => ⟨[Ev.pin _ _ _], rfl, h _ _ _⟩

theorem EnterNewPass_noMenu (f : Nat) : Sat (Seg (Each noMenu)) (EnterNewPass f) := by
  have hP := each_closed noMenu
  have hS : Stable (Seg (Each noMenu) : State → State → Prop) := seg_stable hP
  induction f with
  | zero => intro s; exact hS.refl s
  | succ n ih =>
      unfold EnterNewPass
      repeat' with_reducible first
        | refine sat_bind hS ?_ (fun _ => ?_)
        | refine sat_forLoop hS (seg_incrCount hP) ?_ _
        | refine sat_ite ?_ ?_
        | exact ih
        | exact sat_pure hS _
        | exact sat_getS hS
        | exact seg_emit (each_single (by simp [noMenu]))
        | exact seg_waitFor hP (fun b => each_single (by simp [noMenu])) _
        | exact seg_recv hP (fun b => each_single (by simp [noMenu]))
        | exact seg_key hP (fun b => each_single (by simp [noMenu]))
        | exact seg_delay _ (each_single (by simp [noMenu]))
        | exact seg_delay_sec hP (each_single (by simp [noMenu])) _
        | exact seg_modify hP (fun _ => rfl)

end HMI

/-! ### Start-up of the two nodes (C4) -/

/-- C4: (1) when the slot holds five bytes 0xFF at start-up, the Control node,
before its command loop starts, sends `PASS_NOT_FOUND` and runs `SetPassword`
to completion: five bytes received after a handshake each and written to
0x0100..0x0104, which then hold the credential; `main` continues as the command
loop from that state.  (2) When the slot is not blank the Control node sends
`PASS_FOUND`, and up to the moment the first opcode `d` has been read and is
dispatched it has made no call of `EEPROM_writeByte` and the store content is
unchanged.  (3) The HMI node, on receiving `PASS_NOT_FOUND`, continues as
`EnterNewPass` followed by the menu loop, and no run of `EnterNewPass` enters
`MainScreen` or shows a line of the main menu. -/
theorem C4_forced_provisioning
    (sc : Control.State Control.Chip) (C restc : List Nat) (fc : Nat)
    (hC : C.length = Control.PASS_SIZE) (hfc : Control.PASS_SIZE < fc)
    (hidlec : sc.app.bus.phase = Control.ChipPhase.idle)
    (hblank : sc.app.bus.slot = [0xFF, 0xFF, 0xFF, 0xFF, 0xFF])
    (hrxc : sc.rx = Control.READY :: (Control.framed C ++ restc))
    (sf : Control.State Control.Chip) (d : Nat) (restf : List Nat) (ff : Nat)
    (hff : Control.PASS_SIZE < ff)
    (hidlef : sf.app.bus.phase = Control.ChipPhase.idle)
    (hfound : sf.app.bus.slot ≠ [0xFF, 0xFF, 0xFF, 0xFF, 0xFF])
    (hrxf : sf.rx = Control.READY :: Control.READY :: d :: restf)
    (sh : HMI.State) (resth : List Nat) (fh : Nat)
    (hrxh : sh.rx = HMI.PASS_NOT_FOUND :: resth) :
    (∃ t s1, Control.boot Control.chipHw fc sc = Res.done () s1 ∧
        Control.main Control.chipHw fc sc = Control.mainLoop Control.chipHw fc s1 ∧
        s1.trace = sc.trace ++ t ∧
        sent t = [Control.PASS_NOT_FOUND, Control.READY, Control.READY, Control.READY,
                  Control.READY, Control.READY] ∧
        received t = Control.READY :: Control.framed C ∧
        storeWrites t = List.zip [0x100, 0x101, 0x102, 0x103, 0x104] C ∧
        s1.app.bus.slot = C ∧ s1.rx = restc) ∧
    (∃ t s1, Control.boot Control.chipHw (ff + 1) sf = Res.done () s1 ∧
        Control.main Control.chipHw (ff + 1) sf
          = (Control.dispatch Control.chipHw ff d >>= fun _ => Control.mainLoop Control.chipHw ff)
              { s1 with
                rx := restf
                trace := s1.trace ++ [Ev.recv Control.READY, Ev.send Role.token Control.READY,
                                      Ev.recv d]
                app := { s1.app with Data := d } } ∧
        s1.trace = sf.trace ++ t ∧ sentAs Role.opcode t = [Control.PASS_FOUND] ∧
        storeWrites t = [] ∧ s1.app.bus.mem = sf.app.bus.mem) ∧
    (HMI.main fh sh
        = (do HMI.EnterNewPass fh; HMI.LCD_clearScreen; HMI.mainLoop fh : M HMI.State Unit)
            { sh with
              rx := resth
              trace := sh.trace ++ [Ev.lcdClear, Ev.timer2 false,
                                    Ev.send Role.token HMI.READY,
                                    Ev.recv HMI.PASS_NOT_FOUND] } ∧
      ∀ s, Seg (Each noMenu) s (HMI.EnterNewPass fh s).state) := by
  refine ⟨?_, ?_, ?_, fun s => HMI.EnterNewPass_noMenu fh s⟩
  · obtain ⟨c0, c1, c2, c3, c4, rfl⟩ := Control.list_of_length_five C hC
    obtain ⟨n, rfl⟩ := Control.fuel_above_five fc hfc
    obtain ⟨gp, cnt, fl, ra, rb, tc, rx, tr, ⟨ee, data, ddr, port, ⟨mem, blk, word, phase, sr, dr⟩⟩⟩ := sc
    simp only at hidlec hrxc
    subst hidlec hrxc
    simp [Control.Chip.slot, List.range_succ] at hblank
    obtain ⟨m0, m1, m2, m3, m4⟩ := hblank
    refine ⟨[Ev.pin 0x44 6 0, Ev.pin 0x44 7 0, Ev.recv 1, Ev.call Fn.EEPROM_CheckPassword,
      Ev.eeRead 256 255 1, Ev.delay 10, Ev.eeRead 257 255 1, Ev.delay 10,
      Ev.eeRead 258 255 1, Ev.delay 10, Ev.eeRead 259 255 1, Ev.delay 10,
      Ev.eeRead 260 255 1, Ev.delay 10, Ev.send Role.opcode 8, Ev.call Fn.SetPassword,
      Ev.recv 1, Ev.send Role.token 1, Ev.recv c0, Ev.eeWrite 256 c0 1, Ev.delay 10,
      Ev.recv 1, Ev.send Role.token 1, Ev.recv c1, Ev.eeWrite 257 c1 1, Ev.delay 10,
      Ev.recv 1, Ev.send Role.token 1, Ev.recv c2, Ev.eeWrite 258 c2 1, Ev.delay 10,
      Ev.recv 1, Ev.send Role.token 1, Ev.recv c3, Ev.eeWrite 259 c3 1, Ev.delay 10,
      Ev.recv 1, Ev.send Role.token 1, Ev.recv c4, Ev.eeWrite 260 c4 1, Ev.delay 10], ?_⟩
    simp [Control.main, Control.boot, Control.pinModeD, Control.pinWriteD,
      Control.EEPROM_CheckPassword, Control.SetPassword, forLoop, Control.forLoopRet,
      Control.countBelow, Control.resetCount, incrCount, waitFor, UART_receiveByte,
      Control.storeWrite_chip, Control.storeRead_chip, Control.framed, Control.Chip.slot,
      List.range_succ, received, sent, storeWrites, m0, m1, m2, m3, m4]
  · obtain ⟨n, rfl⟩ := Control.fuel_above_five ff hff
    obtain ⟨gp, cnt, fl, ra, rb, tc, rx, tr, ⟨ee, data, ddr, port, ⟨mem, blk, word, phase, sr, dr⟩⟩⟩ := sf
    simp only at hidlef hrxf
    subst hidlef hrxf
    simp [Control.Chip.slot, List.range_succ] at hfound
    simp [Control.main, Control.boot, Control.pinModeD, Control.pinWriteD,
      Control.EEPROM_CheckPassword, Control.forLoopRet,
      Control.countBelow, Control.resetCount, incrCount, waitFor, UART_receiveByte,
      Control.storeRead_chip, andThen_ite, Control.mainLoop_first]
    split_ifs
    all_goals simp_all [sentAs, storeWrites]
  · obtain ⟨gp, cnt, fl, ra, rb, tc, rx, tr, app⟩ := sh
    simp only at hrxh
    subst hrxh
    unfold HMI.main
    simp only [bind_run, emit_run, andThen_done, UART_sendByte_run, UART_receiveByte, if_true,
      List.append_assoc, List.singleton_append, List.cons_append, List.nil_append]

/-- Witness for C4: a blank device provisioned with 2,6,4,9,5; a device whose
first slot byte is 7, then the opcode `CHECK_PASSWORD`; an HMI node that
receives `PASS_NOT_FOUND`. -/
theorem C4_forced_provisioning_witness :
    ([2, 6, 4, 9, 5] : List Nat).length = Control.PASS_SIZE ∧ Control.PASS_SIZE < 6 ∧
    (Control.initState (fun _ => 0xFF)
        (Control.READY :: (Control.framed [2, 6, 4, 9, 5] ++ []))).app.bus.slot
      = [0xFF, 0xFF, 0xFF, 0xFF, 0xFF] ∧
    (Control.initState (fun a => if a = 0x100 then 7 else 0xFF)
        [Control.READY, Control.READY, Control.CHECK_PASSWORD]).app.bus.slot
      ≠ [0xFF, 0xFF, 0xFF, 0xFF, 0xFF] ∧
    (HMI.initState [] [HMI.PASS_NOT_FOUND]).rx = HMI.PASS_NOT_FOUND :: [] ∧
    ∃ t s1,
      Control.boot Control.chipHw 6
          (Control.initState (fun _ => 0xFF)
            (Control.READY :: (Control.framed [2, 6, 4, 9, 5] ++ []))) = Res.done () s1 ∧
      Control.main Control.chipHw 6
          (Control.initState (fun _ => 0xFF)
            (Control.READY :: (Control.framed [2, 6, 4, 9, 5] ++ [])))
        = Control.mainLoop Control.chipHw 6 s1 ∧
      s1.trace = (Control.initState (fun _ => 0xFF)
            (Control.READY :: (Control.framed [2, 6, 4, 9, 5] ++ []))).trace ++ t ∧
      sent t = [Control.PASS_NOT_FOUND, Control.READY, Control.READY, Control.READY,
                Control.READY, Control.READY] ∧
      received t = Control.READY :: Control.framed [2, 6, 4, 9, 5] ∧
      storeWrites t = List.zip [0x100, 0x101, 0x102, 0x103, 0x104] [2, 6, 4, 9, 5] ∧
      s1.app.bus.slot = [2, 6, 4, 9, 5] ∧ s1.rx = [] :=
  ⟨by decide, by decide, by decide, by decide, rfl,
    (C4_forced_provisioning
      (Control.initState (fun _ => 0xFF) (Control.READY :: (Control.framed [2, 6, 4, 9, 5] ++ [])))
      [2, 6, 4, 9, 5] [] 6 (by decide) (by decide) rfl (by decide) rfl
      (Control.initState (fun a => if a = 0x100 then 7 else 0xFF)
        [Control.READY, Control.READY, Control.CHECK_PASSWORD])
      Control.CHECK_PASSWORD [] 6 (by decide) rfl (by decide) rfl
      (HMI.initState [] [HMI.PASS_NOT_FOUND]) [] 6 rfl).1⟩

namespace HMI

/-! ### Lockout after three mismatches (C5) -/

theorem T1_delay_sec_loop_run {α : Type} (n : Nat) :
    ∀ (i : Nat) (s : Node α), i + (n + 1) ≤ 32767 →
      T1_delay_sec_loop (n + 1) i s = Res.done () { s with
        OCR1A := 8000, OCR1B := 0, TCNT1 := 0, g_delayFlag := false,
        trace := s.trace ++ List.replicate (n + 1) (Ev.delay 1000) } := by
  induction n with
  | zero =>
      intro i s h
      have hi : ¬ i = 32767 := by omega
      simp [T1_delay_sec_loop, hi]
  | succ k ih =>
      intro i s h
      have hi : ¬ i = 32767 := by omega
      rw [T1_delay_sec_loop]
      simp only [bind_run, T1_delay_msec_run, andThen_done, ite_run, if_neg hi,
        ih (i + 1) _ (by omega)]
      simp [List.replicate_succ]

theorem T1_delay_sec_run {α : Type} (n : Nat) (s : Node α) (h : n + 1 ≤ 32767) :
    T1_delay_sec (n + 1) s = Res.done () { s with
      OCR1A := 8000, OCR1B := 0, TCNT1 := 0, g_delayFlag := false,
      trace := s.trace ++ List.replicate (n + 1) (Ev.delay 1000) } := by
  unfold T1_delay_sec
  rw [Nat.mod_eq_of_lt (by omega)]
  exact T1_delay_sec_loop_run n 0 s (by omega)

theorem BlockSystem_run (s : State) :
    BlockSystem s = Res.done () { s with
      OCR1A := 8000, OCR1B := 0, TCNT1 := 0, g_delayFlag := false,
      trace := s.trace ++ blockEvents,
      app := { s.app with
        DDRC := SET_BIT s.app.DDRC 0
        PORTC := CLEAR_BIT (SET_BIT (CLEAR_BIT s.app.PORTC 0) 0) 0 } } := by
  simp [BlockSystem, pinModeC, pinWriteC, fun s => T1_delay_sec_run 59 s (by decide), blockEvents]

theorem OpenDoor_mismatch (n : Nat) (gp : Nat → Nat) (cnt : Nat) (fl : Bool) (ra rb tc : Nat)
    (tr : List Ev) (rep : Nat → Nat) (tick ci oi ddr port : Nat)
    (k0 k1 k2 k3 k4 r : Nat) (krest rest : List Nat) (hr : r ≠ MATCH) :
    OpenDoor (n + 6)
        { g_password := gp, count := cnt, g_delayFlag := fl, OCR1A := ra, OCR1B := rb,
          TCNT1 := tc, rx := READY :: READY :: READY :: READY :: READY :: READY :: r :: rest,
          trace := tr,
          app := { g_rePassword := rep, g_T2_tick := tick, ChangePass_i := ci, OpenDoor_i := oi,
                   DDRC := ddr, PORTC := port, keys := k0 :: k1 :: k2 :: k3 :: k4 :: krest } }
      = (if oi + 1 = 3 then BlockSystem >>= fun _ => OpenDoor (n + 5) else OpenDoor (n + 5))
        { g_password := Function.update (Function.update (Function.update (Function.update
            (Function.update gp 0 k0) 1 k1) 2 k2) 3 k3) 4 k4,
          count := 5, g_delayFlag := false, OCR1A := 2800, OCR1B := 0, TCNT1 := 0, rx := rest,
          trace := tr ++ attemptEvents Fn.OpenDoor Msg.enterPass [k0, k1, k2, k3, k4] r,
          app := { g_rePassword := rep, g_T2_tick := 0, ChangePass_i := ci,
                   OpenDoor_i := if oi + 1 = 3 then 0 else oi + 1,
                   DDRC := ddr, PORTC := port, keys := krest } } := by
  rw [OpenDoor]
  simp [forLoop, countBelow, incrCount, KeyPad_getPressedKey, waitFor, UART_receiveByte, hr,
    attemptEvents, entryEvents, digitEvents, candidateEvents]
  split_ifs <;> simp_all

theorem ChangePass_mismatch (n : Nat) (gp : Nat → Nat) (cnt : Nat) (fl : Bool) (ra rb tc : Nat)
    (tr : List Ev) (rep : Nat → Nat) (tick ci oi ddr port : Nat)
    (k0 k1 k2 k3 k4 r : Nat) (krest rest : List Nat) (hr : r ≠ MATCH) :
    ChangePass (n + 6)
        { g_password := gp, count := cnt, g_delayFlag := fl, OCR1A := ra, OCR1B := rb,
          TCNT1 := tc, rx := READY :: READY :: READY :: READY :: READY :: READY :: r :: rest,
          trace := tr,
          app := { g_rePassword := rep, g_T2_tick := tick, ChangePass_i := ci, OpenDoor_i := oi,
                   DDRC := ddr, PORTC := port, keys := k0 :: k1 :: k2 :: k3 :: k4 :: krest } }
      = (if ci + 1 = 3 then BlockSystem >>= fun _ => ChangePass (n + 5) else ChangePass (n + 5))
        { g_password := Function.update (Function.update (Function.update (Function.update
            (Function.update gp 0 k0) 1 k1) 2 k2) 3 k3) 4 k4,
          count := 5, g_delayFlag := false, OCR1A := 2800, OCR1B := 0, TCNT1 := 0, rx := rest,
          trace := tr ++ attemptEvents Fn.ChangePass Msg.enterOld [k0, k1, k2, k3, k4] r,
          app := { g_rePassword := rep, g_T2_tick := 0,
                   ChangePass_i := if ci + 1 = 3 then 0 else ci + 1, OpenDoor_i := oi,
                   DDRC := ddr, PORTC := port, keys := krest } } := by
  rw [ChangePass]
  simp [forLoop, countBelow, incrCount, KeyPad_getPressedKey, waitFor, UART_receiveByte, hr,
    attemptEvents, entryEvents, digitEvents, candidateEvents]
  split_ifs <;> simp_all

theorem testBit_CLEAR_BIT_zero (x : Nat) : (CLEAR_BIT x 0).testBit 0 = false := by
  simp [CLEAR_BIT, Nat.testBit_and]

/-- C5: in `OpenDoor`, and likewise in `ChangePass`, starting from an attempt
counter of 0 and answered three times in a row by a byte other than `MATCH`,
the run is three attempts without any entry of `BlockSystem`, then one run of
`BlockSystem` right after the third answer (PC0 driven high, 60 delays of
1000 ms, PC0 driven low), then a further call of the same function, made with
the attempt counter at 0 and PC0 low. -/
theorem C5_lockout_at_third_mismatch (s : State) (d1 d2 d3 krest rest : List Nat)
    (r1 r2 r3 n : Nat)
    (h1 : d1.length = PASS_SIZE) (h2 : d2.length = PASS_SIZE) (h3 : d3.length = PASS_SIZE)
    (hr1 : r1 ≠ MATCH) (hr2 : r2 ≠ MATCH) (hr3 : r3 ≠ MATCH)
    (hkeys : s.app.keys = d1 ++ d2 ++ d3 ++ krest)
    (hrx : s.rx = answers r1 ++ answers r2 ++ answers r3 ++ rest) :
    (s.app.OpenDoor_i = 0 →
      ∃ s3, OpenDoor (n + 8) s = OpenDoor (n + 5) s3 ∧
        s3.trace = s.trace ++ (attemptEvents Fn.OpenDoor Msg.enterPass d1 r1 ++
          attemptEvents Fn.OpenDoor Msg.enterPass d2 r2 ++
          attemptEvents Fn.OpenDoor Msg.enterPass d3 r3) ++ blockEvents ∧
        calls Fn.BlockSystem (attemptEvents Fn.OpenDoor Msg.enterPass d1 r1 ++
          attemptEvents Fn.OpenDoor Msg.enterPass d2 r2 ++
          attemptEvents Fn.OpenDoor Msg.enterPass d3 r3) = 0 ∧
        calls Fn.BlockSystem blockEvents = 1 ∧
        s3.app.OpenDoor_i = 0 ∧ s3.app.PORTC.testBit PC0 = false ∧
        s3.app.keys = krest ∧ s3.rx = rest) ∧
    (s.app.ChangePass_i = 0 →
      ∃ s3, ChangePass (n + 8) s = ChangePass (n + 5) s3 ∧
        s3.trace = s.trace ++ (attemptEvents Fn.ChangePass Msg.enterOld d1 r1 ++
          attemptEvents Fn.ChangePass Msg.enterOld d2 r2 ++
          attemptEvents Fn.ChangePass Msg.enterOld d3 r3) ++ blockEvents ∧
        calls Fn.BlockSystem (attemptEvents Fn.ChangePass Msg.enterOld d1 r1 ++
          attemptEvents Fn.ChangePass Msg.enterOld d2 r2 ++
          attemptEvents Fn.ChangePass Msg.enterOld d3 r3) = 0 ∧
        calls Fn.BlockSystem blockEvents = 1 ∧
        s3.app.ChangePass_i = 0 ∧ s3.app.PORTC.testBit PC0 = false ∧
        s3.app.keys = krest ∧ s3.rx = rest) := by
  obtain ⟨a0, a1, a2, a3, a4, rfl⟩ := Control.list_of_length_five d1 h1
  obtain ⟨b0, b1, b2, b3, b4, rfl⟩ := Control.list_of_length_five d2 h2
  obtain ⟨c0, c1, c2, c3, c4, rfl⟩ := Control.list_of_length_five d3 h3
  obtain ⟨gp, cnt, fl, ra, rb, tc, rx, tr, ⟨rep, tick, ci, oi, ddr, port, keys⟩⟩ := s
  simp only [answers] at hkeys hrx
  subst hkeys hrx
  have hb : calls Fn.BlockSystem blockEvents = 1 := by decide
  constructor
  · intro hi
    simp only at hi
    subst hi
    refine ⟨
        { g_password := (Function.update (Function.update (Function.update (Function.update
            (Function.update (Function.update (Function.update (Function.update (Function.update
            (Function.update (Function.update (Function.update (Function.update (Function.update
            (Function.update gp 0 a0) 1 a1) 2 a2) 3 a3) 4 a4) 0 b0) 1 b1) 2 b2) 3 b3) 4 b4)
            0 c0) 1 c1) 2 c2) 3 c3) 4 c4),
          count := 5, g_delayFlag := false, OCR1A := 8000, OCR1B := 0, TCNT1 := 0, rx := rest,
          trace := tr ++ (attemptEvents Fn.OpenDoor Msg.enterPass [a0, a1, a2, a3, a4] r1 ++
            attemptEvents Fn.OpenDoor Msg.enterPass [b0, b1, b2, b3, b4] r2 ++
            attemptEvents Fn.OpenDoor Msg.enterPass [c0, c1, c2, c3, c4] r3) ++ blockEvents,
          app := { g_rePassword := rep, g_T2_tick := 0, ChangePass_i := ci, OpenDoor_i := 0,
                   DDRC := SET_BIT ddr 0,
                   PORTC := CLEAR_BIT (SET_BIT (CLEAR_BIT port 0) 0) 0, keys := krest } },
      ?_, rfl, ?_, hb, rfl, testBit_CLEAR_BIT_zero _, rfl, rfl⟩
    · simp [OpenDoor_mismatch, BlockSystem_run, hr1, hr2, hr3]
    · simp [calls, attemptEvents, entryEvents, digitEvents, candidateEvents]
  · intro hi
    simp only at hi
    subst hi
    refine ⟨
        { g_password := (Function.update (Function.update (Function.update (Function.update
            (Function.update (Function.update (Function.update (Function.update (Function.update
            (Function.update (Function.update (Function.update (Function.update (Function.update
            (Function.update gp 0 a0) 1 a1) 2 a2) 3 a3) 4 a4) 0 b0) 1 b1) 2 b2) 3 b3) 4 b4)
            0 c0) 1 c1) 2 c2) 3 c3) 4 c4),
          count := 5, g_delayFlag := false, OCR1A := 8000, OCR1B := 0, TCNT1 := 0, rx := rest,
          trace := tr ++ (attemptEvents Fn.ChangePass Msg.enterOld [a0, a1, a2, a3, a4] r1 ++
            attemptEvents Fn.ChangePass Msg.enterOld [b0, b1, b2, b3, b4] r2 ++
            attemptEvents Fn.ChangePass Msg.enterOld [c0, c1, c2, c3, c4] r3) ++ blockEvents,
          app := { g_rePassword := rep, g_T2_tick := 0, ChangePass_i := 0, OpenDoor_i := oi,
                   DDRC := SET_BIT ddr 0,
                   PORTC := CLEAR_BIT (SET_BIT (CLEAR_BIT port 0) 0) 0, keys := krest } },
      ?_, rfl, ?_, hb, rfl, testBit_CLEAR_BIT_zero _, rfl, rfl⟩
    · simp [ChangePass_mismatch, BlockSystem_run, hr1, hr2, hr3]
    · simp [calls, attemptEvents, entryEvents, digitEvents, candidateEvents]

/-- Witness for C5: three attempts answered by `DONT_MATCH`. -/
theorem C5_lockout_at_third_mismatch_witness :
    ([1, 1, 1, 1, 1] : List Nat).length = PASS_SIZE ∧ DONT_MATCH ≠ MATCH ∧
    (initState ([1, 1, 1, 1, 1] ++ [2, 2, 2, 2, 2] ++ [3, 3, 3, 3, 3] ++ [])
      (answers DONT_MATCH ++ answers DONT_MATCH ++ answers DONT_MATCH ++ [])).app.OpenDoor_i = 0 ∧
    ∃ s3,
      OpenDoor (0 + 8)
          (initState ([1, 1, 1, 1, 1] ++ [2, 2, 2, 2, 2] ++ [3, 3, 3, 3, 3] ++ [])
            (answers DONT_MATCH ++ answers DONT_MATCH ++ answers DONT_MATCH ++ []))
        = OpenDoor (0 + 5) s3 ∧
      s3.trace = (initState ([1, 1, 1, 1, 1] ++ [2, 2, 2, 2, 2] ++ [3, 3, 3, 3, 3] ++ [])
            (answers DONT_MATCH ++ answers DONT_MATCH ++ answers DONT_MATCH ++ [])).trace ++
          (attemptEvents Fn.OpenDoor Msg.enterPass [1, 1, 1, 1, 1] DONT_MATCH ++
            attemptEvents Fn.OpenDoor Msg.enterPass [2, 2, 2, 2, 2] DONT_MATCH ++
            attemptEvents Fn.OpenDoor Msg.enterPass [3, 3, 3, 3, 3] DONT_MATCH) ++ blockEvents ∧
      calls Fn.BlockSystem
          (attemptEvents Fn.OpenDoor Msg.enterPass [1, 1, 1, 1, 1] DONT_MATCH ++
            attemptEvents Fn.OpenDoor Msg.enterPass [2, 2, 2, 2, 2] DONT_MATCH ++
            attemptEvents Fn.OpenDoor Msg.enterPass [3, 3, 3, 3, 3] DONT_MATCH) = 0 ∧
      calls Fn.BlockSystem blockEvents = 1 ∧
      s3.app.OpenDoor_i = 0 ∧ s3.app.PORTC.testBit PC0 = false ∧
      s3.app.keys = [] ∧ s3.rx = [] :=
  ⟨by decide, by decide, rfl,
    (C5_lockout_at_third_mismatch
      (initState ([1, 1, 1, 1, 1] ++ [2, 2, 2, 2, 2] ++ [3, 3, 3, 3, 3] ++ [])
        (answers DONT_MATCH ++ answers DONT_MATCH ++ answers DONT_MATCH ++ []))
      [1, 1, 1, 1, 1] [2, 2, 2, 2, 2] [3, 3, 3, 3, 3] [] [] DONT_MATCH DONT_MATCH DONT_MATCH 0
      (by decide) (by decide) (by decide) (by decide) (by decide) (by decide) rfl rfl).1 rfl⟩

/-! ### What a match does to the attempt counter (C6) -/

theorem keeps_stable {σ γ : Type} (g : σ → γ) : Stable (Keeps g) where
  refl := fun _ => rfl
  trans := fun _ _ _ h1 h2 => h2.trans h1

theorem keeps_waitFor_aux (tok : Nat) (rx : List Nat) :
    ∀ s : State, Keeps counters s (waitFor tok rx s).state := by
  induction rx with
  | nil => intro s; rfl
  | cons b rest ih =>
      intro s
      simp only [waitFor]
      split
      · exact (ih _).trans rfl
      · rfl

theorem keeps_waitFor (tok : Nat) : Sat (Keeps counters) (UART_waitFor tok : M State Unit) :=
  fun s => keeps_waitFor_aux tok s.rx s

theorem keeps_key : Sat (Keeps counters) KeyPad_getPressedKey := by
  intro s
  unfold KeyPad_getPressedKey
  split <;> rfl

theorem keeps_recv : Sat (Keeps counters) (UART_receiveByte : M State Nat) := by
  intro s
  unfold UART_receiveByte
  split <;> rfl

theorem keeps_delay_sec (sec : Nat) : Sat (Keeps counters) (T1_delay_sec sec : M State Unit) :=
  sat_delay_sec (R := Keeps counters) (keeps_stable counters) (fun _ => rfl) sec

theorem EnterNewPass_keeps (f : Nat) : Sat (Keeps counters) (EnterNewPass f) := by
  have hS : Stable (Keeps counters) := keeps_stable _
  induction f with
  | zero => intro s; exact hS.refl s
  | succ n ih =>
      unfold EnterNewPass
      repeat' first
        | with_reducible refine sat_bind hS ?_ (fun _ => ?_)
        | with_reducible refine sat_forLoop hS ?_ ?_ _
        | with_reducible refine sat_ite ?_ ?_
        | with_reducible exact ih
        | with_reducible exact sat_pure hS _
        | with_reducible exact sat_getS hS
        | with_reducible exact keeps_waitFor _
        | with_reducible exact keeps_recv
        | with_reducible exact keeps_key
        | with_reducible exact keeps_delay_sec _
        | exact (fun _ => rfl)

/-- C6, as stated, fails: in the run that starts in `c6State`, `OpenDoor` is
answered `DONT_MATCH`, `DONT_MATCH`, `MATCH` and returns without any entry of
`BlockSystem`, but with its attempt counter at 2, not 0; the next call of
`OpenDoor` is answered `DONT_MATCH` once and enters `BlockSystem`. -/
theorem C6_match_resets_counter_counterexample :
    (OpenDoor 9 c6State).state.app.OpenDoor_i = 2 ∧
    calls Fn.BlockSystem (OpenDoor 9 c6State).state.trace = 0 ∧
    received (OpenDoor 9 c6State).state.trace
      = answers DONT_MATCH ++ answers DONT_MATCH ++ answers MATCH ++ [READY] ∧
    calls Fn.BlockSystem ((OpenDoor 9 >>= fun _ => OpenDoor 9) c6State).state.trace = 1 ∧
    received ((OpenDoor 9 >>= fun _ => OpenDoor 9) c6State).state.trace
      = answers DONT_MATCH ++ answers DONT_MATCH ++ answers MATCH ++ [READY]
          ++ answers DONT_MATCH := by
  decide!

/-- C6, amended: a `MATCH` response leaves the attempt counter of the operation
as it was, whatever its value: `OpenDoor` returns with `OpenDoor_i` unchanged,
and every run of `ChangePass` that receives `MATCH` ends with `ChangePass_i`
unchanged.  A response other than `MATCH` increments the counter; when the
counter thereby reaches 3 it is set to 0 and `BlockSystem` runs before the next
attempt, otherwise the next attempt follows at once.  So the lockout comes with
every third mismatch of an operation, matches in between or not. -/
theorem C6_match_keeps_counter (s : State) (d krest rest : List Nat) (r n : Nat)
    (hd : d.length = PASS_SIZE) (hkeys : s.app.keys = d ++ krest) (hr : r ≠ MATCH) :
    (s.rx = answers MATCH ++ READY :: rest →
      (∃ s1, OpenDoor (n + 6) s = Res.done () s1 ∧ s1.app.OpenDoor_i = s.app.OpenDoor_i) ∧
      (ChangePass (n + 6) s).state.app.ChangePass_i = s.app.ChangePass_i) ∧
    (s.rx = answers r ++ rest →
      (∃ s1, OpenDoor (n + 6) s
            = (if s.app.OpenDoor_i + 1 = 3 then BlockSystem >>= fun _ => OpenDoor (n + 5)
               else OpenDoor (n + 5)) s1 ∧
          s1.trace = s.trace ++ attemptEvents Fn.OpenDoor Msg.enterPass d r ∧
          s1.app.OpenDoor_i = (if s.app.OpenDoor_i + 1 = 3 then 0 else s.app.OpenDoor_i + 1)) ∧
      (∃ s1, ChangePass (n + 6) s
            = (if s.app.ChangePass_i + 1 = 3 then BlockSystem >>= fun _ => ChangePass (n + 5)
               else ChangePass (n + 5)) s1 ∧
          s1.trace = s.trace ++ attemptEvents Fn.ChangePass Msg.enterOld d r ∧
          s1.app.ChangePass_i
            = (if s.app.ChangePass_i + 1 = 3 then 0 else s.app.ChangePass_i + 1))) := by
  obtain ⟨k0, k1, k2, k3, k4, rfl⟩ := Control.list_of_length_five d hd
  obtain ⟨gp, cnt, fl, ra, rb, tc, rx, tr, ⟨rep, tick, ci, oi, ddr, port, keys⟩⟩ := s
  simp only at hkeys
  subst hkeys
  constructor
  · intro hrx
    simp only [answers] at hrx
    subst hrx
    constructor
    · rw [OpenDoor]
      simp [forLoop, countBelow, incrCount, KeyPad_getPressedKey, waitFor, UART_receiveByte,
        fun s => T1_delay_sec_run 9 s (by decide)]
    · rw [ChangePass]
      simp [forLoop, countBelow, incrCount, KeyPad_getPressedKey, waitFor, UART_receiveByte]
      exact congrArg Prod.fst (EnterNewPass_keeps (n + 5) _)
  · intro hrx
    simp only [answers] at hrx
    subst hrx
    simp only [List.cons_append, List.nil_append,
      OpenDoor_mismatch _ _ _ _ _ _ _ _ _ _ _ _ _ _ _ _ _ _ _ _ _ _ hr,
      ChangePass_mismatch _ _ _ _ _ _ _ _ _ _ _ _ _ _ _ _ _ _ _ _ _ _ hr]
    exact ⟨⟨_, rfl, rfl, rfl⟩, ⟨_, rfl, rfl, rfl⟩⟩

/-- Witness for the amended C6: an attempt counter at 2 and one more
`DONT_MATCH`. -/
theorem C6_match_keeps_counter_witness :
    ([1, 2, 3, 4, 5] : List Nat).length = PASS_SIZE ∧ DONT_MATCH ≠ MATCH ∧
    ∃ s1,
      OpenDoor (0 + 6)
          { initState ([1, 2, 3, 4, 5] ++ []) (answers DONT_MATCH ++ []) with
            app := { (initState ([1, 2, 3, 4, 5] ++ []) (answers DONT_MATCH ++ [])).app with
                     OpenDoor_i := 2 } }
        = (if 2 + 1 = 3 then BlockSystem >>= fun _ => OpenDoor (0 + 5) else OpenDoor (0 + 5)) s1 ∧
      s1.trace = [] ++ attemptEvents Fn.OpenDoor Msg.enterPass [1, 2, 3, 4, 5] DONT_MATCH ∧
      s1.app.OpenDoor_i = (if 2 + 1 = 3 then 0 else 2 + 1) :=
  ⟨by decide, by decide,
    ((C6_match_keeps_counter
      { initState ([1, 2, 3, 4, 5] ++ []) (answers DONT_MATCH ++ []) with
        app := { (initState ([1, 2, 3, 4, 5] ++ []) (answers DONT_MATCH ++ [])).app with
                 OpenDoor_i := 2 } }
      [1, 2, 3, 4, 5] [] [] DONT_MATCH 0 (by decide) rfl (by decide)).2 rfl).1⟩

/-! ### The root path of `MainScreen` (C7, C8) -/

/-- C7 fails on the code: in the run that starts in `c7State` every one of the
five digits typed at the root prompt (1,1,1,1,1) differs from `ROOT_PASS`
(2,6,4,9,5); each wrong digit makes `MainScreen` call itself, and when that
call returns the loop over the digits goes on; after the fifth digit the outer
`MainScreen` sends `READY` and `CHANGE_PASSWORD` and enters `EnterNewPass`. -/
theorem C7_wrong_root_digits_accepted :
    (List.range PASS_SIZE).map (MainScreen 8 c7State).state.g_password = [1, 1, 1, 1, 1] ∧
    (List.range PASS_SIZE).map ROOT_PASS = [2, 6, 4, 9, 5] ∧
    calls Fn.MainScreen (MainScreen 8 c7State).state.trace = 6 ∧
    sent (MainScreen 8 c7State).state.trace = [READY, CHANGE_PASSWORD] ∧
    sentAs Role.opcode (MainScreen 8 c7State).state.trace = [CHANGE_PASSWORD] ∧
    calls Fn.EnterNewPass (MainScreen 8 c7State).state.trace = 1 := by
  decide!

theorem waitFor_junk {α : Type} (tok : Nat) (junk rest : List Nat) (h : tok ∉ junk) :
    ∀ s : Node α, waitFor tok (junk ++ tok :: rest) s
      = Res.done () { s with rx := rest, trace := s.trace ++ junk.map Ev.recv ++ [Ev.recv tok] } := by
  induction junk with
  | nil => intro s; simp [waitFor]
  | cons b js ih =>
      intro s
      have hb : b ≠ tok := fun e => h (by simp [e])
      have hjs : tok ∉ js := fun e => h (List.mem_cons_of_mem _ e)
      simp [waitFor, hb, ih hjs]

theorem sent_map_recv (l : List Nat) : sent (l.map Ev.recv) = [] := by
  induction l with
  | nil => rfl
  | cons a t ih => simpa [sent] using ih

theorem calls_append (f : Fn) (a b : List Ev) : calls f (a ++ b) = calls f a + calls f b := by
  induction a with
  | nil => simp [calls]
  | cons e t ih => cases e <;> simp [calls, ih, Nat.add_assoc]

theorem calls_map_recv (f : Fn) (l : List Nat) : calls f (l.map Ev.recv) = 0 := by
  induction l with
  | nil => rfl
  | cons a t ih => simpa [calls] using ih

/-- C8: when the user declines the two menu entries, holds '=' and types the
five digits of `ROOT_PASS` at the root prompt, `MainScreen` sends `READY`,
receives bytes until `READY` arrives, sends `CHANGE_PASSWORD` and continues as
`EnterNewPass`; up to that point the only bytes sent are `READY` and
`CHANGE_PASSWORD` (no `CHECK_PASSWORD`) and `MainScreen` has been entered once
only (no recursive call). -/
theorem C8_root_override (s : State) (k1 k2 n : Nat) (krest junk rest : List Nat)
    (hk1 : k1 ≠ KEY_PLUS) (hk2 : k2 ≠ KEY_MINUS)
    (hkeys : s.app.keys = [k1, k2, KEY_EQUAL, KEY_EQUAL] ++ [2, 6, 4, 9, 5] ++ krest)
    (hjunk : READY ∉ junk) (hrx : s.rx = junk ++ READY :: rest) :
    ∃ s1, MainScreen (n + 6) s = EnterNewPass (n + 5) s1 ∧
      s1.trace = s.trace ++ rootEvents k1 k2 junk ∧
      sent (rootEvents k1 k2 junk) = [READY, CHANGE_PASSWORD] ∧
      calls Fn.MainScreen (rootEvents k1 k2 junk) = 1 ∧
      (List.range PASS_SIZE).map s1.g_password = (List.range PASS_SIZE).map ROOT_PASS ∧
      s1.app.keys = krest ∧ s1.rx = rest := by
  obtain ⟨gp, cnt, fl, ra, rb, tc, rx, tr, ⟨rep, tick, ci, oi, ddr, port, keys⟩⟩ := s
  simp only at hkeys hrx
  subst hkeys hrx
  refine ⟨
    { g_password := (Function.update (Function.update (Function.update (Function.update
        (Function.update gp 0 2) 1 6) 2 4) 3 9) 4 5),
      count := 5, g_delayFlag := false, OCR1A := 4000, OCR1B := 0, TCNT1 := 0, rx := rest,
      trace := tr ++ rootEvents k1 k2 junk,
      app := { g_rePassword := rep, g_T2_tick := 0, ChangePass_i := ci, OpenDoor_i := oi,
               DDRC := ddr, PORTC := port, keys := krest } },
    ?_, rfl, ?_, ?_, ?_, rfl, rfl⟩
  · rw [MainScreen]
    simp [forLoop, countBelow, incrCount, KeyPad_getPressedKey, UART_receiveByte, hk1, hk2,
      fun s => T1_delay_sec_run 2 s (by decide), waitFor_junk 1 junk rest hjunk, ROOT_PASS, rootEvents, entryEvents,
      digitEvents]
  · simp [rootEvents, entryEvents, digitEvents, sent, Control.sent_append, sent_map_recv]
  · simp [rootEvents, entryEvents, digitEvents, calls, calls_append, calls_map_recv]
  · simp [List.range_succ, ROOT_PASS]

/-- Witness for C8: the keys 0, 0, '=', '=', 2, 6, 4, 9, 5 and a line on which
the byte 7 arrives before the token. -/
theorem C8_root_override_witness :
    (0 : Nat) ≠ KEY_PLUS ∧ (0 : Nat) ≠ KEY_MINUS ∧ READY ∉ [7] ∧
    ∃ s1,
      MainScreen (0 + 6)
          (initState ([0, 0, KEY_EQUAL, KEY_EQUAL] ++ [2, 6, 4, 9, 5] ++ []) ([7] ++ READY :: []))
        = EnterNewPass (0 + 5) s1 ∧
      s1.trace
        = (initState ([0, 0, KEY_EQUAL, KEY_EQUAL] ++ [2, 6, 4, 9, 5] ++ [])
            ([7] ++ READY :: [])).trace ++ rootEvents 0 0 [7] ∧
      sent (rootEvents 0 0 [7]) = [READY, CHANGE_PASSWORD] ∧
      calls Fn.MainScreen (rootEvents 0 0 [7]) = 1 ∧
      (List.range PASS_SIZE).map s1.g_password = (List.range PASS_SIZE).map ROOT_PASS ∧
      s1.app.keys = [] ∧ s1.rx = [] :=
  ⟨by decide, by decide, by decide,
    C8_root_override
      (initState ([0, 0, KEY_EQUAL, KEY_EQUAL] ++ [2, 6, 4, 9, 5] ++ []) ([7] ++ READY :: []))
      0 0 0 [] [7] [] (by decide) (by decide) rfl (by decide) rfl⟩

/-! ### Transmission of a new credential (C9) -/

/-- C9 fails on the code: in the run that starts in `c9State` one round with a
mismatching re-entry is followed by a matching round; the call of
`EnterNewPass` made from the comparison loop sends the credential, and when it
has returned the outer call sends it again: one top-level call returns having
sent ten payload bytes, not five. -/
theorem C9_credential_sent_twice :
    returned (EnterNewPass 8 c9State) = true ∧
    calls Fn.EnterNewPass (EnterNewPass 8 c9State).state.trace = 2 ∧
    sentAs Role.credential (EnterNewPass 8 c9State).state.trace
      = [7, 7, 7, 7, 7, 7, 7, 7, 7, 7] ∧
    keysRead (EnterNewPass 8 c9State).state.trace
      = [1, 2, 3, 4, 5] ++ [1, 2, 3, 4, 6] ++ [7, 7, 7, 7, 7] ++ [7, 7, 7, 7, 7] := by
  decide!

/-! ### The handshake before each byte (C10) -/

theorem run_append (c : Shake) (a b : List Ev) :
    ∀ q, Shake.run c q (a ++ b) = (Shake.run c q a).bind (fun q1 => Shake.run c q1 b) := by
  induction a with
  | nil => intro q; rfl
  | cons e t ih =>
      intro q
      simp only [List.cons_append, Shake.run]
      cases Shake.step c q e with
      | none => rfl
      | some q1 => exact ih q1

theorem shut_closed : Closed Shut where
  nil := fun q hq => ⟨q, rfl, hq⟩
  append := by
    intro a b ha hb q hq
    obtain ⟨q1, r1, n1⟩ := ha q hq
    obtain ⟨q2, r2, n2⟩ := hb q1 n1
    exact ⟨q2, by rw [run_append, r1]; exact r2, n2⟩

theorem shut_recv (b : Nat) : Shut [Ev.recv b] := by
  intro q hq
  cases q <;> simp [Shake.free] at hq <;>
    by_cases hb : b = 1 <;> simp [Shake.run, Shake.step, Shake.free, hb]

theorem shut_single {e : Ev} (h : ∀ r b, e ≠ Ev.send r b) : Shut [e] := by
  cases e with
  | send r b => exact absurd rfl (h r b)
  | recv b => exact shut_recv b
  | _ => intro q _; exact ⟨Shake.idle, rfl, by simp [Shake.free]⟩

section HoareRules
variable {α β γ : Type} {pre mid post : Shake → Prop}

theorem hoare_bind {m : M (Node α) β} {f : β → M (Node α) γ}
    (hm : Hoare pre mid m) (hf : ∀ a, Hoare mid post (f a)) : Hoare pre post (m >>= f) := by
  intro s
  obtain ⟨t1, e1, p1⟩ := hm s
  simp only [bind_run]
  cases h : m s with
  | done a s1 =>
      rw [h] at e1 p1
      simp only [andThen_done]
      simp only [state_done] at e1
      obtain ⟨t2, e2, p2⟩ := hf a s1
      refine ⟨t1 ++ t2, by rw [e2, e1, List.append_assoc], fun q hq => ?_⟩
      obtain ⟨q1, r1, n1⟩ := p1 q hq
      obtain ⟨q2, r2, n2⟩ := p2 q1 (n1 rfl)
      exact ⟨q2, by rw [run_append, r1]; exact r2, n2⟩
  | blocked s1 =>
      rw [h] at e1 p1
      refine ⟨t1, e1, fun q hq => ?_⟩
      obtain ⟨q1, r1, _⟩ := p1 q hq
      exact ⟨q1, r1, fun h => by cases h⟩
  | noFuel s1 =>
      rw [h] at e1 p1
      refine ⟨t1, e1, fun q hq => ?_⟩
      obtain ⟨q1, r1, _⟩ := p1 q hq
      exact ⟨q1, r1, fun h => by cases h⟩

theorem holds_bind {m : M (Node α) β} {f : β → M (Node α) γ}
    (hm : Hoare pre Shake.free m) (hf : ∀ a, Hoare Shake.free Shake.free (f a)) :
    Hoare pre Shake.free (m >>= f) :=
  hoare_bind hm hf

theorem hoare_weaken {pre1 : Shake → Prop} {m : M (Node α) β} (h : ∀ q, pre1 q → pre q)
    (hm : Hoare pre post m) : Hoare pre1 post m := by
  intro s
  obtain ⟨t, e, p⟩ := hm s
  exact ⟨t, e, fun q hq => p q (h q hq)⟩

theorem holds_pure (a : β) : Hoare post post (pure a : M (Node α) β) :=
  fun s => ⟨[], by simp, fun q hq => ⟨q, rfl, fun _ => hq⟩⟩

theorem hoare_ite {c : Prop} [Decidable c] {m1 m2 : M (Node α) β}
    (h1 : Hoare pre post m1) (h2 : Hoare pre post m2) :
    Hoare pre post (if c then m1 else m2) := by
  split
  · exact h1
  · exact h2

theorem hoare_getS_bind {f : Node α → M (Node α) β} (h : ∀ s, Hoare pre post (f s)) :
    Hoare pre post (getS >>= f) := by
  intro s
  simpa using h s s

theorem holds_of_seg {m : M (Node α) β} (h : Sat (Seg Shut) m) :
    Hoare Shake.free Shake.free m := by
  intro s
  obtain ⟨t, e, p⟩ := h s
  refine ⟨t, e, fun q hq => ?_⟩
  obtain ⟨q1, r, n⟩ := p q hq
  exact ⟨q1, r, fun _ => n⟩

theorem hoare_emit {e : Ev} (h1 : ∀ r b, e ≠ Ev.send r b) (h2 : ∀ b, e ≠ Ev.recv b) :
    Hoare pre Shake.free (emit e : M (Node α) Unit) := by
  intro s
  refine ⟨[e], by simp, fun q _ => ⟨Shake.idle, ?_, fun _ => by simp [Shake.free]⟩⟩
  cases e with
  | send r b => exact absurd rfl (h1 r b)
  | recv b => exact absurd rfl (h2 b)
  | _ => rfl

theorem hoare_modify {f : Node α → Node α} (hf : ∀ s, (f s).trace = s.trace) :
    Hoare post post (modifyS f) :=
  fun s => ⟨[], by simp [hf], fun q hq => ⟨q, rfl, fun _ => hq⟩⟩

theorem holds_forLoop {cond : Node α → Bool} {step : Node α → Node α} {body : M (Node α) Unit}
    (hstep : ∀ s, (step s).trace = s.trace) (hbody : Hoare Shake.free Shake.free body)
    (fuel : Nat) : Hoare Shake.free Shake.free (forLoop cond step body fuel) := by
  induction fuel with
  | zero => intro s; exact ⟨[], by simp [forLoop], fun q _ => ⟨q, rfl, fun h => by cases h⟩⟩
  | succ n ih =>
      intro s
      simp only [forLoop]
      split
      · exact hoare_bind hbody (fun _ => hoare_bind (hoare_modify hstep) (fun _ => ih)) s
      · exact ⟨[], by simp, fun q hq => ⟨q, rfl, fun _ => hq⟩⟩

theorem hoare_send_token :
    Hoare pre (fun q => q = Shake.asked) (UART_sendByte Role.token 1 : M (Node α) Unit) :=
  fun s => ⟨[Ev.send Role.token 1], by simp, fun q _ => ⟨Shake.asked, rfl, fun _ => rfl⟩⟩

theorem hoare_send_opcode (b : Nat) :
    Hoare (fun q => q = Shake.granted) Shake.free
      (UART_sendByte Role.opcode b : M (Node α) Unit) := by
  intro s
  refine ⟨[Ev.send Role.opcode b], by simp, fun q hq => ⟨Shake.idle, ?_, fun _ => by simp [Shake.free]⟩⟩
  subst hq
  rfl

theorem hoare_send_credential (b : Nat) :
    Hoare (fun q => q = Shake.granted) Shake.free
      (UART_sendByte Role.credential b : M (Node α) Unit) := by
  intro s
  refine ⟨[Ev.send Role.credential b], by simp, fun q hq => ⟨Shake.idle, ?_, fun _ => by simp [Shake.free]⟩⟩
  subst hq
  rfl

theorem hoare_send_candidate (b : Nat) :
    Hoare (fun q => q = Shake.offered) Shake.free
      (UART_sendByte Role.candidate b : M (Node α) Unit) := by
  intro s
  refine ⟨[Ev.send Role.candidate b], by simp, fun q hq => ⟨Shake.idle, ?_, fun _ => by simp [Shake.free]⟩⟩
  subst hq
  rfl

theorem waitFor_asked (c : Shake) (rx : List Nat) :
    ∀ s : Node α, ∃ t, (waitFor 1 rx s).state.trace = s.trace ++ t ∧
      ∃ q1, Shake.run c Shake.asked t = some q1 ∧
        (returned (waitFor 1 rx s) = true → q1 = Shake.granted) := by
  induction rx with
  | nil => intro s; exact ⟨[], by simp [waitFor], Shake.asked, rfl, fun h => by cases h⟩
  | cons b rest ih =>
      intro s
      simp only [waitFor]
      split
      · rename_i hb
        obtain ⟨t, ht, q1, r1, n1⟩ := ih { s with rx := rest, trace := s.trace ++ [Ev.recv b] }
        refine ⟨Ev.recv b :: t, by rw [ht]; simp, q1, ?_, n1⟩
        simpa [Shake.run, Shake.step, hb] using r1
      · rename_i hb
        have hb1 : b = 1 := by simpa using hb
        exact ⟨[Ev.recv b], by simp, Shake.granted, by simp [Shake.run, Shake.step, hb1],
          fun _ => rfl⟩

theorem waitFor_free (c : Shake) (rx : List Nat) :
    ∀ (s : Node α) (q : Shake), Shake.free q →
      ∃ t, (waitFor 1 rx s).state.trace = s.trace ++ t ∧
        ∃ q1, Shake.run c q t = some q1 ∧
          (returned (waitFor 1 rx s) = true → q1 = Shake.offered) := by
  induction rx with
  | nil => intro s q _; exact ⟨[], by simp [waitFor], q, rfl, fun h => by cases h⟩
  | cons b rest ih =>
      intro s q hq
      simp only [waitFor]
      split
      · rename_i hb
        obtain ⟨t, ht, q1, r1, n1⟩ :=
          ih { s with rx := rest, trace := s.trace ++ [Ev.recv b] } Shake.idle
            (by simp [Shake.free])
        refine ⟨Ev.recv b :: t, by rw [ht]; simp, q1, ?_, n1⟩
        have hq1 : q ≠ Shake.asked := hq
        simpa [Shake.run, Shake.step, hb, hq1] using r1
      · rename_i hb
        have hb1 : b = 1 := by simpa using hb
        have hq1 : q ≠ Shake.asked := hq
        exact ⟨[Ev.recv b], by simp, Shake.offered,
          by simp [Shake.run, Shake.step, hb1, hq1], fun _ => rfl⟩

end HoareRules

theorem hoare_waitFor_asked {α : Type} :
    Hoare (fun q => q = Shake.asked) (fun q => q = Shake.granted)
      (UART_waitFor 1 : M (Node α) Unit) := by
  intro s
  obtain ⟨t, ht, q1, r1, n1⟩ := waitFor_asked Shake.offered s.rx s
  refine ⟨t, ht, fun q hq => ?_⟩
  subst hq
  exact ⟨q1, r1, n1⟩

theorem holds_ask {α β : Type} {pre post : Shake → Prop} {k : M (Node α) β}
    (hk : Hoare (fun q => q = Shake.granted) post k) :
    Hoare pre post
      (UART_sendByte Role.token 1 >>= fun _ => UART_waitFor 1 >>= fun _ => k) :=
  hoare_bind hoare_send_token (fun _ => hoare_bind hoare_waitFor_asked (fun _ => hk))

theorem holds_offer {α β : Type} {post : Shake → Prop} {k : M (Node α) β}
    (hk : Hoare (fun q => q = Shake.offered) post k) :
    Hoare Shake.free post (UART_waitFor 1 >>= fun _ => k) := by
  intro s
  simp only [bind_run, UART_waitFor_run]
  cases h : waitFor 1 s.rx s with
  | done a s1 =>
      simp only [andThen_done]
      obtain ⟨t2, e2, p2⟩ := hk s1
      refine ⟨(s1.trace.drop s.trace.length) ++ t2, ?_, fun q hq => ?_⟩
      · obtain ⟨t, ht, -⟩ := waitFor_free Shake.offered s.rx s Shake.idle (by simp [Shake.free])
        rw [h] at ht
        simp only [state_done] at ht
        rw [e2, ht]
        simp
      · obtain ⟨t, ht, q1, r1, n1⟩ := waitFor_free Shake.offered s.rx s q hq
        rw [h] at ht n1
        simp only [state_done] at ht
        have hd : s1.trace.drop s.trace.length = t := by rw [ht]; simp
        obtain ⟨q2, r2, n2⟩ := p2 q1 (n1 rfl)
        exact ⟨q2, by rw [hd, run_append, r1]; exact r2, n2⟩
  | blocked s1 =>
      simp only [andThen_blocked]
      refine ⟨s1.trace.drop s.trace.length, ?_, fun q hq => ?_⟩
      · obtain ⟨t, ht, -⟩ := waitFor_free Shake.offered s.rx s Shake.idle (by simp [Shake.free])
        rw [h] at ht
        simp only [state_blocked] at ht ⊢
        rw [ht]
        simp
      · obtain ⟨t, ht, q1, r1, n1⟩ := waitFor_free Shake.offered s.rx s q hq
        rw [h] at ht
        simp only [state_blocked] at ht
        have hd : s1.trace.drop s.trace.length = t := by rw [ht]; simp
        exact ⟨q1, by rw [hd]; exact r1, fun h => by cases h⟩
  | noFuel s1 =>
      simp only [andThen_noFuel]
      refine ⟨s1.trace.drop s.trace.length, ?_, fun q hq => ?_⟩
      · obtain ⟨t, ht, -⟩ := waitFor_free Shake.offered s.rx s Shake.idle (by simp [Shake.free])
        rw [h] at ht
        simp only [state_noFuel] at ht ⊢
        rw [ht]
        simp
      · obtain ⟨t, ht, q1, r1, n1⟩ := waitFor_free Shake.offered s.rx s q hq
        rw [h] at ht
        simp only [state_noFuel] at ht
        have hd : s1.trace.drop s.trace.length = t := by rw [ht]; simp
        exact ⟨q1, by rw [hd]; exact r1, fun h => by cases h⟩

theorem incrCount_trace {α : Type} (s : Node α) : (incrCount s).trace = s.trace := rfl

theorem EnterNewPass_hoare (f : Nat) :
    Hoare (fun _ => True) Shake.free (EnterNewPass f) := by
  have hP := shut_closed
  have hS : Stable (Seg Shut : State → State → Prop) := seg_stable hP
  induction f with
  | zero =>
      intro s
      exact ⟨[], by simp [EnterNewPass], fun q _ => ⟨q, rfl, fun h => by cases h⟩⟩
  | succ n ih =>
      unfold EnterNewPass
      refine holds_bind (hoare_emit (by simp) (by simp)) (fun _ => ?_)
      repeat' with_reducible first
        | refine holds_ask ?_
        | refine holds_offer ?_
        | refine hoare_getS_bind (fun _ => ?_)
        | refine holds_bind ?_ (fun _ => ?_)
        | exact hoare_send_opcode _
        | exact hoare_send_credential _
        | exact hoare_send_candidate _
        | refine holds_forLoop incrCount_trace ?_ _
        | refine hoare_ite ?_ ?_
        | exact hoare_weaken (fun _ _ => trivial) ih
        | exact holds_pure _
        | exact hoare_emit (by simp) (by simp)
        | exact holds_of_seg (seg_recv hP shut_recv)
        | exact holds_of_seg (seg_key hP (fun _ => shut_single (by simp)))
        | exact holds_of_seg (seg_delay _ (shut_single (by simp)))
        | exact holds_of_seg (seg_delay_sec hP (shut_single (by simp)) _)
        | exact hoare_modify (fun _ => rfl)

theorem BlockSystem_hoare : Hoare Shake.free Shake.free BlockSystem := by
  have hP := shut_closed
  have hS : Stable (Seg Shut : State → State → Prop) := seg_stable hP
  unfold BlockSystem pinModeC
  repeat' with_reducible first
    | refine holds_bind ?_ (fun _ => ?_)
    | refine hoare_ite ?_ ?_
    | exact hoare_emit (by simp) (by simp)
    | exact holds_of_seg (seg_pinWriteC (fun _ _ _ => shut_single (by simp)) _ _)
    | exact holds_of_seg (seg_delay_sec hP (shut_single (by simp)) _)
    | exact hoare_modify (fun _ => rfl)

theorem ChangePass_hoare (f : Nat) :
    Hoare (fun _ => True) Shake.free (ChangePass f) := by
  have hP := shut_closed
  have hS : Stable (Seg Shut : State → State → Prop) := seg_stable hP
  induction f with
  | zero =>
      intro s
      exact ⟨[], by simp [ChangePass], fun q _ => ⟨q, rfl, fun h => by cases h⟩⟩
  | succ n ih =>
      unfold ChangePass
      refine holds_bind (hoare_emit (by simp) (by simp)) (fun _ => ?_)
      repeat' with_reducible first
        | refine holds_ask ?_
        | refine holds_offer ?_
        | refine hoare_getS_bind (fun _ => ?_)
        | refine holds_bind ?_ (fun _ => ?_)
        | exact hoare_send_opcode _
        | exact hoare_send_credential _
        | exact hoare_send_candidate _
        | refine holds_forLoop incrCount_trace ?_ _
        | refine hoare_ite ?_ ?_
        | exact hoare_weaken (fun _ _ => trivial) ih
        | exact hoare_weaken (fun _ _ => trivial) (EnterNewPass_hoare _)
        | exact BlockSystem_hoare
        | exact holds_pure _
        | exact hoare_emit (by simp) (by simp)
        | exact holds_of_seg (seg_recv hP shut_recv)
        | exact holds_of_seg (seg_key hP (fun _ => shut_single (by simp)))
        | exact holds_of_seg (seg_delay _ (shut_single (by simp)))
        | exact hoare_modify (fun _ => rfl)

theorem OpenDoor_hoare (f : Nat) :
    Hoare (fun _ => True) Shake.free (OpenDoor f) := by
  have hP := shut_closed
  have hS : Stable (Seg Shut : State → State → Prop) := seg_stable hP
  induction f with
  | zero =>
      intro s
      exact ⟨[], by simp [OpenDoor], fun q _ => ⟨q, rfl, fun h => by cases h⟩⟩
  | succ n ih =>
      unfold OpenDoor
      refine holds_bind (hoare_emit (by simp) (by simp)) (fun _ => ?_)
      repeat' with_reducible first
        | exact holds_of_seg (seg_delay_sec hP (shut_single (by simp)) _)
        | exact BlockSystem_hoare
        | refine holds_ask ?_
        | refine holds_offer ?_
        | refine hoare_getS_bind (fun _ => ?_)
        | refine holds_bind ?_ (fun _ => ?_)
        | exact hoare_send_opcode _
        | exact hoare_send_credential _
        | exact hoare_send_candidate _
        | refine holds_forLoop incrCount_trace ?_ _
        | refine hoare_ite ?_ ?_
        | exact hoare_weaken (fun _ _ => trivial) ih
        | exact holds_pure _
        | exact hoare_emit (by simp) (by simp)
        | exact holds_of_seg (seg_recv hP shut_recv)
        | exact holds_of_seg (seg_key hP (fun _ => shut_single (by simp)))
        | exact holds_of_seg (seg_delay _ (shut_single (by simp)))
        | exact hoare_modify (fun _ => rfl)

theorem MainScreen_hoare (f : Nat) :
    Hoare (fun _ => True) Shake.free (MainScreen f) := by
  have hP := shut_closed
  have hS : Stable (Seg Shut : State → State → Prop) := seg_stable hP
  induction f with
  | zero =>
      intro s
      exact ⟨[], by simp [MainScreen], fun q _ => ⟨q, rfl, fun h => by cases h⟩⟩
  | succ n ih =>
      unfold MainScreen
      refine holds_bind (hoare_emit (by simp) (by simp)) (fun _ => ?_)
      repeat' with_reducible first
        | refine holds_ask ?_
        | refine holds_offer ?_
        | refine hoare_getS_bind (fun _ => ?_)
        | refine holds_bind ?_ (fun _ => ?_)
        | exact hoare_send_opcode _
        | exact hoare_send_credential _
        | exact hoare_send_candidate _
        | refine holds_forLoop incrCount_trace ?_ _
        | refine hoare_ite ?_ ?_
        | exact hoare_weaken (fun _ _ => trivial) ih
        | exact hoare_weaken (fun _ _ => trivial) (EnterNewPass_hoare _)
        | exact hoare_weaken (fun _ _ => trivial) (ChangePass_hoare _)
        | exact hoare_weaken (fun _ _ => trivial) (OpenDoor_hoare _)
        | exact holds_pure _
        | exact hoare_emit (by simp) (by simp)
        | exact holds_of_seg (seg_recv hP shut_recv)
        | exact holds_of_seg (seg_key hP (fun _ => shut_single (by simp)))
        | exact holds_of_seg (seg_delay _ (shut_single (by simp)))
        | exact holds_of_seg (seg_delay_sec hP (shut_single (by simp)) _)
        | exact hoare_modify (fun _ => rfl)

theorem mainLoop_hoare (f : Nat) : Hoare Shake.free Shake.free (mainLoop f) := by
  induction f with
  | zero =>
      intro s
      exact ⟨[], by simp [mainLoop], fun q _ => ⟨q, rfl, fun h => by cases h⟩⟩
  | succ n ih =>
      unfold mainLoop
      exact holds_bind (hoare_weaken (fun _ _ => trivial) (MainScreen_hoare n)) (fun _ => ih)

theorem hoare_recv_any {α : Type} :
    Hoare (fun _ => True) (fun _ => True) (UART_receiveByte : M (Node α) Nat) := by
  intro s
  unfold UART_receiveByte
  split
  · exact ⟨[], by simp, fun q _ => ⟨q, rfl, fun _ => trivial⟩⟩
  · rename_i b rest hb
    refine ⟨[Ev.recv b], by simp, fun q _ => ?_⟩
    by_cases h1 : b = 1 <;> simp [Shake.run, Shake.step, h1]

theorem main_hoare (f : Nat) : Hoare (fun _ => True) Shake.free (main f) := by
  unfold main
  refine holds_bind (hoare_emit (by simp) (by simp)) (fun _ => ?_)
  refine holds_bind (hoare_emit (by simp) (by simp)) (fun _ => ?_)
  refine hoare_bind (hoare_weaken (fun _ _ => trivial) hoare_send_token) (fun _ => ?_)
  refine hoare_bind (hoare_weaken (fun _ _ => trivial) hoare_recv_any) (fun r => ?_)
  have hrest : Hoare (fun _ => True) Shake.free (LCD_clearScreen >>= fun _ => mainLoop f) :=
    holds_bind (hoare_emit (by simp) (by simp)) (fun _ => mainLoop_hoare f)
  simp only []
  split
  · exact holds_bind (EnterNewPass_hoare f) (fun _ => hoare_weaken (fun _ _ => trivial) hrest)
  · intro s
    simpa using hrest s

theorem handshaked_of_hoare {α β : Type} {post : Shake → Prop} {m : M (Node α) β}
    (h : Hoare (fun _ => True) post m) (s : Node α) :
    ∃ t, (m s).state.trace = s.trace ++ t ∧ handshaked Shake.offered t = true := by
  obtain ⟨t, e, p⟩ := h s
  obtain ⟨q1, r1, -⟩ := p Shake.idle trivial
  exact ⟨t, e, by simp [handshaked, r1]⟩

/-- C10 fails on the code as stated: in the run of `OpenDoor` that starts in
`c10State`, and returns, the HMI sends the token and receives it back before
`CHECK_PASSWORD` and before `OPEN_DOOR` only; each of the five candidate bytes
is sent right after a token that the Control node has sent on its own.  The
check that asks for a round trip of the sender before every byte rejects the
trace; the check that asks for the token of the receiver before a candidate
byte accepts it. -/
theorem C10_own_round_trip_counterexample :
    returned (OpenDoor 8 c10State) = true ∧
    wire (OpenDoor 8 c10State).state.trace =
      [Ev.send Role.token READY, Ev.recv READY, Ev.send Role.opcode CHECK_PASSWORD,
        Ev.recv READY, Ev.send Role.candidate 2,
        Ev.recv READY, Ev.send Role.candidate 6,
        Ev.recv READY, Ev.send Role.candidate 4,
        Ev.recv READY, Ev.send Role.candidate 9,
        Ev.recv READY, Ev.send Role.candidate 5,
        Ev.recv MATCH,
        Ev.send Role.token READY, Ev.recv READY, Ev.send Role.opcode OPEN_DOOR] ∧
    handshaked Shake.granted (OpenDoor 8 c10State).state.trace = false ∧
    handshaked Shake.offered (OpenDoor 8 c10State).state.trace = true := by
  decide!

/-- C10, amended: in every run of `EnterNewPass`, `ChangePass`, `OpenDoor`,
`MainScreen` (which holds the root path) and `main`, whatever its outcome,
every opcode and every byte of a new credential is sent immediately after the
HMI has sent `READY` and then received `READY` (bytes other than `READY` that
arrive in between are dropped), and every byte of a candidate credential is
sent immediately after `READY` has arrived with no token of the HMI pending:
the Control node, not the sender, opens the handshake for these bytes. -/
theorem C10_handshake_by_role (fuel : Nat) (s : State) :
    (∃ t, (EnterNewPass fuel s).state.trace = s.trace ++ t ∧
      handshaked Shake.offered t = true) ∧
    (∃ t, (ChangePass fuel s).state.trace = s.trace ++ t ∧
      handshaked Shake.offered t = true) ∧
    (∃ t, (OpenDoor fuel s).state.trace = s.trace ++ t ∧
      handshaked Shake.offered t = true) ∧
    (∃ t, (MainScreen fuel s).state.trace = s.trace ++ t ∧
      handshaked Shake.offered t = true) ∧
    (∃ t, (main fuel s).state.trace = s.trace ++ t ∧
      handshaked Shake.offered t = true) :=
  ⟨handshaked_of_hoare (EnterNewPass_hoare fuel) s,
    handshaked_of_hoare (ChangePass_hoare fuel) s,
    handshaked_of_hoare (OpenDoor_hoare fuel) s,
    handshaked_of_hoare (MainScreen_hoare fuel) s,
    handshaked_of_hoare (main_hoare fuel) s⟩

end HMI

/-! ## The command vocabulary (C18) -/

/-- C18: the handshake token `READY` differs from each of the seven opcodes,
the seven opcodes are pairwise distinct, and the header of the Control node
and the header of the HMI node give the same value to each of the eight
names. -/
theorem C18_token_distinct_from_opcodes :
    (∀ x ∈ [Control.CHECK_PASSWORD, Control.MATCH, Control.DONT_MATCH, Control.CHANGE_PASSWORD,
        Control.OPEN_DOOR, Control.PASS_FOUND, Control.PASS_NOT_FOUND], Control.READY ≠ x) ∧
    [Control.CHECK_PASSWORD, Control.MATCH, Control.DONT_MATCH, Control.CHANGE_PASSWORD,
      Control.OPEN_DOOR, Control.PASS_FOUND, Control.PASS_NOT_FOUND].Nodup ∧
    Control.READY = 0x01 ∧
    [Control.READY, Control.CHECK_PASSWORD, Control.MATCH, Control.DONT_MATCH,
      Control.CHANGE_PASSWORD, Control.OPEN_DOOR, Control.PASS_FOUND, Control.PASS_NOT_FOUND]
      = [HMI.READY, HMI.CHECK_PASSWORD, HMI.MATCH, HMI.DONT_MATCH,
      HMI.CHANGE_PASSWORD, HMI.OPEN_DOOR, HMI.PASS_FOUND, HMI.PASS_NOT_FOUND] := by
  decide

namespace Control

/-! ### The actuator sequence (C20) -/

theorem motorPins_set6_clear7 (p : Nat) :
    motorPins (CLEAR_BIT (SET_BIT p 6) 7) = (true, false) := by
  simp +decide [motorPins, CLEAR_BIT, SET_BIT, Nat.testBit_and, Nat.testBit_or]

theorem motorPins_clear6_set7 (p : Nat) :
    motorPins (SET_BIT (CLEAR_BIT p 6) 7) = (false, true) := by
  simp +decide [motorPins, CLEAR_BIT, SET_BIT, Nat.testBit_and, Nat.testBit_or]

theorem motorPins_clear6_clear7 (p : Nat) :
    motorPins (CLEAR_BIT (CLEAR_BIT p 6) 7) = (false, false) := by
  simp +decide [motorPins, CLEAR_BIT, SET_BIT, Nat.testBit_and, Nat.testBit_or]

theorem MotorOn_run {β : Type} (s : State β) :
    MotorOn s = Res.done () { s with
      OCR1A := 8000, OCR1B := 0, TCNT1 := 0, g_delayFlag := false,
      trace := s.trace ++ motorEvents,
      app := { s.app with
        PORTD := CLEAR_BIT (CLEAR_BIT (SET_BIT (CLEAR_BIT (CLEAR_BIT (SET_BIT s.app.PORTD 6) 7) 6)
          7) 6) 7 } } := by
  simp [MotorOn, pinWriteD, fun s => HMI.T1_delay_sec_run 9 s (by decide), motorEvents]

/-- C20: `MotorOn` returns, from every state: it writes PD6 high and PD7 low,
makes 10 delays of one second, writes PD6 low and PD7 high, makes 10 delays of
one second, and writes PD6 low and PD7 low.  The motor pins are (high, low)
during the first ten delays, (low, high) during the last ten, and (low, low)
on return, whatever the output register held on entry. -/
theorem C20_motor_sequence {β : Type} (s : State β) :
    ∃ s1, MotorOn s = Res.done () s1 ∧ s1.trace = s.trace ++ motorEvents ∧
      motorPins (portAfter s.app.PORTD (motorEvents.take 3)) = (true, false) ∧
      motorPins (portAfter s.app.PORTD (motorEvents.take 15)) = (false, true) ∧
      s1.app.PORTD = portAfter s.app.PORTD motorEvents ∧
      motorPins s1.app.PORTD = (false, false) := by
  refine ⟨_, MotorOn_run s, rfl, ?_, ?_, ?_, ?_⟩
  · exact motorPins_set6_clear7 _
  · have h := motorPins_clear6_set7 (CLEAR_BIT (SET_BIT s.app.PORTD 6) 7)
    simpa [motorEvents, portAfter, List.replicate] using h
  · simp [motorEvents, portAfter, List.replicate]
  · have h := motorPins_clear6_clear7
      (SET_BIT (CLEAR_BIT (CLEAR_BIT (SET_BIT s.app.PORTD 6) 7) 6) 7)
    simpa [motorPins, CLEAR_BIT, SET_BIT, Nat.testBit_and, Nat.testBit_or] using h

end Control

namespace HMI

/-! ### The input timeout (C17) -/

theorem callback_tick (WDE : Nat) (m : Mcu) (h : m.node.app.g_T2_tick < 310) :
    (Timer2_CallBack WDE m).node.app.g_T2_tick
        = (if m.node.app.g_T2_tick + 1 = 310 then 0 else m.node.app.g_T2_tick + 1) ∧
      (Timer2_CallBack WDE m).WDTCR
        = (if m.node.app.g_T2_tick + 1 = 310 then (1 <<< WDE) % 256 else m.WDTCR) := by
  have h1 : (m.node.app.g_T2_tick + 1) % 65536 = m.node.app.g_T2_tick + 1 :=
    Nat.mod_eq_of_lt (by omega)
  unfold Timer2_CallBack
  simp only [h1]
  split <;> simp

theorem overflows_below (WDE : Nat) (n : Nat) :
    ∀ m : Mcu, m.node.app.g_T2_tick + n < 310 →
      (overflows WDE n m).node.app.g_T2_tick = m.node.app.g_T2_tick + n ∧
      (overflows WDE n m).WDTCR = m.WDTCR := by
  induction n with
  | zero => intro m _; exact ⟨rfl, rfl⟩
  | succ k ih =>
      intro m h
      obtain ⟨ht, hw⟩ := callback_tick WDE m (by omega)
      have hne : ¬ (m.node.app.g_T2_tick + 1 = 310) := by omega
      rw [if_neg hne] at ht hw
      obtain ⟨h1, h2⟩ := ih (Timer2_CallBack WDE m) (by rw [ht]; omega)
      exact ⟨by rw [overflows, h1, ht]; omega, by rw [overflows, h2, hw]⟩

theorem overflows_last (WDE : Nat) (n : Nat) :
    ∀ m : Mcu, overflows WDE (n + 1) m = Timer2_CallBack WDE (overflows WDE n m) := by
  induction n with
  | zero => intro m; rfl
  | succ k ih => intro m; rw [overflows, ih (Timer2_CallBack WDE m)]; rfl

/-- C17: with the tick counter below 310 (as it is at power-on, after each
`g_T2_tick = 0` of the main program and after each callback),
`Timer2_CallBack` adds one to `g_T2_tick`; when the sum is 310 it sets the
counter to 0 and writes `1 << WDE` to `WDTCR`, otherwise it leaves `WDTCR` as
it was.  After the callback the counter is below 310.  Over `n` callbacks in a
row from a counter `c`, with `c + n < 310` the counter is `c + n` and `WDTCR`
is untouched; with `c + n = 310` the counter is 0 and `WDTCR` is `1 << WDE`. -/
theorem C17_timeout_at_310 (WDE : Nat) (m : Mcu) (h : m.node.app.g_T2_tick < 310) :
    (Timer2_CallBack WDE m).node.app.g_T2_tick
        = (if m.node.app.g_T2_tick + 1 = 310 then 0 else m.node.app.g_T2_tick + 1) ∧
    (Timer2_CallBack WDE m).WDTCR
        = (if m.node.app.g_T2_tick + 1 = 310 then (1 <<< WDE) % 256 else m.WDTCR) ∧
    (Timer2_CallBack WDE m).node.app.g_T2_tick < 310 ∧
    (∀ n, m.node.app.g_T2_tick + n < 310 →
      (overflows WDE n m).node.app.g_T2_tick = m.node.app.g_T2_tick + n ∧
      (overflows WDE n m).WDTCR = m.WDTCR) ∧
    (∀ n, m.node.app.g_T2_tick + n = 310 →
      (overflows WDE n m).node.app.g_T2_tick = 0 ∧
      (overflows WDE n m).WDTCR = (1 <<< WDE) % 256) := by
  obtain ⟨ht, hw⟩ := callback_tick WDE m h
  refine ⟨ht, hw, ?_, fun n hn => overflows_below WDE n m hn, ?_⟩
  · rw [ht]; split <;> omega
  · intro n hn
    obtain ⟨k, rfl⟩ : ∃ k, n = k + 1 := ⟨n - 1, by omega⟩
    obtain ⟨h1, h2⟩ := overflows_below WDE k m (by omega)
    obtain ⟨h3, h4⟩ := callback_tick WDE (overflows WDE k m) (by rw [h1]; omega)
    have he : (overflows WDE k m).node.app.g_T2_tick + 1 = 310 := by rw [h1]; omega
    rw [if_pos he] at h3 h4
    rw [overflows_last]
    exact ⟨h3, h4⟩

/-- Witness for C17: from power-on, with `WDE` = 3, the watchdog register is
untouched after 309 overflows and holds 8 after the 310th. -/
theorem C17_timeout_at_310_witness :
    (⟨initState [] [], 0⟩ : Mcu).node.app.g_T2_tick < 310 ∧
    ((overflows 3 309 ⟨initState [] [], 0⟩).node.app.g_T2_tick
        = (⟨initState [] [], 0⟩ : Mcu).node.app.g_T2_tick + 309 ∧
      (overflows 3 309 ⟨initState [] [], 0⟩).WDTCR = (⟨initState [] [], 0⟩ : Mcu).WDTCR) ∧
    ((overflows 3 310 ⟨initState [] [], 0⟩).node.app.g_T2_tick = 0 ∧
      (overflows 3 310 ⟨initState [] [], 0⟩).WDTCR = (1 <<< 3) % 256) :=
  ⟨by decide,
    (C17_timeout_at_310 3 ⟨initState [] [], 0⟩ (by decide)).2.2.2.1 309 (by decide),
    (C17_timeout_at_310 3 ⟨initState [] [], 0⟩ (by decide)).2.2.2.2 310 (by decide)⟩

end HMI

namespace Control

/-! ### The two transactions of the EEPROM driver (C12, C13, C14) -/

/-- C12: against every hardware and from every state of it, with `st` the four
statuses read after start, device select, low address byte and data byte:
`EEPROM_writeByte` returns `SUCCESS` if and only if `st` is 0x08, 0x18, 0x28,
0x28, and `ERROR` otherwise; on success the bus operations issued are start,
the write-select byte, `addr & 0xFF`, the data byte and stop, in this order;
otherwise they are the phases up to the first one whose status differs, and
nothing after it.  Recording the operations does not change the result. -/
theorem C12_write_transaction {β : Type} (hw : TwiHw β) (b : β) (a d : Nat) :
    ((EEPROM_writeByte (logged hw) a d (b, [])).1 = SUCCESS ↔
      statuses hw b (writePhases a d) = writeAcks) ∧
    (statuses hw b (writePhases a d) = writeAcks →
      (EEPROM_writeByte (logged hw) a d (b, [])).2.2
        = [BusOp.start, BusOp.write (selectW a), BusOp.write (a % 256), BusOp.write d,
            BusOp.stop]) ∧
    (statuses hw b (writePhases a d) ≠ writeAcks →
      (EEPROM_writeByte (logged hw) a d (b, [])).1 = ERROR ∧
      (EEPROM_writeByte (logged hw) a d (b, [])).2.2
        = (writePhases a d).take (agreeLen (statuses hw b (writePhases a d)) writeAcks + 1)) ∧
    EEPROM_writeByte hw a d b
      = ((EEPROM_writeByte (logged hw) a d (b, [])).1,
          (EEPROM_writeByte (logged hw) a d (b, [])).2.1) := by
  simp only [EEPROM_writeByte, TWI_start, TWI_write, TWI_stop, TWI_getStatus, logged, statuses,
    writePhases, writeAcks, issue, selectW, agreeLen]
  by_cases h1 : hw.TWSR (hw.onStart b) &&& 0xF8 = TW_START
  · by_cases h2 : hw.TWSR (hw.onWrite ((EEPROM_FIXED_ADDRESS ||| ((a &&& 0x0700) >>> 7)) % 256)
        (hw.onStart b)) &&& 0xF8 = TW_MT_SLA_W_ACK
    · by_cases h3 : hw.TWSR (hw.onWrite (a % 256)
          (hw.onWrite ((EEPROM_FIXED_ADDRESS ||| ((a &&& 0x0700) >>> 7)) % 256)
            (hw.onStart b))) &&& 0xF8 = TW_MT_DATA_ACK
      · by_cases h4 : hw.TWSR (hw.onWrite d (hw.onWrite (a % 256)
            (hw.onWrite ((EEPROM_FIXED_ADDRESS ||| ((a &&& 0x0700) >>> 7)) % 256)
              (hw.onStart b)))) &&& 0xF8 = TW_MT_DATA_ACK
        · simp [h1, h2, h3, h4]
        · simp [h1, h2, h3, h4]
      · simp [h1, h2, h3]
    · simp [h1, h2]
  · simp [h1]

end Control

namespace Control

/-- C13: against every hardware and from every state of it, with `st` the six
statuses read after start, device select for writing, low address byte,
repeated start, device select for reading and the receive without acknowledge:
`EEPROM_readByte` returns `SUCCESS` if and only if `st` is 0x08, 0x18, 0x28,
0x10, 0x40, 0x58, and `ERROR` otherwise; on success the byte stored through
the pointer is the data register after the receive, and the bus operations
issued are the six phases followed by stop; otherwise they are the phases up to
the first one whose status differs, and nothing after it.  Recording the
operations does not change the result. -/
theorem C13_read_transaction {β : Type} (hw : TwiHw β) (b : β) (a : Nat) :
    ((EEPROM_readByte (logged hw) a (b, [])).1 = SUCCESS ↔
      statuses hw b (readPhases a) = readAcks) ∧
    (statuses hw b (readPhases a) = readAcks →
      (EEPROM_readByte (logged hw) a (b, [])).2.1
        = some (hw.TWDR (issueAll hw b (readPhases a))) ∧
      (EEPROM_readByte (logged hw) a (b, [])).2.2.2
        = [BusOp.start, BusOp.write (selectW a), BusOp.write (a % 256), BusOp.start,
            BusOp.write (selectR a), BusOp.readNack, BusOp.stop]) ∧
    (statuses hw b (readPhases a) ≠ readAcks →
      (EEPROM_readByte (logged hw) a (b, [])).1 = ERROR ∧
      (EEPROM_readByte (logged hw) a (b, [])).2.2.2
        = (readPhases a).take (agreeLen (statuses hw b (readPhases a)) readAcks + 1)) ∧
    EEPROM_readByte hw a b
      = ((EEPROM_readByte (logged hw) a (b, [])).1, (EEPROM_readByte (logged hw) a (b, [])).2.1,
          (EEPROM_readByte (logged hw) a (b, [])).2.2.1) := by
  simp only [EEPROM_readByte, TWI_start, TWI_write, TWI_stop, TWI_getStatus, TWI_readWithNACK,
    logged, statuses, readPhases, readAcks, issue, issueAll, selectW, selectR, agreeLen]
  by_cases h1 : hw.TWSR (hw.onStart b) &&& 0xF8 = TW_START
  · by_cases h2 : hw.TWSR (hw.onWrite ((EEPROM_FIXED_ADDRESS ||| ((a &&& 0x0700) >>> 7)) % 256)
        (hw.onStart b)) &&& 0xF8 = TW_MT_SLA_W_ACK
    · by_cases h3 : hw.TWSR (hw.onWrite (a % 256)
          (hw.onWrite ((EEPROM_FIXED_ADDRESS ||| ((a &&& 0x0700) >>> 7)) % 256)
            (hw.onStart b))) &&& 0xF8 = TW_MT_DATA_ACK
      · by_cases h4 : hw.TWSR (hw.onStart (hw.onWrite (a % 256)
            (hw.onWrite ((EEPROM_FIXED_ADDRESS ||| ((a &&& 0x0700) >>> 7)) % 256)
              (hw.onStart b)))) &&& 0xF8 = TW_REP_START
        · by_cases h5 : hw.TWSR (hw.onWrite
              ((EEPROM_FIXED_ADDRESS ||| ((a &&& 0x0700) >>> 7) ||| 1) % 256)
              (hw.onStart (hw.onWrite (a % 256)
                (hw.onWrite ((EEPROM_FIXED_ADDRESS ||| ((a &&& 0x0700) >>> 7)) % 256)
                  (hw.onStart b))))) &&& 0xF8 = TW_MT_SLA_R_ACK
          · by_cases h6 : hw.TWSR (hw.onReadNack (hw.onWrite
                ((EEPROM_FIXED_ADDRESS ||| ((a &&& 0x0700) >>> 7) ||| 1) % 256)
                (hw.onStart (hw.onWrite (a % 256)
                  (hw.onWrite ((EEPROM_FIXED_ADDRESS ||| ((a &&& 0x0700) >>> 7)) % 256)
                    (hw.onStart b)))))) &&& 0xF8 = TW_MR_DATA_NACK
            · simp [h1, h2, h3, h4, h5, h6]
            · simp [h1, h2, h3, h4, h5, h6]
          · simp [h1, h2, h3, h4, h5]
        · simp [h1, h2, h3, h4]
      · simp [h1, h2, h3]
    · simp [h1, h2]
  · simp [h1]

end Control

namespace Control

theorem and_div_pow (a b n : Nat) : (a &&& b) / 2 ^ n = a / 2 ^ n &&& b / 2 ^ n := by
  induction n with
  | zero => simp
  | succ k ih => rw [Nat.pow_succ, ← Nat.div_div_eq_div_mul, ih, Nat.and_div_two,
      Nat.div_div_eq_div_mul, Nat.div_div_eq_div_mul]

theorem and_fourteen (x : Nat) : x &&& 14 = (x % 16) &&& 14 := by
  apply Nat.eq_of_testBit_eq
  intro i
  have h16 : (16 : Nat) = 2 ^ 4 := rfl
  rw [Nat.testBit_and, Nat.testBit_and, h16, Nat.testBit_mod_two_pow]
  by_cases hi : i < 4
  · simp [hi]
  · have h : Nat.testBit 14 i = false :=
      Nat.testBit_lt_two_pow (Nat.lt_of_lt_of_le (by decide : 14 < 2 ^ 4)
        (Nat.pow_le_pow_right (by decide) (Nat.not_lt.mp hi)))
    simp [h]

theorem block_bits (a : Nat) : (a &&& 0x0700) >>> 7 = ((a / 128) % 16) &&& 14 := by
  rw [Nat.shiftRight_eq_div_pow, and_div_pow, ← and_fourteen]
  rfl

theorem select_of_block_bits : ∀ y < 16,
    (0xA0 ||| (y &&& 14)) % 256 = 0xA0 ||| (((y / 2) % 8) <<< 1) ∧
    ((0xA0 ||| (y &&& 14)) % 256) >>> 4 = 0xA ∧
    (((0xA0 ||| (y &&& 14)) % 256) >>> 1) &&& 7 = (y / 2) % 8 ∧
    ((0xA0 ||| (y &&& 14)) % 256) &&& 1 = 0 ∧
    (0xA0 ||| (y &&& 14) ||| 1) % 256 = ((0xA0 ||| (y &&& 14)) % 256) ||| 1 := by
  decide

theorem writeByte_ops {β : Type} (hw : TwiHw β) (b : β) (a d : Nat) :
    (EEPROM_writeByte (logged hw) a d (b, [])).2.2 <+: writePhases a d ++ [BusOp.stop] := by
  simp only [EEPROM_writeByte, TWI_start, TWI_write, TWI_stop, TWI_getStatus, logged,
    writePhases, selectW]
  split_ifs <;> simp

theorem readByte_ops {β : Type} (hw : TwiHw β) (b : β) (a : Nat) :
    (EEPROM_readByte (logged hw) a (b, [])).2.2.2 <+: readPhases a ++ [BusOp.stop] := by
  simp only [EEPROM_readByte, TWI_start, TWI_write, TWI_stop, TWI_getStatus, TWI_readWithNACK,
    logged, readPhases, selectW, selectR]
  split_ifs <;> simp

/-- C14: for every address `a` (16 bits or more), the device-select byte for
writing is `0xA0 | (((a >> 8) & 7) << 1)`: its high nibble is 0xA, its bits
3..1 are the address bits 10..8 and its bit 0 is 0; the device-select byte for
reading is the same value with bit 0 set.  For the five addresses of the
credential slot the two bytes are 0xA2 and 0xA3.  Against every hardware the
bus operations of `EEPROM_writeByte` are an initial part of: start, write
select, low address byte, data byte, stop; those of `EEPROM_readByte` an
initial part of: start, write select, low address byte, start, read select,
receive, stop. -/
theorem C14_device_select {β : Type} (hw : TwiHw β) (b : β) (a d : Nat) :
    selectW a = 0xA0 ||| (((a >>> 8) &&& 7) <<< 1) ∧
    selectW a >>> 4 = 0xA ∧
    (selectW a >>> 1) &&& 7 = (a >>> 8) &&& 7 ∧
    selectW a &&& 1 = 0 ∧
    selectR a = selectW a ||| 1 ∧
    (List.range PASS_SIZE).map (fun i => (selectW (PASS_ADDRESS + i), selectR (PASS_ADDRESS + i)))
      = List.replicate PASS_SIZE (0xA2, 0xA3) ∧
    (EEPROM_writeByte (logged hw) a d (b, [])).2.2
      <+: [BusOp.start, BusOp.write (selectW a), BusOp.write (a % 256), BusOp.write d,
            BusOp.stop] ∧
    (EEPROM_readByte (logged hw) a (b, [])).2.2.2
      <+: [BusOp.start, BusOp.write (selectW a), BusOp.write (a % 256), BusOp.start,
            BusOp.write (selectR a), BusOp.readNack, BusOp.stop] := by
  have h7 : (a >>> 8) &&& 7 = ((a / 128) % 16 / 2) % 8 := by
    have e : (7 : Nat) = 2 ^ 3 - 1 := rfl
    rw [e, Nat.and_pow_two_sub_one_eq_mod, Nat.shiftRight_eq_div_pow]
    omega
  have hs := select_of_block_bits ((a / 128) % 16) (Nat.mod_lt _ (by decide))
  have hw1 : selectW a = (0xA0 ||| ((a / 128) % 16 &&& 14)) % 256 := by
    simp only [selectW, block_bits, EEPROM_FIXED_ADDRESS]
  have hr1 : selectR a = (0xA0 ||| ((a / 128) % 16 &&& 14) ||| 1) % 256 := by
    simp only [selectR, block_bits, EEPROM_FIXED_ADDRESS]
  refine ⟨?_, ?_, ?_, ?_, ?_, by decide, writeByte_ops hw b a d, readByte_ops hw b a⟩
  · rw [hw1, h7]; exact hs.1
  · rw [hw1]; exact hs.2.1
  · rw [hw1, h7]; exact hs.2.2.1
  · rw [hw1]; exact hs.2.2.2.1
  · rw [hw1, hr1]; exact hs.2.2.2.2

end Control

namespace Control

/-! ### Provisioning (C19) -/

/-- C19: with every bus transaction succeeding against the byte-addressable
device, `SetPassword` returns after five rounds, for the indices 0..4 in this
order: it receives bytes until the token arrives, echoes the token, receives
one byte, writes it to 0x0100 + index in one store write, and waits 10 ms.
Afterwards the slot holds the five bytes received, in order, and every store
address outside 0x0100..0x0104 holds the value it held before. -/
theorem C19_provisioning (s : State Chip) (J : List (List Nat)) (C rest : List Nat) (f : Nat)
    (hJ : J.length = PASS_SIZE) (hC : C.length = PASS_SIZE) (hf : PASS_SIZE < f)
    (hjunk : ∀ j ∈ J, READY ∉ j) (hidle : s.app.bus.phase = ChipPhase.idle)
    (hrx : s.rx = framedAfter J C ++ rest) :
    ∃ s1, SetPassword chipHw f s = Res.done () s1 ∧
      s1.trace = s.trace ++ Ev.call Fn.SetPassword :: storeRounds 0 J C ∧
      s1.app.bus.slot = C ∧
      (∀ a, ¬ (PASS_ADDRESS ≤ a ∧ a < PASS_ADDRESS + PASS_SIZE) →
        s1.app.bus.mem a = s.app.bus.mem a) ∧
      s1.rx = rest := by
  obtain ⟨c0, c1, c2, c3, c4, rfl⟩ := list_of_length_five C hC
  obtain ⟨j0, j1, j2, j3, j4, rfl⟩ := list_of_length_five J hJ
  obtain ⟨n, rfl⟩ := fuel_above_five f hf
  have h0 : (1 : Nat) ∉ j0 := hjunk j0 (by simp)
  have h1 : (1 : Nat) ∉ j1 := hjunk j1 (by simp)
  have h2 : (1 : Nat) ∉ j2 := hjunk j2 (by simp)
  have h3 : (1 : Nat) ∉ j3 := hjunk j3 (by simp)
  have h4 : (1 : Nat) ∉ j4 := hjunk j4 (by simp)
  obtain ⟨gp, cnt, fl, ra, rb, tc, rx, tr, ⟨ee, data, ddr, port, ⟨mem, blk, word, phase, sr, dr⟩⟩⟩ := s
  simp only at hidle hrx
  subst hidle hrx
  simp [SetPassword, forLoop, countBelow, resetCount, incrCount, UART_receiveByte,
    storeWrite_chip, framedAfter, storeRounds, Chip.slot, List.range_succ,
    fun r => HMI.waitFor_junk (α := App Chip) 1 j0 r h0,
    fun r => HMI.waitFor_junk (α := App Chip) 1 j1 r h1,
    fun r => HMI.waitFor_junk (α := App Chip) 1 j2 r h2,
    fun r => HMI.waitFor_junk (α := App Chip) 1 j3 r h3,
    fun r => HMI.waitFor_junk (α := App Chip) 1 j4 r h4]
  intro a ha
  have e0 : a ≠ 256 := by omega
  have e1 : a ≠ 257 := by omega
  have e2 : a ≠ 258 := by omega
  have e3 : a ≠ 259 := by omega
  have e4 : a ≠ 260 := by omega
  simp [Function.update_apply, e0, e1, e2, e3, e4]

/-- Witness for C19: the credential 2,6,4,9,5 sent to an erased device, with
the bytes 7 and 9 arriving before the first token. -/
theorem C19_provisioning_witness :
    ([[7, 9], [], [], [], []] : List (List Nat)).length = PASS_SIZE ∧
    ([2, 6, 4, 9, 5] : List Nat).length = PASS_SIZE ∧ PASS_SIZE < 6 ∧
    (∀ j ∈ ([[7, 9], [], [], [], []] : List (List Nat)), READY ∉ j) ∧
    ∃ s1,
      SetPassword chipHw 6
          (initState (fun _ => 0xFF)
            (framedAfter [[7, 9], [], [], [], []] [2, 6, 4, 9, 5] ++ [])) = Res.done () s1 ∧
      s1.trace
        = (initState (fun _ => 0xFF)
            (framedAfter [[7, 9], [], [], [], []] [2, 6, 4, 9, 5] ++ [])).trace ++
          Ev.call Fn.SetPassword :: storeRounds 0 [[7, 9], [], [], [], []] [2, 6, 4, 9, 5] ∧
      s1.app.bus.slot = [2, 6, 4, 9, 5] ∧
      (∀ a, ¬ (PASS_ADDRESS ≤ a ∧ a < PASS_ADDRESS + PASS_SIZE) →
        s1.app.bus.mem a
          = (initState (fun _ => 0xFF)
              (framedAfter [[7, 9], [], [], [], []] [2, 6, 4, 9, 5] ++ [])).app.bus.mem a) ∧
      s1.rx = [] :=
  ⟨by decide, by decide, by decide, by decide,
    C19_provisioning
      (initState (fun _ => 0xFF) (framedAfter [[7, 9], [], [], [], []] [2, 6, 4, 9, 5] ++ []))
      [[7, 9], [], [], [], []] [2, 6, 4, 9, 5] [] 6 (by decide) (by decide) (by decide)
      (by decide) rfl rfl⟩

end Control

namespace Control

/-! ### Store reads of a verification (C15) -/

/-- C15 fails on the code: in the run that starts in `c15State` the candidate
differs from the stored credential at index 0, and `CheckPassword` still reads
all five slot bytes, 0x0100..0x0104, before it sends `DONT_MATCH`. -/
theorem C15_reads_after_mismatch_counterexample :
    returned (CheckPassword chipHw 6 c15State) = true ∧
    agreeLen [9, 6, 4, 9, 5] c15State.app.bus.slot = 0 ∧
    storeReads (CheckPassword chipHw 6 c15State).state.trace
      = [0x0100, 0x0101, 0x0102, 0x0103, 0x0104] ∧
    sentAs Role.opcode (CheckPassword chipHw 6 c15State).state.trace = [DONT_MATCH] := by
  decide!

/-- C15, amended: with every store read succeeding, `CheckPassword` reads the
five slot bytes 0x0100..0x0104, in this order, whatever the candidate is, and
sends the verdict after them as its last action.  Only the comparison stops at
the first index at which the candidate differs from the stored credential:
`count` holds that index on return (5 when there is none) and the verdict is
`DONT_MATCH` when there is one. -/
theorem C15_reads_all_then_compares (s : State Chip) (C' rest : List Nat) (f : Nat)
    (hC : C'.length = PASS_SIZE) (hf : PASS_SIZE < f)
    (hidle : s.app.bus.phase = ChipPhase.idle) (hrx : s.rx = C' ++ rest) :
    ∃ t s2, CheckPassword chipHw f s = Res.done () s2 ∧
      s2.trace = s.trace ++ t ++
        [Ev.send Role.opcode (if agreeLen C' s.app.bus.slot < PASS_SIZE then DONT_MATCH
          else MATCH)] ∧
      storeReads t = [0x0100, 0x0101, 0x0102, 0x0103, 0x0104] ∧
      sentAs Role.opcode t = [] ∧
      s2.count = agreeLen C' s.app.bus.slot := by
  obtain ⟨c0, c1, c2, c3, c4, rfl⟩ := list_of_length_five C' hC
  obtain ⟨n, rfl⟩ := fuel_above_five f hf
  obtain ⟨gp, cnt, fl, ra, rb, tc, rx, tr, ⟨ee, data, ddr, port, ⟨mem, blk, word, phase, sr, dr⟩⟩⟩ := s
  simp only at hidle hrx
  subst hidle hrx
  refine ⟨[Ev.call Fn.CheckPassword,
    Ev.send Role.token 1, Ev.recv c0, Ev.eeRead 256 (mem 256) 1, Ev.delay 10,
    Ev.send Role.token 1, Ev.recv c1, Ev.eeRead 257 (mem 257) 1, Ev.delay 10,
    Ev.send Role.token 1, Ev.recv c2, Ev.eeRead 258 (mem 258) 1, Ev.delay 10,
    Ev.send Role.token 1, Ev.recv c3, Ev.eeRead 259 (mem 259) 1, Ev.delay 10,
    Ev.send Role.token 1, Ev.recv c4, Ev.eeRead 260 (mem 260) 1, Ev.delay 10], ?_⟩
  simp [CheckPassword, forLoop, forLoopRet, countBelow, resetCount, incrCount,
    UART_receiveByte, storeRead_chip, Chip.slot, List.range_succ, andThen_ite, storeReads,
    sentAs, agreeLen]
  split_ifs <;> simp_all [incrCount]

/-- Witness for C15: the slot holds 2,6,4,9,5 and the candidate is 9,6,4,9,5. -/
theorem C15_reads_all_then_compares_witness :
    ([9, 6, 4, 9, 5] : List Nat).length = PASS_SIZE ∧ PASS_SIZE < 6 ∧
    c15State.app.bus.phase = ChipPhase.idle ∧
    ∃ t s2, CheckPassword chipHw 6 c15State = Res.done () s2 ∧
      s2.trace = c15State.trace ++ t ++
        [Ev.send Role.opcode (if agreeLen [9, 6, 4, 9, 5] c15State.app.bus.slot < PASS_SIZE
          then DONT_MATCH else MATCH)] ∧
      storeReads t = [0x0100, 0x0101, 0x0102, 0x0103, 0x0104] ∧
      sentAs Role.opcode t = [] ∧
      s2.count = agreeLen [9, 6, 4, 9, 5] c15State.app.bus.slot :=
  ⟨by decide, by decide, rfl,
    C15_reads_all_then_compares c15State [9, 6, 4, 9, 5] [] 6 (by decide) (by decide) rfl rfl⟩

end Control

namespace Control

/-! ### Store transactions that fail (C11) -/

/-- C11 fails on the code: on a bus without device every store transaction
returns `ERROR`; `CheckPassword`, given the candidate 0,0,0,0,0 at power-on,
still makes all five store reads and then sends `MATCH`, and `SetPassword`
still makes all five store writes. -/
theorem C11_error_ignored_counterexample :
    returned (CheckPassword noDevice 6 (bareState [0, 0, 0, 0, 0])) = true ∧
    storeReads (CheckPassword noDevice 6 (bareState [0, 0, 0, 0, 0])).state.trace
      = [0x0100, 0x0101, 0x0102, 0x0103, 0x0104] ∧
    storeResults (CheckPassword noDevice 6 (bareState [0, 0, 0, 0, 0])).state.trace
      = [ERROR, ERROR, ERROR, ERROR, ERROR] ∧
    sentAs Role.opcode (CheckPassword noDevice 6 (bareState [0, 0, 0, 0, 0])).state.trace
      = [MATCH] ∧
    returned (SetPassword noDevice 6 (bareState (framed [2, 6, 4, 9, 5]))) = true ∧
    storeWrites (SetPassword noDevice 6 (bareState (framed [2, 6, 4, 9, 5]))).state.trace
      = [(0x0100, 2), (0x0101, 6), (0x0102, 4), (0x0103, 9), (0x0104, 5)] ∧
    storeResults (SetPassword noDevice 6 (bareState (framed [2, 6, 4, 9, 5]))).state.trace
      = [ERROR, ERROR, ERROR, ERROR, ERROR] := by
  decide!

theorem compare_run {β : Type} (n : Nat) (gp : Nat → Nat) (fl : Bool) (ra rb tc : Nat)
    (rx : List Nat) (tr : List Ev) (app : App β) :
    forLoopRet countBelow incrCount (do
        let s ← getS
        if s.g_password s.count ≠ s.app.g_EEPassword s.count then do
          UART_sendByte Role.opcode DONT_MATCH
          pure true
        else pure false) (n + 6)
      ({ g_password := gp, count := 0, g_delayFlag := fl, OCR1A := ra, OCR1B := rb, TCNT1 := tc,
         rx := rx, trace := tr, app := app } : State β)
      = Res.done
          (decide ((List.range PASS_SIZE).map gp ≠ (List.range PASS_SIZE).map app.g_EEPassword))
          { g_password := gp,
            count := agreeLen ((List.range PASS_SIZE).map gp)
              ((List.range PASS_SIZE).map app.g_EEPassword),
            g_delayFlag := fl, OCR1A := ra, OCR1B := rb, TCNT1 := tc, rx := rx,
            trace := tr ++
              (if (List.range PASS_SIZE).map gp = (List.range PASS_SIZE).map app.g_EEPassword
                then [] else [Ev.send Role.opcode DONT_MATCH]),
            app := app } := by
  simp [forLoopRet, countBelow, incrCount, List.range_succ, andThen_ite, agreeLen]
  split_ifs <;> simp_all

theorem storeReads_append (a b : List Ev) : storeReads (a ++ b) = storeReads a ++ storeReads b := by
  induction a with
  | nil => rfl
  | cons e t ih => cases e <;> simp [storeReads, ih]

theorem sentAs_append (r : Role) (a b : List Ev) : sentAs r (a ++ b) = sentAs r a ++ sentAs r b := by
  induction a with
  | nil => rfl
  | cons e t ih =>
      cases e with
      | send r1 x => by_cases h : r1 = r <;> simp [sentAs, h, ih]
      | _ => simp [sentAs, ih]

theorem readLoop_run {β : Type} (hw : TwiHw β) (n : Nat) (gp : Nat → Nat) (fl : Bool)
    (ra rb tc : Nat) (d0 d1 d2 d3 d4 : Nat) (rest : List Nat) (tr : List Ev) (app : App β) :
    ∃ s1 t, forLoop countBelow incrCount (do
        UART_sendByte Role.token READY
        let b ← UART_receiveByte
        modifyS (fun s => { s with g_password := Function.update s.g_password s.count b })
        let s ← getS
        let _ ← storeRead hw ((PASS_ADDRESS + s.count) % 65536)
        T1_delay_msec 10) (n + 6)
      ({ g_password := gp, count := 0, g_delayFlag := fl, OCR1A := ra, OCR1B := rb, TCNT1 := tc,
         rx := [d0, d1, d2, d3, d4] ++ rest, trace := tr, app := app } : State β)
        = Res.done () s1 ∧
      s1.trace = tr ++ t ∧
      storeReads t = [0x0100, 0x0101, 0x0102, 0x0103, 0x0104] ∧
      sentAs Role.opcode t = [] ∧
      (List.range PASS_SIZE).map s1.g_password = [d0, d1, d2, d3, d4] := by
  simp [forLoop, countBelow, incrCount, UART_receiveByte, storeRead, List.range_succ,
    storeReads, sentAs]

/-- C11, amended: against every hardware, whatever the store transactions
return, `SetPassword` that receives five bytes (each after the token) returns
after five store writes, of these bytes to 0x0100..0x0104, and `CheckPassword`
that receives five bytes returns after five store reads at 0x0100..0x0104,
followed by one verdict as its last action: `MATCH` when the candidate equals
the five bytes of `g_EEPassword` as the reads have left them, `DONT_MATCH`
otherwise.  A result `ERROR` is not examined and ends nothing. -/
theorem C11_result_not_examined {β : Type} (hw : TwiHw β) (s s' : State β)
    (C C' rest rest' : List Nat) (f : Nat)
    (hC : C.length = PASS_SIZE) (hC' : C'.length = PASS_SIZE) (hf : PASS_SIZE < f)
    (hrx : s.rx = framed C ++ rest) (hrx' : s'.rx = C' ++ rest') :
    (∃ s1 t, SetPassword hw f s = Res.done () s1 ∧ s1.trace = s.trace ++ t ∧
      storeWrites t = (List.range PASS_SIZE).map (fun i => (PASS_ADDRESS + i, C.getD i 0))) ∧
    (∃ s2 t, CheckPassword hw f s' = Res.done () s2 ∧ s2.trace = s'.trace ++ t ∧
      storeReads t = (List.range PASS_SIZE).map (fun i => PASS_ADDRESS + i) ∧
      sentAs Role.opcode t
        = [if C' = (List.range PASS_SIZE).map s2.app.g_EEPassword then MATCH else DONT_MATCH] ∧
      t.getLast? = some (Ev.send Role.opcode
        (if C' = (List.range PASS_SIZE).map s2.app.g_EEPassword then MATCH else DONT_MATCH))) := by
  obtain ⟨c0, c1, c2, c3, c4, rfl⟩ := list_of_length_five C hC
  obtain ⟨d0, d1, d2, d3, d4, rfl⟩ := list_of_length_five C' hC'
  obtain ⟨n, rfl⟩ := fuel_above_five f hf
  obtain ⟨gp, cnt, fl, ra, rb, tc, rx, tr, ⟨ee, data, ddr, port, bus⟩⟩ := s
  obtain ⟨gp', cnt', fl', ra', rb', tc', rx', tr', ⟨ee', data', ddr', port', bus'⟩⟩ := s'
  simp only at hrx hrx'
  subst hrx hrx'
  constructor
  · simp [SetPassword, forLoop, countBelow, resetCount, incrCount, waitFor, UART_receiveByte,
      storeWrite, framed, List.range_succ, storeWrites]
  · simp only [CheckPassword, bind_run, emit_run, modifyS_run, andThen_done]
    obtain ⟨s1, t1, h1, ht, hr, hs, hg⟩ := readLoop_run hw n gp' fl' ra' rb' tc' d0 d1 d2 d3 d4
      rest' (tr' ++ [Ev.call Fn.CheckPassword])
      { g_EEPassword := ee', Data := data', DDRD := ddr', PORTD := port', bus := bus' }
    rw [h1]
    obtain ⟨gp1, cnt1, fl1, ra1, rb1, tc1, rx1, tr1, app1⟩ := s1
    simp only at ht hg
    subst ht
    simp only [andThen_done, bind_run, modifyS_run, compare_run]
    rw [hg]
    by_cases hE : [d0, d1, d2, d3, d4] = List.map app1.g_EEPassword (List.range PASS_SIZE)
    · have hd : decide ([d0, d1, d2, d3, d4]
          ≠ List.map app1.g_EEPassword (List.range PASS_SIZE)) = false := by simp [hE]
      rw [if_pos hE, hd]
      simp only [Bool.false_eq_true, if_false, UART_sendByte_run]
      refine ⟨_, [Ev.call Fn.CheckPassword] ++ t1 ++ [Ev.send Role.opcode MATCH], rfl, ?_⟩
      have hl : (Ev.call Fn.CheckPassword :: (t1 ++ [Ev.send Role.opcode 3])).getLast?
          = some (Ev.send Role.opcode 3) := by
        rw [← List.cons_append, List.getLast?_concat]
      have hE1 := hE
      simp [List.range_succ] at hE1
      simp [storeReads_append, sentAs_append, hr, hs, storeReads, sentAs, List.range_succ, hE1,
        hl]
    · have hd : decide ([d0, d1, d2, d3, d4]
          ≠ List.map app1.g_EEPassword (List.range PASS_SIZE)) = true := by simp [hE]
      rw [if_neg hE, hd]
      simp only [if_true, pure_run]
      refine ⟨_, [Ev.call Fn.CheckPassword] ++ t1 ++ [Ev.send Role.opcode DONT_MATCH], rfl, ?_⟩
      have hl : (Ev.call Fn.CheckPassword :: (t1 ++ [Ev.send Role.opcode 4])).getLast?
          = some (Ev.send Role.opcode 4) := by
        rw [← List.cons_append, List.getLast?_concat]
      have hE1 := hE
      simp [List.range_succ] at hE1
      simp [storeReads_append, sentAs_append, hr, hs, storeReads, sentAs, List.range_succ, hE1,
        hl]
      rw [if_neg]
      intro h
      exact hE1 h.1 h.2.1 h.2.2.1 h.2.2.2.1 h.2.2.2.2

/-- Witness for C11: a bus without device, the credential 2,6,4,9,5 sent to
`SetPassword` and the candidate 0,0,0,0,0 sent to `CheckPassword`. -/
theorem C11_result_not_examined_witness :
    ([2, 6, 4, 9, 5] : List Nat).length = PASS_SIZE ∧
    ([0, 0, 0, 0, 0] : List Nat).length = PASS_SIZE ∧ PASS_SIZE < 6 ∧
    (∃ s1 t, SetPassword noDevice 6 (bareState (framed [2, 6, 4, 9, 5])) = Res.done () s1 ∧
      s1.trace = (bareState (framed [2, 6, 4, 9, 5])).trace ++ t ∧
      storeWrites t
        = (List.range PASS_SIZE).map (fun i => (PASS_ADDRESS + i, [2, 6, 4, 9, 5].getD i 0))) ∧
    (∃ s2 t, CheckPassword noDevice 6 (bareState [0, 0, 0, 0, 0]) = Res.done () s2 ∧
      s2.trace = (bareState [0, 0, 0, 0, 0]).trace ++ t ∧
      storeReads t = (List.range PASS_SIZE).map (fun i => PASS_ADDRESS + i) ∧
      sentAs Role.opcode t
        = [if [0, 0, 0, 0, 0] = (List.range PASS_SIZE).map s2.app.g_EEPassword then MATCH
            else DONT_MATCH] ∧
      t.getLast? = some (Ev.send Role.opcode
        (if [0, 0, 0, 0, 0] = (List.range PASS_SIZE).map s2.app.g_EEPassword then MATCH
          else DONT_MATCH))) :=
  ⟨by decide, by decide, by decide,
    C11_result_not_examined noDevice (bareState (framed [2, 6, 4, 9, 5]))
      (bareState [0, 0, 0, 0, 0]) [2, 6, 4, 9, 5] [0, 0, 0, 0, 0] [] [] 6
      (by decide) (by decide) (by decide) rfl rfl⟩

end Control

namespace HMI

/-! ### After the lockout (C16) -/

/-- C16 fails on the code: in the run of `MainScreen` that starts in
`c16State`, after the third mismatch and the minute of `BlockSystem`,
`OpenDoor` is entered again and shows its prompt; the run then waits for a
digit of the credential.  The main menu has been shown once, before the first
attempt, and is not shown again. -/
theorem C16_prompt_after_lockout_counterexample :
    waiting (MainScreen 12 c16State) = true ∧
    (MainScreen 12 c16State).state.trace
      = [Ev.call Fn.MainScreen, Ev.lcdString 0 0 Msg.menuChange, Ev.lcdString 1 0 Msg.menuOpen,
          Ev.key 0, Ev.key KEY_MINUS] ++
        attemptEvents Fn.OpenDoor Msg.enterPass [1, 1, 1, 1, 1] DONT_MATCH ++
        attemptEvents Fn.OpenDoor Msg.enterPass [1, 1, 1, 1, 1] DONT_MATCH ++
        attemptEvents Fn.OpenDoor Msg.enterPass [1, 1, 1, 1, 1] DONT_MATCH ++
        blockEvents ++ openDoorPrompt ++ [Ev.timer2 true] ∧
    calls Fn.MainScreen (MainScreen 12 c16State).state.trace = 1 := by
  decide!

theorem BlockSystem_noMenu : Sat (Seg (Each noMenu)) BlockSystem := by
  have hP := each_closed noMenu
  have hS : Stable (Seg (Each noMenu) : State → State → Prop) := seg_stable hP
  unfold BlockSystem pinModeC
  repeat' with_reducible first
    | refine sat_bind hS ?_ (fun _ => ?_)
    | refine sat_ite ?_ ?_
    | exact seg_emit (each_single (by simp [noMenu]))
    | exact seg_pinWriteC (fun _ _ _ => each_single (by simp [noMenu])) _ _
    | exact seg_delay_sec hP (each_single (by simp [noMenu])) _
    | exact seg_modify hP (fun _ => rfl)

theorem OpenDoor_noMenu (f : Nat) : Sat (Seg (Each noMenu)) (OpenDoor f) := by
  have hP := each_closed noMenu
  have hS : Stable (Seg (Each noMenu) : State → State → Prop) := seg_stable hP
  induction f with
  | zero => intro s; exact hS.refl s
  | succ n ih =>
      unfold OpenDoor
      repeat' with_reducible first
        | exact seg_delay_sec hP (each_single (by simp [noMenu])) _
        | exact BlockSystem_noMenu
        | refine sat_bind hS ?_ (fun _ => ?_)
        | refine sat_forLoop hS (seg_incrCount hP) ?_ _
        | refine sat_ite ?_ ?_
        | exact ih
        | exact sat_pure hS _
        | exact sat_getS hS
        | exact seg_emit (each_single (by simp [noMenu]))
        | exact seg_waitFor hP (fun b => each_single (by simp [noMenu])) _
        | exact seg_recv hP (fun b => each_single (by simp [noMenu]))
        | exact seg_key hP (fun b => each_single (by simp [noMenu]))
        | exact seg_delay _ (each_single (by simp [noMenu]))
        | exact seg_modify hP (fun _ => rfl)

theorem after_base {α : Type} {P : List Ev → Prop} {k : M State α} (h : Sat (Seg P) k) :
    ∀ s, ∃ t, (k s).state.trace = s.trace ++ [] ++ t ∧ P t := by
  intro s
  obtain ⟨t, e, p⟩ := h s
  exact ⟨t, by simpa using e, p⟩

theorem after_emit {α : Type} {P : List Ev → Prop} {e : Ev} {p : List Ev} {k : M State α}
    (hk : ∀ s, ∃ t, (k s).state.trace = s.trace ++ p ++ t ∧ P t) :
    ∀ s, ∃ t, ((emit e >>= fun _ => k) s).state.trace = s.trace ++ (e :: p) ++ t ∧ P t := by
  intro s
  simp only [bind_run, emit_run, andThen_done]
  obtain ⟨t, h, hp⟩ := hk { s with trace := s.trace ++ [e] }
  exact ⟨t, by rw [h]; simp, hp⟩

theorem after_delay {α : Type} {P : List Ev → Prop} {ms : Nat} {p : List Ev} {k : M State α}
    (hk : ∀ s, ∃ t, (k s).state.trace = s.trace ++ p ++ t ∧ P t) :
    ∀ s, ∃ t, ((T1_delay_msec ms >>= fun _ => k) s).state.trace
      = s.trace ++ (Ev.delay ms :: p) ++ t ∧ P t := by
  intro s
  simp only [bind_run, T1_delay_msec_run, andThen_done]
  obtain ⟨t, h, hp⟩ := hk { s with
    OCR1A := (ms * 8) % 65536, OCR1B := 0, TCNT1 := 0, g_delayFlag := false,
    trace := s.trace ++ [Ev.delay ms] }
  exact ⟨t, by rw [h]; simp, hp⟩

theorem OpenDoor_prompt (n : Nat) (s : State) :
    ∃ t, (OpenDoor (n + 1) s).state.trace = s.trace ++ openDoorPrompt ++ t ∧ Each noMenu t := by
  have hP := each_closed noMenu
  have hS : Stable (Seg (Each noMenu) : State → State → Prop) := seg_stable hP
  have ih := OpenDoor_noMenu n
  unfold OpenDoor
  refine after_emit (after_delay (after_emit (after_emit (after_base ?_)))) s
  repeat' with_reducible first
    | exact seg_delay_sec hP (each_single (by simp [noMenu])) _
    | exact BlockSystem_noMenu
    | refine sat_bind hS ?_ (fun _ => ?_)
    | refine sat_forLoop hS (seg_incrCount hP) ?_ _
    | refine sat_ite ?_ ?_
    | exact ih
    | exact sat_pure hS _
    | exact sat_getS hS
    | exact seg_emit (each_single (by simp [noMenu]))
    | exact seg_waitFor hP (fun b => each_single (by simp [noMenu])) _
    | exact seg_recv hP (fun b => each_single (by simp [noMenu]))
    | exact seg_key hP (fun b => each_single (by simp [noMenu]))
    | exact seg_delay _ (each_single (by simp [noMenu]))
    | exact seg_modify hP (fun _ => rfl)

/-- C16, amended: when the third mismatch in a row in `OpenDoor` (attempt
counter at 2, answer other than `MATCH`) has been followed by the lockout of
`BlockSystem`, `OpenDoor` calls itself: the run goes on as a new attempt, with
the counter at 0, which starts by showing the prompt for the credential; from
there to the end of that call nothing enters `MainScreen` and no line of the
main menu is shown. -/
theorem C16_retry_after_lockout (s : State) (d krest rest : List Nat) (r n : Nat)
    (hd : d.length = PASS_SIZE) (hr : r ≠ MATCH) (hi : s.app.OpenDoor_i = 2)
    (hkeys : s.app.keys = d ++ krest) (hrx : s.rx = answers r ++ rest) :
    ∃ s1 t, OpenDoor (n + 6) s = OpenDoor (n + 5) s1 ∧
      s1.trace = s.trace ++ attemptEvents Fn.OpenDoor Msg.enterPass d r ++ blockEvents ∧
      s1.app.OpenDoor_i = 0 ∧ s1.app.keys = krest ∧ s1.rx = rest ∧
      (OpenDoor (n + 5) s1).state.trace = s1.trace ++ openDoorPrompt ++ t ∧
      Each noMenu t := by
  obtain ⟨k0, k1, k2, k3, k4, rfl⟩ := Control.list_of_length_five d hd
  obtain ⟨gp, cnt, fl, ra, rb, tc, rx, tr, ⟨rep, tick, ci, oi, ddr, port, keys⟩⟩ := s
  simp only [answers] at hi hkeys hrx
  subst hi hkeys hrx
  simp only [List.cons_append, List.nil_append,
    OpenDoor_mismatch _ _ _ _ _ _ _ _ _ _ _ _ _ _ _ _ _ _ _ _ _ _ hr]
  simp only [if_true, bind_run, BlockSystem_run, andThen_done]
  obtain ⟨t, ht, hp⟩ := OpenDoor_prompt (n + 4)
    { g_password := Function.update (Function.update (Function.update (Function.update
        (Function.update gp 0 k0) 1 k1) 2 k2) 3 k3) 4 k4,
      count := 5, g_delayFlag := false, OCR1A := 8000, OCR1B := 0, TCNT1 := 0, rx := rest,
      trace := tr ++ attemptEvents Fn.OpenDoor Msg.enterPass [k0, k1, k2, k3, k4] r ++ blockEvents,
      app := { g_rePassword := rep, g_T2_tick := 0, ChangePass_i := ci, OpenDoor_i := 0,
               DDRC := SET_BIT ddr 0, PORTC := CLEAR_BIT (SET_BIT (CLEAR_BIT port 0) 0) 0,
               keys := krest } }
  exact ⟨_, t, rfl, rfl, rfl, rfl, rfl, ht, hp⟩

/-- Witness for C16: an attempt counter at 2, the digits 1,2,3,4,5 and the
answer `DONT_MATCH`. -/
theorem C16_retry_after_lockout_witness :
    ([1, 2, 3, 4, 5] : List Nat).length = PASS_SIZE ∧ DONT_MATCH ≠ MATCH ∧
    ∃ s1 t,
      OpenDoor (0 + 6)
          { initState ([1, 2, 3, 4, 5] ++ []) (answers DONT_MATCH ++ []) with
            app := { (initState ([1, 2, 3, 4, 5] ++ []) (answers DONT_MATCH ++ [])).app with
                     OpenDoor_i := 2 } }
        = OpenDoor (0 + 5) s1 ∧
      s1.trace = [] ++ attemptEvents Fn.OpenDoor Msg.enterPass [1, 2, 3, 4, 5] DONT_MATCH
        ++ blockEvents ∧
      s1.app.OpenDoor_i = 0 ∧ s1.app.keys = [] ∧ s1.rx = [] ∧
      (OpenDoor (0 + 5) s1).state.trace = s1.trace ++ openDoorPrompt ++ t ∧
      Each noMenu t :=
  ⟨by decide, by decide,
    C16_retry_after_lockout
      { initState ([1, 2, 3, 4, 5] ++ []) (answers DONT_MATCH ++ []) with
        app := { (initState ([1, 2, 3, 4, 5] ++ []) (answers DONT_MATCH ++ [])).app with
                 OpenDoor_i := 2 } }
      [1, 2, 3, 4, 5] [] [] DONT_MATCH 0 (by decide) (by decide) rfl rfl rfl⟩

end HMI

namespace Control

/-! ### What a failed read leaves behind (C29) -/

/-- C29: against every hardware, with `st` the six statuses of a read
transaction: when the first status that differs from the expected one is among
the first five, `EEPROM_readByte` returns `ERROR` and stores nothing through
the pointer, so the destination `g_EEPassword[count]` of the call made by the
application keeps its value; when only the sixth status (after the receive)
differs, `EEPROM_readByte` returns `ERROR` as well but has stored the data
register, and the destination holds that byte. -/
theorem C29_destination_after_error {β : Type} (hw : TwiHw β) (s : State β) (a : Nat) :
    (agreeLen (statuses hw s.app.bus (readPhases a)) readAcks < 5 →
      (EEPROM_readByte hw a s.app.bus).1 = ERROR ∧
      (EEPROM_readByte hw a s.app.bus).2.1 = none ∧
      (storeRead hw a s).state.app.g_EEPassword = s.app.g_EEPassword) ∧
    (agreeLen (statuses hw s.app.bus (readPhases a)) readAcks = 5 →
      (EEPROM_readByte hw a s.app.bus).1 = ERROR ∧
      (EEPROM_readByte hw a s.app.bus).2.1
        = some (hw.TWDR (issueAll hw s.app.bus (readPhases a))) ∧
      (storeRead hw a s).state.app.g_EEPassword
        = Function.update s.app.g_EEPassword s.count
            (hw.TWDR (issueAll hw s.app.bus (readPhases a)))) := by
  simp only [storeRead, EEPROM_readByte, TWI_start, TWI_write, TWI_stop, TWI_getStatus,
    TWI_readWithNACK, statuses, readPhases, readAcks, issue, issueAll, selectW, selectR,
    agreeLen, state_done]
  by_cases h1 : hw.TWSR (hw.onStart s.app.bus) &&& 0xF8 = TW_START
  · by_cases h2 : hw.TWSR (hw.onWrite ((EEPROM_FIXED_ADDRESS ||| ((a &&& 0x0700) >>> 7)) % 256)
        (hw.onStart s.app.bus)) &&& 0xF8 = TW_MT_SLA_W_ACK
    · by_cases h3 : hw.TWSR (hw.onWrite (a % 256)
          (hw.onWrite ((EEPROM_FIXED_ADDRESS ||| ((a &&& 0x0700) >>> 7)) % 256)
            (hw.onStart s.app.bus))) &&& 0xF8 = TW_MT_DATA_ACK
      · by_cases h4 : hw.TWSR (hw.onStart (hw.onWrite (a % 256)
            (hw.onWrite ((EEPROM_FIXED_ADDRESS ||| ((a &&& 0x0700) >>> 7)) % 256)
              (hw.onStart s.app.bus)))) &&& 0xF8 = TW_REP_START
        · by_cases h5 : hw.TWSR (hw.onWrite
              ((EEPROM_FIXED_ADDRESS ||| ((a &&& 0x0700) >>> 7) ||| 1) % 256)
              (hw.onStart (hw.onWrite (a % 256)
                (hw.onWrite ((EEPROM_FIXED_ADDRESS ||| ((a &&& 0x0700) >>> 7)) % 256)
                  (hw.onStart s.app.bus))))) &&& 0xF8 = TW_MT_SLA_R_ACK
          · by_cases h6 : hw.TWSR (hw.onReadNack (hw.onWrite
                ((EEPROM_FIXED_ADDRESS ||| ((a &&& 0x0700) >>> 7) ||| 1) % 256)
                (hw.onStart (hw.onWrite (a % 256)
                  (hw.onWrite ((EEPROM_FIXED_ADDRESS ||| ((a &&& 0x0700) >>> 7)) % 256)
                    (hw.onStart s.app.bus)))))) &&& 0xF8 = TW_MR_DATA_NACK
            · simp [h1, h2, h3, h4, h5, h6]
            · simp [h1, h2, h3, h4, h5, h6]
          · simp [h1, h2, h3, h4, h5]
        · simp [h1, h2, h3, h4]
      · simp [h1, h2, h3]
    · simp [h1, h2]
  · simp [h1]

/-! ### The address bits that reach the bus (C26) -/

theorem block_bits_mod (a a' : Nat) (h : a % 2048 = a' % 2048) :
    (a &&& 0x0700) >>> 7 = (a' &&& 0x0700) >>> 7 := by
  rw [block_bits, block_bits]
  have e : a / 128 % 16 = a' / 128 % 16 := by omega
  rw [e]

/-- C26: for two addresses that agree modulo 2^11 and the same hardware in the
same state, `EEPROM_writeByte` (with the same data byte) and `EEPROM_readByte`
return the same result, store the same byte through the pointer, leave the
hardware in the same state and issue the same bus operations with the same
bytes. -/
theorem C26_low_eleven_bits {β : Type} (hw : TwiHw β) (b : β) (a a' d : Nat)
    (h : a % 2048 = a' % 2048) :
    EEPROM_writeByte (logged hw) a d (b, []) = EEPROM_writeByte (logged hw) a' d (b, []) ∧
    EEPROM_readByte (logged hw) a (b, []) = EEPROM_readByte (logged hw) a' (b, []) ∧
    EEPROM_writeByte hw a d b = EEPROM_writeByte hw a' d b ∧
    EEPROM_readByte hw a b = EEPROM_readByte hw a' b := by
  have h1 := block_bits_mod a a' h
  have h2 : a % 256 = a' % 256 := by omega
  simp only [EEPROM_writeByte, EEPROM_readByte, h1, h2, and_self]

/-- Witness for C26: the addresses 0x0100 and 0x0900 against the acknowledging
device. -/
theorem C26_low_eleven_bits_witness :
    0x0100 % 2048 = 0x0900 % 2048 ∧
    EEPROM_writeByte (logged chipHw) 0x0100 7 ((initState (fun _ => 0xFF) []).app.bus, [])
      = EEPROM_writeByte (logged chipHw) 0x0900 7 ((initState (fun _ => 0xFF) []).app.bus, []) ∧
    EEPROM_readByte (logged chipHw) 0x0100 ((initState (fun _ => 0xFF) []).app.bus, [])
      = EEPROM_readByte (logged chipHw) 0x0900 ((initState (fun _ => 0xFF) []).app.bus, []) ∧
    EEPROM_writeByte chipHw 0x0100 7 (initState (fun _ => 0xFF) []).app.bus
      = EEPROM_writeByte chipHw 0x0900 7 (initState (fun _ => 0xFF) []).app.bus ∧
    EEPROM_readByte chipHw 0x0100 (initState (fun _ => 0xFF) []).app.bus
      = EEPROM_readByte chipHw 0x0900 (initState (fun _ => 0xFF) []).app.bus :=
  ⟨by decide,
    C26_low_eleven_bits chipHw (initState (fun _ => 0xFF) []).app.bus 0x0100 0x0900 7
      (by decide)⟩

end Control

namespace Control

/-! ### Verification against a buffer that the reads never fill (C24) -/

/-- C24: against every hardware on which every call of `EEPROM_readByte` ends
before its receive phase, so that nothing is stored through the pointer, and
with the five bytes of `g_EEPassword` at their power-on value 0,
`CheckPassword` that receives the five bytes of a candidate returns after five
store reads and one verdict: `MATCH` exactly when the candidate is
0,0,0,0,0.  The content of the store plays no part. -/
theorem C24_verdict_from_stale_buffer {β : Type} (hw : TwiHw β) (s : State β)
    (C' rest : List Nat) (f : Nat)
    (hC : C'.length = PASS_SIZE) (hf : PASS_SIZE < f) (hrx : s.rx = C' ++ rest)
    (hbuf : ∀ i, i < PASS_SIZE → s.app.g_EEPassword i = 0)
    (hnone : ∀ a b, (EEPROM_readByte hw a b).2.1 = none) :
    ∃ s2 t, CheckPassword hw f s = Res.done () s2 ∧ s2.trace = s.trace ++ t ∧
      storeReads t = [0x0100, 0x0101, 0x0102, 0x0103, 0x0104] ∧
      sentAs Role.opcode t = [if C' = [0, 0, 0, 0, 0] then MATCH else DONT_MATCH] ∧
      s2.app.g_EEPassword = s.app.g_EEPassword := by
  obtain ⟨d0, d1, d2, d3, d4, rfl⟩ := list_of_length_five C' hC
  obtain ⟨n, rfl⟩ := fuel_above_five f hf
  obtain ⟨gp, cnt, fl, ra, rb, tc, rx, tr, ⟨ee, data, ddr, port, bus⟩⟩ := s
  simp only at hrx hbuf
  subst hrx
  have h0 : ee 0 = 0 := hbuf 0 (by decide)
  have h1 : ee 1 = 0 := hbuf 1 (by decide)
  have h2 : ee 2 = 0 := hbuf 2 (by decide)
  have h3 : ee 3 = 0 := hbuf 3 (by decide)
  have h4 : ee 4 = 0 := hbuf 4 (by decide)
  simp [CheckPassword, forLoop, forLoopRet, countBelow, resetCount, incrCount,
    UART_receiveByte, storeRead, hnone, andThen_ite, storeReads, sentAs, h0, h1, h2, h3, h4]
  split_ifs <;> simp_all [storeReads, sentAs]

/-- Witness for C24: a bus without device and the candidate 0,0,0,0,0 at
power-on. -/
theorem C24_verdict_from_stale_buffer_witness :
    ([0, 0, 0, 0, 0] : List Nat).length = PASS_SIZE ∧ PASS_SIZE < 6 ∧
    (∀ i, i < PASS_SIZE → (bareState ([0, 0, 0, 0, 0] ++ [])).app.g_EEPassword i = 0) ∧
    (∀ a b, (EEPROM_readByte noDevice a b).2.1 = none) ∧
    ∃ s2 t, CheckPassword noDevice 6 (bareState ([0, 0, 0, 0, 0] ++ [])) = Res.done () s2 ∧
      s2.trace = (bareState ([0, 0, 0, 0, 0] ++ [])).trace ++ t ∧
      storeReads t = [0x0100, 0x0101, 0x0102, 0x0103, 0x0104] ∧
      sentAs Role.opcode t = [if [0, 0, 0, 0, 0] = [0, 0, 0, 0, 0] then MATCH else DONT_MATCH] ∧
      s2.app.g_EEPassword = (bareState ([0, 0, 0, 0, 0] ++ [])).app.g_EEPassword :=
  ⟨by decide, by decide, fun _ _ => rfl,
    fun a b => by simp +decide [EEPROM_readByte, noDevice, TWI_start, TWI_write, TWI_getStatus],
    C24_verdict_from_stale_buffer noDevice (bareState ([0, 0, 0, 0, 0] ++ [])) [0, 0, 0, 0, 0] []
      6 (by decide) (by decide) rfl (fun _ _ => rfl)
      (fun a b => by simp +decide [EEPROM_readByte, noDevice, TWI_start, TWI_write, TWI_getStatus])⟩

end Control

/-! ## The delay functions (C27, C28) -/

/-- C27 fails on the code: `T1_delay_msec(1000)` programs the compare value
8000, and 8000 counts of a timer clocked at 8 MHz / 1024 take 1.024 s, not 1 s
(one count is 128 microseconds, so one millisecond is 7.8125 counts, not 8);
the 60 calls of `T1_delay_sec(60)` take 61.44 s. -/
theorem C27_second_is_1024_ms :
    (T1_delay_msec 1000 (HMI.initState [] [])).state.OCR1A = 8000 ∧
    timerNanos 8000000 1024 1 = 128000 ∧
    timerNanos 8000000 1024 (T1_delay_msec 1000 (HMI.initState [] [])).state.OCR1A
      = 1024000000 ∧
    timerNanos 8000000 1024 (T1_delay_msec 1000 (HMI.initState [] [])).state.OCR1A
      ≠ 1000 * 1000000 ∧
    delayCalls 1000 (T1_delay_sec 60 (HMI.initState [] [])).state.trace = 60 ∧
    60 * timerNanos 8000000 1024 (T1_delay_msec 1000 (HMI.initState [] [])).state.OCR1A
      = 61440000000 := by
  decide!

namespace Control

/-! ### The command loop keeps no record (C22) -/

theorem mainLoop_step {β : Type} (hw : TwiHw β) (f d : Nat) (junk rest : List Nat)
    (hjunk : READY ∉ junk)
    (gp : Nat → Nat) (cnt : Nat) (fl : Bool) (ra rb tc : Nat) (tr : List Ev) (app : App β) :
    mainLoop hw (f + 1)
        { g_password := gp, count := cnt, g_delayFlag := fl, OCR1A := ra, OCR1B := rb,
          TCNT1 := tc, rx := junk ++ READY :: d :: rest, trace := tr, app := app }
      = (dispatch hw f d >>= fun _ => mainLoop hw f)
          { g_password := gp, count := cnt, g_delayFlag := fl, OCR1A := ra, OCR1B := rb,
            TCNT1 := tc, rx := rest,
            trace := tr ++ junk.map Ev.recv ++ [Ev.recv READY, Ev.send Role.token READY, Ev.recv d],
            app := { app with Data := d } } := by
  rw [mainLoop]
  simp only [bind_run, andThen_done, UART_waitFor_run, HMI.waitFor_junk 1 junk (d :: rest) hjunk,
    UART_sendByte_run, UART_receiveByte, modifyS_run, READY, List.append_assoc,
    List.singleton_append, List.cons_append, List.nil_append]

/-- C22: from every state of the Control node, whatever its globals and its
trace hold (so after every command history), an iteration of the command loop
that receives bytes until `READY`, echoes `READY` and receives the opcode `d`
goes on from a state `s1` in which only the serial input, the trace and `Data`
have changed: with `d = OPEN_DOOR` it runs `MotorOn`, with `d = CHANGE_PASSWORD`
it runs `SetPassword`, with `d = CHECK_PASSWORD` it runs `CheckPassword`, and
with any other `d` it starts the next iteration at once, with no store access,
no pin write and no byte sent after the opcode. -/
theorem C22_dispatch_without_memory {β : Type} (hw : TwiHw β) (s : State β) (f d : Nat)
    (junk rest : List Nat) (hjunk : READY ∉ junk) (hrx : s.rx = junk ++ READY :: d :: rest) :
    ∃ s1, s1 = { s with
        rx := rest,
        trace := s.trace ++ junk.map Ev.recv ++
          [Ev.recv READY, Ev.send Role.token READY, Ev.recv d],
        app := { s.app with Data := d } } ∧
      (d = OPEN_DOOR → mainLoop hw (f + 1) s = (MotorOn >>= fun _ => mainLoop hw f) s1) ∧
      (d = CHANGE_PASSWORD →
        mainLoop hw (f + 1) s = (SetPassword hw f >>= fun _ => mainLoop hw f) s1) ∧
      (d = CHECK_PASSWORD →
        mainLoop hw (f + 1) s = (CheckPassword hw f >>= fun _ => mainLoop hw f) s1) ∧
      (d ≠ OPEN_DOOR → d ≠ CHANGE_PASSWORD → d ≠ CHECK_PASSWORD →
        mainLoop hw (f + 1) s = mainLoop hw f s1) := by
  obtain ⟨gp, cnt, fl, ra, rb, tc, rx, tr, app⟩ := s
  simp only at hrx
  subst hrx
  refine ⟨_, rfl, ?_, ?_, ?_, ?_⟩
  · intro hd
    rw [mainLoop_step hw f d junk rest hjunk]
    subst hd
    simp [dispatch]
  · intro hd
    rw [mainLoop_step hw f d junk rest hjunk]
    subst hd
    simp [dispatch]
  · intro hd
    rw [mainLoop_step hw f d junk rest hjunk]
    subst hd
    simp [dispatch]
  · intro h1 h2 h3
    rw [mainLoop_step hw f d junk rest hjunk]
    simp only [READY, OPEN_DOOR, CHANGE_PASSWORD, CHECK_PASSWORD] at h1 h2 h3
    simp [dispatch, h1, h2, h3]

/-- Witness for C22: at power-on, with no verification made, the bytes 9,
`READY`, `OPEN_DOOR` arrive. -/
theorem C22_dispatch_without_memory_witness :
    READY ∉ [9] ∧
    ∃ s1, s1 = { initState (fun _ => 0xFF) ([9] ++ READY :: OPEN_DOOR :: []) with
        rx := [],
        trace := (initState (fun _ => 0xFF) ([9] ++ READY :: OPEN_DOOR :: [])).trace ++
          [9].map Ev.recv ++ [Ev.recv READY, Ev.send Role.token READY, Ev.recv OPEN_DOOR],
        app := { (initState (fun _ => 0xFF) ([9] ++ READY :: OPEN_DOOR :: [])).app with
                 Data := OPEN_DOOR } } ∧
      (OPEN_DOOR = OPEN_DOOR →
        mainLoop chipHw (0 + 1) (initState (fun _ => 0xFF) ([9] ++ READY :: OPEN_DOOR :: []))
          = (MotorOn >>= fun _ => mainLoop chipHw 0) s1) ∧
      (OPEN_DOOR = CHANGE_PASSWORD →
        mainLoop chipHw (0 + 1) (initState (fun _ => 0xFF) ([9] ++ READY :: OPEN_DOOR :: []))
          = (SetPassword chipHw 0 >>= fun _ => mainLoop chipHw 0) s1) ∧
      (OPEN_DOOR = CHECK_PASSWORD →
        mainLoop chipHw (0 + 1) (initState (fun _ => 0xFF) ([9] ++ READY :: OPEN_DOOR :: []))
          = (CheckPassword chipHw 0 >>= fun _ => mainLoop chipHw 0) s1) ∧
      (OPEN_DOOR ≠ OPEN_DOOR → OPEN_DOOR ≠ CHANGE_PASSWORD → OPEN_DOOR ≠ CHECK_PASSWORD →
        mainLoop chipHw (0 + 1) (initState (fun _ => 0xFF) ([9] ++ READY :: OPEN_DOOR :: []))
          = mainLoop chipHw 0 s1) :=
  ⟨by decide,
    C22_dispatch_without_memory chipHw
      (initState (fun _ => 0xFF) ([9] ++ READY :: OPEN_DOOR :: [])) 0 OPEN_DOOR [9] []
      (by decide) rfl⟩

end Control

namespace Control

/-! ### The motor pins are never high together (C30) -/

theorem portAfter_cons (p : Nat) (e : Ev) (t : List Ev) :
    portAfter p (e :: t) = portAfter (portAfter p [e]) t := by
  cases e <;> simp only [portAfter]
  split <;> rfl

theorem portAfter_append (p : Nat) (a b : List Ev) :
    portAfter p (a ++ b) = portAfter (portAfter p a) b := by
  induction a generalizing p with
  | nil => rfl
  | cons e t ih => rw [List.cons_append, portAfter_cons, ih, ← portAfter_cons]

theorem pinLevels_append (p : Nat) (a b : List Ev) :
    pinLevels p (a ++ b) = pinLevels p a ++ pinLevels (portAfter p a) b := by
  induction a generalizing p with
  | nil => rfl
  | cons e t ih =>
      rw [List.cons_append, pinLevels, pinLevels, ih, portAfter_cons p e t, List.cons_append]

theorem entryLevels_append (p : Nat) (a b : List Ev) :
    entryLevels p (a ++ b) = entryLevels p a ++ entryLevels (portAfter p a) b := by
  induction a generalizing p with
  | nil => rfl
  | cons e t ih =>
      rw [List.cons_append, entryLevels, entryLevels, ih, portAfter_cons p e t,
        List.append_assoc]

theorem pinsOk_stable {β : Type} : Stable (PinsOk : State β → State β → Prop) where
  refl := fun s => ⟨[], by simp, rfl, fun h => ⟨by simp [pinLevels], by simp [entryLevels], h⟩⟩
  trans := by
    rintro a b c ⟨t1, h1, p1, q1⟩ ⟨t2, h2, p2, q2⟩
    refine ⟨t1 ++ t2, by rw [h2, h1, List.append_assoc], by rw [p2, p1, portAfter_append], ?_⟩
    intro h
    obtain ⟨a1, a2, a3⟩ := q1 h
    obtain ⟨b1, b2, b3⟩ := q2 a3
    rw [p1] at b1 b2
    refine ⟨?_, ?_, b3⟩
    · rw [pinLevels_append, List.mem_append]
      rintro (hx | hx)
      · exact a1 hx
      · exact b1 hx
    · intro l hl
      rw [entryLevels_append, List.mem_append] at hl
      rcases hl with hx | hx
      · exact a2 l hx
      · exact b2 l hx

theorem quiet_levels (p : Nat) (hp : motorPins p = (false, false)) (t : List Ev)
    (ht : Each quietEv t) :
    portAfter p t = p ∧ (true, true) ∉ pinLevels p t ∧ entryLevels p t = [] := by
  induction t with
  | nil => exact ⟨rfl, by simp [pinLevels], rfl⟩
  | cons e t ih =>
      have he : quietEv e := ht e (List.mem_cons_self _ _)
      obtain ⟨i1, i2, i3⟩ := ih (fun x hx => ht x (List.mem_cons_of_mem _ hx))
      have h1 : portAfter p [e] = p := by
        cases e with
        | pin a b c => exact absurd rfl (he.1 a b c)
        | _ => rfl
      refine ⟨by rw [portAfter_cons, h1, i1], ?_, ?_⟩
      · rw [pinLevels, h1, List.mem_cons]
        rintro (hx | hx)
        · rw [hp] at hx
          exact absurd hx (by decide)
        · exact i2 hx
      · rw [entryLevels, h1, i3, if_neg he.2]
        rfl

theorem quiet_portAfter (p : Nat) (t : List Ev) (ht : Each quietEv t) : portAfter p t = p := by
  induction t with
  | nil => rfl
  | cons e t ih =>
      have he : quietEv e := ht e (List.mem_cons_self _ _)
      have h1 : portAfter p [e] = p := by
        cases e with
        | pin a b c => exact absurd rfl (he.1 a b c)
        | _ => rfl
      rw [portAfter_cons, h1, ih (fun x hx => ht x (List.mem_cons_of_mem _ hx))]

theorem pinsOk_quiet {β : Type} (s s1 : State β) (t : List Ev) (h1 : s1.trace = s.trace ++ t)
    (h2 : s1.app.PORTD = s.app.PORTD) (ht : Each quietEv t) : PinsOk s s1 := by
  refine ⟨t, h1, by rw [h2, quiet_portAfter _ _ ht], fun hp => ?_⟩
  obtain ⟨_, i2, i3⟩ := quiet_levels _ hp t ht
  exact ⟨i2, by rw [i3]; simp, by rw [h2]; exact hp⟩

end Control

namespace Control

theorem waitFor_app {α : Type} (tok : Nat) (rx : List Nat) :
    ∀ s : Node α, (waitFor tok rx s).state.app = s.app := by
  induction rx with
  | nil => intro s; rfl
  | cons b rest ih =>
      intro s
      simp only [waitFor]
      split
      · rw [ih]
      · rfl

theorem quiet_single {e : Ev} (h : quietEv e) : Each quietEv [e] := each_single h

theorem pins_emit {β : Type} {e : Ev} (he : quietEv e) :
    Sat PinsOk (emit e : M (State β) Unit) :=
  fun s => pinsOk_quiet s _ [e] rfl rfl (quiet_single he)

theorem pins_recv {β : Type} : Sat PinsOk (UART_receiveByte : M (State β) Nat) := by
  intro s
  unfold UART_receiveByte
  split
  · exact pinsOk_stable.refl s
  · rename_i b rest hb
    exact pinsOk_quiet s _ [Ev.recv b] rfl rfl (quiet_single (by simp [quietEv]))

theorem pins_waitFor {β : Type} (tok : Nat) :
    Sat PinsOk (UART_waitFor tok : M (State β) Unit) := by
  intro s
  obtain ⟨t, ht, hq⟩ := seg_waitFor (each_closed quietEv)
    (fun b => each_single (by simp [quietEv])) tok s
  exact pinsOk_quiet s _ t ht (by rw [UART_waitFor, waitFor_app]) hq

theorem pins_modify {β : Type} {f : State β → State β} (h1 : ∀ s, (f s).trace = s.trace)
    (h2 : ∀ s, (f s).app.PORTD = s.app.PORTD) : Sat PinsOk (modifyS f) :=
  fun s => pinsOk_quiet s _ [] (by simp [modifyS, h1]) (by simp [modifyS, h2])
    (fun _ hx => absurd hx (List.not_mem_nil _))

theorem pins_storeWrite {β : Type} (hw : TwiHw β) (a d : Nat) :
    Sat PinsOk (storeWrite hw a d) :=
  fun s => pinsOk_quiet s _ [Ev.eeWrite a d _] rfl rfl (quiet_single (by simp [quietEv]))

theorem pins_storeRead {β : Type} (hw : TwiHw β) (a : Nat) : Sat PinsOk (storeRead hw a) :=
  fun s => pinsOk_quiet s _ [Ev.eeRead a _ _] rfl rfl (quiet_single (by simp [quietEv]))

theorem pins_delay {β : Type} (msec : Nat) : Sat PinsOk (T1_delay_msec msec : M (State β) Unit) :=
  fun s => pinsOk_quiet s _ [Ev.delay msec] rfl rfl (quiet_single (by simp [quietEv]))

theorem pins_incrCount {β : Type} (s : State β) : PinsOk s (incrCount s) :=
  pinsOk_quiet s _ [] (by simp [incrCount]) rfl (fun _ hx => absurd hx (List.not_mem_nil _))

theorem motorPins_clear6 (p : Nat) (h : motorPins p = (false, false)) :
    motorPins (CLEAR_BIT p 6) = (false, false) := by
  simp only [motorPins, Prod.mk.injEq, PD6, PD7] at h ⊢
  simp +decide [CLEAR_BIT, Nat.testBit_and, h.1, h.2]

theorem motorPins_clear7 (p : Nat) (h : motorPins p = (false, false)) :
    motorPins (CLEAR_BIT p 7) = (false, false) := by
  simp only [motorPins, Prod.mk.injEq, PD6, PD7] at h ⊢
  simp +decide [CLEAR_BIT, Nat.testBit_and, h.1, h.2]

theorem pins_low6 {β : Type} : Sat PinsOk (pinWriteD PD6 LOW : M (State β) Unit) := by
  intro s
  refine ⟨[Ev.pin portD PD6 LOW], rfl, by simp [pinWriteD, portAfter], fun h => ?_⟩
  have h6 := motorPins_clear6 _ h
  refine ⟨?_, by simp [entryLevels], by simpa [pinWriteD] using h6⟩
  simp only [pinLevels, portAfter, List.mem_cons, List.mem_nil_iff, or_false]
  simp only [PD6, LOW, portD, HIGH] at h6 ⊢
  simp [h6]

theorem pins_low7 {β : Type} : Sat PinsOk (pinWriteD PD7 LOW : M (State β) Unit) := by
  intro s
  refine ⟨[Ev.pin portD PD7 LOW], rfl, by simp [pinWriteD, portAfter], fun h => ?_⟩
  have h7 := motorPins_clear7 _ h
  refine ⟨?_, by simp [entryLevels], by simpa [pinWriteD] using h7⟩
  simp only [pinLevels, portAfter, List.mem_cons, List.mem_nil_iff, or_false]
  simp only [PD7, LOW, portD, HIGH] at h7 ⊢
  simp [h7]

theorem pins_MotorOn {β : Type} : Sat PinsOk (MotorOn : M (State β) Unit) := by
  intro s
  rw [MotorOn_run]
  refine ⟨motorEvents, rfl, by simp [motorEvents, portAfter, List.replicate], fun h => ?_⟩
  simp only [motorPins, Prod.mk.injEq, PD6, PD7] at h
  refine ⟨?_, ?_, ?_⟩
  · simp +decide [motorEvents, pinLevels, portAfter, List.replicate, motorPins, CLEAR_BIT,
      SET_BIT, Nat.testBit_and, Nat.testBit_or, h.1, h.2]
  · simp +decide [motorEvents, entryLevels, portAfter, List.replicate, motorPins, h.1, h.2]
  · simp +decide [motorPins, CLEAR_BIT, SET_BIT, Nat.testBit_and, Nat.testBit_or]

end Control

namespace Control

theorem pins_SetPassword {β : Type} (hw : TwiHw β) (f : Nat) :
    Sat PinsOk (SetPassword hw f) := by
  have hS : Stable (PinsOk : State β → State β → Prop) := pinsOk_stable
  unfold SetPassword
  refine sat_bind hS (pins_emit (by simp [quietEv])) fun _ => ?_
  refine sat_bind hS (pins_modify (fun _ => rfl) (fun _ => rfl)) fun _ => ?_
  refine sat_forLoop hS pins_incrCount ?_ f
  refine sat_bind hS (pins_waitFor _) fun _ => ?_
  refine sat_bind hS (pins_emit (by simp [quietEv])) fun _ => ?_
  refine sat_bind hS pins_recv fun _ => ?_
  refine sat_bind hS (pins_modify (fun _ => rfl) (fun _ => rfl)) fun _ => ?_
  refine sat_bind hS (sat_getS hS) fun _ => ?_
  exact sat_bind hS (pins_storeWrite hw _ _) fun _ => pins_delay _

theorem pins_CheckPassword {β : Type} (hw : TwiHw β) (f : Nat) :
    Sat PinsOk (CheckPassword hw f) := by
  have hS : Stable (PinsOk : State β → State β → Prop) := pinsOk_stable
  unfold CheckPassword
  refine sat_bind hS (pins_emit (by simp [quietEv])) fun _ => ?_
  refine sat_bind hS (pins_modify (fun _ => rfl) (fun _ => rfl)) fun _ => ?_
  refine sat_bind hS (sat_forLoop hS pins_incrCount ?_ f) fun _ => ?_
  · refine sat_bind hS (pins_emit (by simp [quietEv])) fun _ => ?_
    refine sat_bind hS pins_recv fun _ => ?_
    refine sat_bind hS (pins_modify (fun _ => rfl) (fun _ => rfl)) fun _ => ?_
    refine sat_bind hS (sat_getS hS) fun _ => ?_
    exact sat_bind hS (pins_storeRead hw _) fun _ => pins_delay _
  refine sat_bind hS (pins_modify (fun _ => rfl) (fun _ => rfl)) fun _ => ?_
  refine sat_bind hS (sat_forLoopRet hS pins_incrCount ?_ f) fun r => ?_
  · refine sat_bind hS (sat_getS hS) fun _ => ?_
    refine sat_ite ?_ (sat_pure hS _)
    exact sat_bind hS (pins_emit (by simp [quietEv])) fun _ => sat_pure hS _
  · exact sat_ite (sat_pure hS _) (pins_emit (by simp [quietEv]))

theorem pins_EEPROM_CheckPassword {β : Type} (hw : TwiHw β) (f : Nat) :
    Sat PinsOk (EEPROM_CheckPassword hw f) := by
  have hS : Stable (PinsOk : State β → State β → Prop) := pinsOk_stable
  unfold EEPROM_CheckPassword
  refine sat_bind hS (pins_emit (by simp [quietEv])) fun _ => ?_
  refine sat_bind hS (pins_modify (fun _ => rfl) (fun _ => rfl)) fun _ => ?_
  refine sat_bind hS (sat_forLoopRet hS pins_incrCount ?_ f) fun r => ?_
  · refine sat_bind hS (sat_getS hS) fun _ => ?_
    refine sat_bind hS (pins_storeRead hw _) fun _ => ?_
    refine sat_bind hS (pins_delay _) fun _ => ?_
    refine sat_bind hS (sat_getS hS) fun _ => ?_
    refine sat_ite ?_ (sat_pure hS _)
    exact sat_bind hS (pins_emit (by simp [quietEv])) fun _ => sat_pure hS _
  · refine sat_ite (sat_pure hS _) ?_
    exact sat_bind hS (pins_emit (by simp [quietEv])) fun _ => pins_SetPassword hw f

theorem pins_dispatch {β : Type} (hw : TwiHw β) (f d : Nat) : Sat PinsOk (dispatch hw f d) := by
  unfold dispatch
  exact sat_ite (pins_CheckPassword hw f)
    (sat_ite (pins_SetPassword hw f) (sat_ite pins_MotorOn (sat_pure pinsOk_stable _)))

theorem pins_mainLoop {β : Type} (hw : TwiHw β) (f : Nat) : Sat PinsOk (mainLoop hw f) := by
  have hS : Stable (PinsOk : State β → State β → Prop) := pinsOk_stable
  induction f with
  | zero => intro s; exact hS.refl s
  | succ n ih =>
      unfold mainLoop
      refine sat_bind hS (pins_waitFor _) fun _ => ?_
      refine sat_bind hS (pins_emit (by simp [quietEv])) fun _ => ?_
      refine sat_bind hS pins_recv fun d => ?_
      refine sat_bind hS (pins_modify (fun _ => rfl) (fun _ => rfl)) fun _ => ?_
      exact sat_bind hS (pins_dispatch hw n d) fun _ => ih

theorem pins_pinModeD6 {β : Type} : Sat PinsOk (pinModeD PD6 OUTPUT : M (State β) Unit) := by
  unfold pinModeD
  rw [if_pos rfl]
  exact sat_bind pinsOk_stable (pins_modify (fun _ => rfl) (fun _ => rfl)) fun _ => pins_low6

theorem pins_pinModeD7 {β : Type} : Sat PinsOk (pinModeD PD7 OUTPUT : M (State β) Unit) := by
  unfold pinModeD
  rw [if_pos rfl]
  exact sat_bind pinsOk_stable (pins_modify (fun _ => rfl) (fun _ => rfl)) fun _ => pins_low7

theorem pins_main {β : Type} (hw : TwiHw β) (f : Nat) : Sat PinsOk (main hw f) := by
  have hS : Stable (PinsOk : State β → State β → Prop) := pinsOk_stable
  unfold main boot
  refine sat_bind hS ?_ fun _ => pins_mainLoop hw f
  refine sat_bind hS pins_pinModeD6 fun _ => ?_
  refine sat_bind hS pins_pinModeD7 fun _ => ?_
  exact sat_bind hS (pins_waitFor _) fun _ => pins_EEPROM_CheckPassword hw f

/-- C30: from every state of the Control node in which PD6 and PD7 are both
low, `MotorOn` returns, after none of its events are both pins high, and on
return both are low.  Over every run of `main` from such a state, whatever
arrives on the serial line and however the run ends, the output register
follows the pin writes of the trace, the two pins are never high together,
they are both low at every entry of `MotorOn`, and both low at the end. -/
theorem C30_motor_pins_exclusive {β : Type} (hw : TwiHw β) (s : State β) (f : Nat)
    (h : motorPins s.app.PORTD = (false, false)) :
    (∃ s1, MotorOn s = Res.done () s1 ∧ s1.trace = s.trace ++ motorEvents ∧
      (true, true) ∉ pinLevels s.app.PORTD motorEvents ∧
      motorPins s1.app.PORTD = (false, false)) ∧
    (∃ t, (main hw f s).state.trace = s.trace ++ t ∧
      (main hw f s).state.app.PORTD = portAfter s.app.PORTD t ∧
      (true, true) ∉ pinLevels s.app.PORTD t ∧
      (∀ l ∈ entryLevels s.app.PORTD t, l = (false, false)) ∧
      motorPins (main hw f s).state.app.PORTD = (false, false)) := by
  constructor
  · obtain ⟨t, ht, hp, hq⟩ := pins_MotorOn s
    obtain ⟨q1, _, q3⟩ := hq h
    rw [MotorOn_run] at ht hp q3
    have ht2 : t = motorEvents := by simpa using ht.symm
    subst ht2
    exact ⟨_, MotorOn_run s, rfl, q1, q3⟩
  · obtain ⟨t, ht, hp, hq⟩ := pins_main hw f s
    obtain ⟨q1, q2, q3⟩ := hq h
    exact ⟨t, ht, hp, q1, q2, q3⟩

/-- Witness for C30: the power-on state in front of an erased device, with a
session on the line that stores a credential and then asks for the door. -/
theorem C30_motor_pins_exclusive_witness :
    motorPins c30State.app.PORTD = (false, false) ∧
    ((∃ s1, MotorOn c30State = Res.done () s1 ∧
      s1.trace = c30State.trace ++ motorEvents ∧
      (true, true) ∉ pinLevels c30State.app.PORTD motorEvents ∧
      motorPins s1.app.PORTD = (false, false)) ∧
    (∃ t, (main chipHw 8 c30State).state.trace
        = c30State.trace ++ t ∧
      (main chipHw 8 c30State).state.app.PORTD
        = portAfter c30State.app.PORTD t ∧
      (true, true) ∉ pinLevels c30State.app.PORTD t ∧
      (∀ l ∈ entryLevels c30State.app.PORTD t, l = (false, false)) ∧
      motorPins (main chipHw 8 c30State).state.app.PORTD
        = (false, false))) :=
  ⟨by decide, C30_motor_pins_exclusive chipHw c30State 8 (by decide)⟩

end Control

namespace HMI

/-! ### Only a confirmed entry is transmitted (C21) -/

theorem keysRead_append (a b : List Ev) : keysRead (a ++ b) = keysRead a ++ keysRead b := by
  induction a with
  | nil => rfl
  | cons e t ih => cases e <;> simp [keysRead, ih]

theorem cred_append (a b : List Ev) :
    sentAs Role.credential (a ++ b) = sentAs Role.credential a ++ sentAs Role.credential b := by
  induction a with
  | nil => rfl
  | cons e t ih =>
      cases e <;> simp [sentAs, ih]
      split <;> simp

theorem waitFor_spec (tok : Nat) (rx : List Nat) :
    ∀ s : State, ∃ t, (waitFor tok rx s).state.trace = s.trace ++ t ∧ keysRead t = [] ∧
      sentAs Role.credential t = [] ∧
      (waitFor tok rx s).state.g_password = s.g_password ∧
      (waitFor tok rx s).state.count = s.count ∧
      (waitFor tok rx s = Res.done () (waitFor tok rx s).state ∨
        waitFor tok rx s = Res.blocked (waitFor tok rx s).state) := by
  induction rx with
  | nil => intro s; exact ⟨[], by simp [waitFor], rfl, rfl, rfl, rfl, Or.inr rfl⟩
  | cons b rest ih =>
      intro s
      simp only [waitFor]
      split
      · obtain ⟨t, h1, h2, h3, h4, h5, h6⟩ :=
          ih { s with rx := rest, trace := s.trace ++ [Ev.recv b] }
        refine ⟨[Ev.recv b] ++ t, ?_, ?_, ?_, h4, h5, h6⟩
        · rw [h1]; simp
        · rw [keysRead_append, h2]; rfl
        · rw [cred_append, h3]; rfl
      · exact ⟨[Ev.recv b], rfl, rfl, rfl, rfl, rfl, Or.inl rfl⟩

theorem sendStep_spec (s : State) :
    ∃ t, ((do
          UART_sendByte Role.token READY
          UART_waitFor READY
          let s ← getS
          UART_sendByte Role.credential (s.g_password s.count) : M State Unit) s).state.trace
        = s.trace ++ t ∧
      keysRead t = [] ∧
      ((∃ s1, (do
          UART_sendByte Role.token READY
          UART_waitFor READY
          let s ← getS
          UART_sendByte Role.credential (s.g_password s.count) : M State Unit) s
            = Res.done () s1 ∧
          s1.g_password = s.g_password ∧ s1.count = s.count ∧
          sentAs Role.credential t = [s.g_password s.count]) ∨
       (∃ s1, (do
          UART_sendByte Role.token READY
          UART_waitFor READY
          let s ← getS
          UART_sendByte Role.credential (s.g_password s.count) : M State Unit) s
            = Res.blocked s1 ∧
          sentAs Role.credential t = [])) := by
  obtain ⟨t, h1, h2, h3, h4, h5, h6⟩ := waitFor_spec READY s.rx
    { s with trace := s.trace ++ [Ev.send Role.token READY] }
  simp only [bind_run, UART_sendByte_run, andThen_done, UART_waitFor_run]
  generalize waitFor READY s.rx { s with trace := s.trace ++ [Ev.send Role.token READY] } = r
    at h1 h4 h5 h6
  rcases h6 with h6 | h6
  · rw [h6]
    simp only [andThen_done, getS_run, state_done, bind_run, UART_sendByte_run]
    simp only [] at h1 h4 h5
    refine ⟨[Ev.send Role.token READY] ++ t ++ [Ev.send Role.credential (s.g_password s.count)],
      ?_, ?_, Or.inl ⟨_, rfl, h4, h5, ?_⟩⟩
    · rw [h1, h4, h5]; simp
    · rw [keysRead_append, keysRead_append, h2]; rfl
    · rw [cred_append, cred_append, h3]; simp [sentAs]
  · rw [h6]
    simp only [andThen_blocked, state_blocked]
    simp only [] at h1
    refine ⟨[Ev.send Role.token READY] ++ t, ?_, ?_, Or.inr ⟨_, rfl, ?_⟩⟩
    · rw [h1]; simp
    · rw [keysRead_append, h2]; rfl
    · rw [cred_append, h3]; simp [sentAs]

theorem sendLoop_from (k : Nat) : ∀ (F : Nat) (s : State), s.count + k = 5 →
    ∃ t,
      (forLoop countBelow incrCount (do
          UART_sendByte Role.token READY
          UART_waitFor READY
          let s ← getS
          UART_sendByte Role.credential (s.g_password s.count)) F s).state.trace = s.trace ++ t ∧
      keysRead t = [] ∧
      sentAs Role.credential t <+: (List.range' s.count k).map s.g_password ∧
      ∀ s1, forLoop countBelow incrCount (do
          UART_sendByte Role.token READY
          UART_waitFor READY
          let s ← getS
          UART_sendByte Role.credential (s.g_password s.count)) F s = Res.done () s1 →
        sentAs Role.credential t = (List.range' s.count k).map s.g_password ∧
        s1.g_password = s.g_password ∧ s1.count = 5 := by
  induction k with
  | zero =>
      intro F s hc
      have h5 : s.count = 5 := by omega
      cases F with
      | zero => exact ⟨[], by simp [forLoop], rfl, by simp [sentAs], fun s1 h => by simp [forLoop] at h⟩
      | succ F =>
          refine ⟨[], ?_, rfl, by simp [sentAs], ?_⟩
          · simp [forLoop, countBelow, h5]
          · intro s1 h
            simp [forLoop, countBelow, h5] at h
            subst h
            exact ⟨rfl, rfl, h5⟩
  | succ k ih =>
      intro F s hc
      have hlt : s.count < 5 := by omega
      cases F with
      | zero =>
          exact ⟨[], by simp [forLoop], rfl, by simp [sentAs], fun s1 h => by simp [forLoop] at h⟩
      | succ F =>
          obtain ⟨t, h1, h2, h3⟩ := sendStep_spec s
          rw [forLoop]
          simp only [countBelow, hlt, decide_True, if_true, PASS_SIZE]
          rcases h3 with ⟨s1, hr, hg, hcnt, hcred⟩ | ⟨s1, hr, hcred⟩
          · rw [hr] at h1 ⊢
            simp only [state_done] at h1
            simp only [andThen_done]
            have hc2 : (incrCount s1).count + k = 5 := by
              simp only [incrCount, hcnt]
              omega
            obtain ⟨t2, i1, i2, i3, i4⟩ := ih F (incrCount s1) hc2
            have hcn : (incrCount s1).count = s.count + 1 := by
              simp only [incrCount, hcnt]
              omega
            have hgp : (incrCount s1).g_password = s.g_password := hg
            rw [hcn, hgp] at i3 i4
            refine ⟨t ++ t2, ?_, ?_, ?_, ?_⟩
            · rw [i1]
              show s1.trace ++ t2 = _
              rw [h1, List.append_assoc]
            · rw [keysRead_append, h2, i2]; rfl
            · rw [cred_append, hcred, List.range'_succ, List.map_cons, List.singleton_append]
              exact (List.cons_prefix_cons).2 ⟨rfl, i3⟩
            · intro s2 hs2
              obtain ⟨j1, j2, j3⟩ := i4 s2 hs2
              refine ⟨?_, j2, j3⟩
              rw [cred_append, hcred, j1, List.range'_succ, List.map_cons, List.singleton_append]
          · rw [hr] at h1 ⊢
            simp only [state_blocked] at h1
            simp only [andThen_blocked, state_blocked]
            refine ⟨t, h1, h2, by rw [hcred]; exact List.nil_prefix, ?_⟩
            intro s2 hs2
            exact absurd hs2 (by simp)

end HMI

namespace HMI

theorem entryStep_spec (s : State) :
    (s.app.keys = [] ∧ ∃ s1 t, (do
        Timer2_restartTimer
        let k ← KeyPad_getPressedKey
        storeDigit k
        Timer2_stopTimer
        clearTick
        T1_delay_msec 500
        let s ← getS
        LCD_displayStringRowColumn 1 s.count Msg.star : M State Unit) s = Res.blocked s1 ∧
      s1.trace = s.trace ++ t ∧ sentAs Role.credential t = []) ∨
    (∃ k0 s1 t, (do
        Timer2_restartTimer
        let k ← KeyPad_getPressedKey
        storeDigit k
        Timer2_stopTimer
        clearTick
        T1_delay_msec 500
        let s ← getS
        LCD_displayStringRowColumn 1 s.count Msg.star : M State Unit) s = Res.done () s1 ∧
      s1.trace = s.trace ++ t ∧ sentAs Role.credential t = [] ∧ keysRead t = [k0] ∧
      s1.g_password = Function.update s.g_password s.count k0 ∧ s1.count = s.count ∧
      s1.app.g_rePassword = s.app.g_rePassword) := by
  cases hk : s.app.keys with
  | nil =>
      refine Or.inl ⟨rfl, { s with trace := s.trace ++ [Ev.timer2 true] }, [Ev.timer2 true],
        ?_, rfl, rfl⟩
      simp [KeyPad_getPressedKey, hk]
  | cons k0 rest =>
      refine Or.inr ⟨k0,
        { s with
          g_password := Function.update s.g_password s.count k0, OCR1A := 4000, OCR1B := 0,
          TCNT1 := 0, g_delayFlag := false, trace := s.trace ++ digitEvents 500 s.count k0,
          app := { s.app with keys := rest, g_T2_tick := 0 } },
        digitEvents 500 s.count k0, ?_, rfl, rfl, rfl, rfl, rfl, rfl⟩
      simp [KeyPad_getPressedKey, hk, digitEvents]

theorem reEntryStep_spec (s : State) :
    (s.app.keys = [] ∧ ∃ s1 t, (do
        Timer2_restartTimer
        let k ← KeyPad_getPressedKey
        storeReDigit k
        Timer2_stopTimer
        clearTick
        T1_delay_msec 500
        let s ← getS
        LCD_displayStringRowColumn 1 s.count Msg.star : M State Unit) s = Res.blocked s1 ∧
      s1.trace = s.trace ++ t ∧ sentAs Role.credential t = []) ∨
    (∃ k0 s1 t, (do
        Timer2_restartTimer
        let k ← KeyPad_getPressedKey
        storeReDigit k
        Timer2_stopTimer
        clearTick
        T1_delay_msec 500
        let s ← getS
        LCD_displayStringRowColumn 1 s.count Msg.star : M State Unit) s = Res.done () s1 ∧
      s1.trace = s.trace ++ t ∧ sentAs Role.credential t = [] ∧ keysRead t = [k0] ∧
      s1.app.g_rePassword = Function.update s.app.g_rePassword s.count k0 ∧ s1.count = s.count ∧
      s1.g_password = s.g_password) := by
  cases hk : s.app.keys with
  | nil =>
      refine Or.inl ⟨rfl, { s with trace := s.trace ++ [Ev.timer2 true] }, [Ev.timer2 true],
        ?_, rfl, rfl⟩
      simp [KeyPad_getPressedKey, hk]
  | cons k0 rest =>
      refine Or.inr ⟨k0,
        { s with
          OCR1A := 4000, OCR1B := 0, TCNT1 := 0, g_delayFlag := false,
          trace := s.trace ++ digitEvents 500 s.count k0,
          app := { s.app with
            keys := rest, g_T2_tick := 0,
            g_rePassword := Function.update s.app.g_rePassword s.count k0 } },
        digitEvents 500 s.count k0, ?_, rfl, rfl, rfl, rfl, rfl, rfl⟩
      simp [KeyPad_getPressedKey, hk, digitEvents]

end HMI

namespace HMI

theorem entryLoop_from (k : Nat) : ∀ (F : Nat) (s : State), s.count + k = 5 →
    ∃ t,
      (forLoop countBelow incrCount (do
          Timer2_restartTimer
          let k ← KeyPad_getPressedKey
          storeDigit k
          Timer2_stopTimer
          clearTick
          T1_delay_msec 500
          let s ← getS
          LCD_displayStringRowColumn 1 s.count Msg.star) F s).state.trace = s.trace ++ t ∧
      sentAs Role.credential t = [] ∧
      ∀ s1, forLoop countBelow incrCount (do
          Timer2_restartTimer
          let k ← KeyPad_getPressedKey
          storeDigit k
          Timer2_stopTimer
          clearTick
          T1_delay_msec 500
          let s ← getS
          LCD_displayStringRowColumn 1 s.count Msg.star) F s = Res.done () s1 →
        keysRead t = (List.range' s.count k).map s1.g_password ∧
        (∀ j, j < s.count → s1.g_password j = s.g_password j) ∧
        s1.app.g_rePassword = s.app.g_rePassword ∧ s1.count = 5 := by
  induction k with
  | zero =>
      intro F s hc
      have h5 : s.count = 5 := by omega
      cases F with
      | zero => exact ⟨[], by simp [forLoop], rfl, fun s1 h => by simp [forLoop] at h⟩
      | succ F =>
          refine ⟨[], ?_, rfl, ?_⟩
          · simp [forLoop, countBelow, h5]
          · intro s1 h
            simp [forLoop, countBelow, h5] at h
            subst h
            exact ⟨rfl, fun _ _ => rfl, rfl, h5⟩
  | succ k ih =>
      intro F s hc
      have hlt : s.count < 5 := by omega
      cases F with
      | zero => exact ⟨[], by simp [forLoop], rfl, fun s1 h => by simp [forLoop] at h⟩
      | succ F =>
          rw [forLoop]
          simp only [countBelow, hlt, decide_True, if_true, PASS_SIZE]
          rcases entryStep_spec s with ⟨_, s1, t, hr, h1, hcred⟩ |
            ⟨k0, s1, t, hr, h1, hcred, hkeys, hnew, hcnt, hkept⟩
          · rw [hr]
            simp only [andThen_blocked, state_blocked]
            exact ⟨t, h1, hcred, fun s2 hs2 => absurd hs2 (by simp)⟩
          · rw [hr]
            simp only [andThen_done]
            have hcn : (incrCount s1).count = s.count + 1 := by
              simp only [incrCount, hcnt]
              omega
            obtain ⟨t2, i1, i2, i3⟩ := ih F (incrCount s1) (by rw [hcn]; omega)
            refine ⟨t ++ t2, ?_, ?_, ?_⟩
            · rw [i1]
              show s1.trace ++ t2 = _
              rw [h1, List.append_assoc]
            · rw [cred_append, hcred, i2]; rfl
            · intro s2 hs2
              obtain ⟨j1, j2, j3, j4⟩ := i3 s2 hs2
              rw [hcn] at j1 j2
              have hsame : s2.g_password s.count = k0 := by
                rw [j2 s.count (by omega)]
                show s1.g_password s.count = k0
                rw [hnew, Function.update_same]
              refine ⟨?_, ?_, ?_, j4⟩
              · rw [keysRead_append, hkeys, j1, List.range'_succ, List.map_cons, hsame]
                rfl
              · intro j hj
                rw [j2 j (by omega)]
                show s1.g_password j = _
                rw [hnew, Function.update_noteq (by omega)]
              · rw [j3]
                exact hkept

theorem reEntryLoop_from (k : Nat) : ∀ (F : Nat) (s : State), s.count + k = 5 →
    ∃ t,
      (forLoop countBelow incrCount (do
          Timer2_restartTimer
          let k ← KeyPad_getPressedKey
          storeReDigit k
          Timer2_stopTimer
          clearTick
          T1_delay_msec 500
          let s ← getS
          LCD_displayStringRowColumn 1 s.count Msg.star) F s).state.trace = s.trace ++ t ∧
      sentAs Role.credential t = [] ∧
      ∀ s1, forLoop countBelow incrCount (do
          Timer2_restartTimer
          let k ← KeyPad_getPressedKey
          storeReDigit k
          Timer2_stopTimer
          clearTick
          T1_delay_msec 500
          let s ← getS
          LCD_displayStringRowColumn 1 s.count Msg.star) F s = Res.done () s1 →
        keysRead t = (List.range' s.count k).map s1.app.g_rePassword ∧
        (∀ j, j < s.count → s1.app.g_rePassword j = s.app.g_rePassword j) ∧
        s1.g_password = s.g_password ∧ s1.count = 5 := by
  induction k with
  | zero =>
      intro F s hc
      have h5 : s.count = 5 := by omega
      cases F with
      | zero => exact ⟨[], by simp [forLoop], rfl, fun s1 h => by simp [forLoop] at h⟩
      | succ F =>
          refine ⟨[], ?_, rfl, ?_⟩
          · simp [forLoop, countBelow, h5]
          · intro s1 h
            simp [forLoop, countBelow, h5] at h
            subst h
            exact ⟨rfl, fun _ _ => rfl, rfl, h5⟩
  | succ k ih =>
      intro F s hc
      have hlt : s.count < 5 := by omega
      cases F with
      | zero => exact ⟨[], by simp [forLoop], rfl, fun s1 h => by simp [forLoop] at h⟩
      | succ F =>
          rw [forLoop]
          simp only [countBelow, hlt, decide_True, if_true, PASS_SIZE]
          rcases reEntryStep_spec s with ⟨_, s1, t, hr, h1, hcred⟩ |
            ⟨k0, s1, t, hr, h1, hcred, hkeys, hnew, hcnt, hkept⟩
          · rw [hr]
            simp only [andThen_blocked, state_blocked]
            exact ⟨t, h1, hcred, fun s2 hs2 => absurd hs2 (by simp)⟩
          · rw [hr]
            simp only [andThen_done]
            have hcn : (incrCount s1).count = s.count + 1 := by
              simp only [incrCount, hcnt]
              omega
            obtain ⟨t2, i1, i2, i3⟩ := ih F (incrCount s1) (by rw [hcn]; omega)
            refine ⟨t ++ t2, ?_, ?_, ?_⟩
            · rw [i1]
              show s1.trace ++ t2 = _
              rw [h1, List.append_assoc]
            · rw [cred_append, hcred, i2]; rfl
            · intro s2 hs2
              obtain ⟨j1, j2, j3, j4⟩ := i3 s2 hs2
              rw [hcn] at j1 j2
              have hsame : s2.app.g_rePassword s.count = k0 := by
                rw [j2 s.count (by omega)]
                show s1.app.g_rePassword s.count = k0
                rw [hnew, Function.update_same]
              refine ⟨?_, ?_, ?_, j4⟩
              · rw [keysRead_append, hkeys, j1, List.range'_succ, List.map_cons, hsame]
                rfl
              · intro j hj
                rw [j2 j (by omega)]
                show s1.app.g_rePassword j = _
                rw [hnew, Function.update_noteq (by omega)]
              · rw [j3]
                exact hkept

end HMI

namespace HMI

theorem forLoop_exit (body : M State Unit) (F : Nat) (s : State) (h : 5 ≤ s.count) :
    (forLoop countBelow incrCount body F s).state = s ∧
      ∀ s1, forLoop countBelow incrCount body F s = Res.done () s1 → s1 = s := by
  have hc : ¬ s.count < 5 := by omega
  cases F with
  | zero => exact ⟨by simp [forLoop], fun s1 h1 => by simp [forLoop] at h1⟩
  | succ F =>
      refine ⟨by simp [forLoop, countBelow, hc], fun s1 h1 => ?_⟩
      simp [forLoop, countBelow, hc] at h1
      exact h1.symm

theorem compareLoop_from (again : M State Unit) (H : ∀ s, confirmedRun s (again s)) (k : Nat) :
    ∀ (F : Nat) (s : State), s.count + k = 5 →
    ∃ t,
      (forLoop countBelow incrCount (do
          let s ← getS
          if s.g_password s.count ≠ s.app.g_rePassword s.count then do
            LCD_clearScreen
            LCD_displayStringRowColumn 0 0 Msg.notMatched
            T1_delay_sec 2
            again
          else pure ()) F s).state.trace = s.trace ++ t ∧
      ((sentAs Role.credential t = [] ∧
        ∀ s1, forLoop countBelow incrCount (do
          let s ← getS
          if s.g_password s.count ≠ s.app.g_rePassword s.count then do
            LCD_clearScreen
            LCD_displayStringRowColumn 0 0 Msg.notMatched
            T1_delay_sec 2
            again
          else pure ()) F s = Res.done () s1 →
          keysRead t = [] ∧ s1.g_password = s.g_password ∧
          ∀ i, s.count ≤ i → i < 5 → s.g_password i = s.app.g_rePassword i) ∨
       ∃ pre e n, keysRead t = pre ++ e ++ e ∧ pre.length % 10 = 0 ∧ e.length = 5 ∧
        sentAs Role.credential t <+: (List.replicate (n + 1) e).flatten ∧
        ∀ s1, forLoop countBelow incrCount (do
          let s ← getS
          if s.g_password s.count ≠ s.app.g_rePassword s.count then do
            LCD_clearScreen
            LCD_displayStringRowColumn 0 0 Msg.notMatched
            T1_delay_sec 2
            again
          else pure ()) F s = Res.done () s1 →
          sentAs Role.credential t = (List.replicate (n + 1) e).flatten ∧
          (List.range' 0 5).map s1.g_password = e) := by
  induction k with
  | zero =>
      intro F s hc
      have h5 : s.count = 5 := by omega
      cases F with
      | zero => exact ⟨[], by simp [forLoop], Or.inl ⟨rfl, fun s1 h => by simp [forLoop] at h⟩⟩
      | succ F =>
          refine ⟨[], by simp [forLoop, countBelow, h5], Or.inl ⟨rfl, ?_⟩⟩
          intro s1 h
          simp [forLoop, countBelow, h5] at h
          subst h
          exact ⟨rfl, rfl, fun i h1 h2 => by omega⟩
  | succ k ih =>
      intro F s hc
      have hlt : s.count < 5 := by omega
      cases F with
      | zero => exact ⟨[], by simp [forLoop], Or.inl ⟨rfl, fun s1 h => by simp [forLoop] at h⟩⟩
      | succ F =>
          rw [forLoop]
          simp only [countBelow, hlt, decide_True, if_true, PASS_SIZE, bind_run, getS_run,
            andThen_done, ite_run]
          by_cases hne : s.g_password s.count ≠ s.app.g_rePassword s.count
          · rw [if_pos hne]
            simp only [bind_run, emit_run, andThen_done, fun s => T1_delay_sec_run 1 s (by decide)]
            generalize hs3 : ({ s with
              g_delayFlag := false, OCR1A := 8000, OCR1B := 0, TCNT1 := 0,
              trace := s.trace ++ [Ev.lcdClear] ++ [Ev.lcdString 0 0 Msg.notMatched] ++
                List.replicate (1 + 1) (Ev.delay 1000) } : State) = s3
            have htr3 : s3.trace = s.trace ++
                [Ev.lcdClear, Ev.lcdString 0 0 Msg.notMatched, Ev.delay 1000, Ev.delay 1000] := by
              rw [← hs3]
              simp [List.replicate]
            have hx := fun b => forLoop_exit b F
            obtain ⟨t3, ht3, hcase⟩ := H s3
            have hq1 : ∀ t3, keysRead ([Ev.lcdClear, Ev.lcdString 0 0 Msg.notMatched,
                Ev.delay 1000, Ev.delay 1000] ++ t3) = keysRead t3 := fun _ => rfl
            have hq2 : ∀ t3, sentAs Role.credential ([Ev.lcdClear,
                Ev.lcdString 0 0 Msg.notMatched, Ev.delay 1000, Ev.delay 1000] ++ t3)
                  = sentAs Role.credential t3 := fun _ => rfl
            cases hr : again s3 with
            | done u s4 =>
                rw [hr] at ht3 hcase
                simp only [state_done] at ht3
                simp only [andThen_done]
                rcases hcase with ⟨_, hnd⟩ | ⟨pre, e, n, hk, hp, he, hpre, hdone⟩
                · exact absurd rfl (hnd s4)
                · obtain ⟨d1, d2, d3⟩ := hdone s4 rfl
                  have h6 : 5 ≤ (incrCount s4).count := by simp [incrCount, d3]
                  refine ⟨[Ev.lcdClear, Ev.lcdString 0 0 Msg.notMatched, Ev.delay 1000,
                    Ev.delay 1000] ++ t3, ?_, Or.inr ⟨pre, e, n, ?_, hp, he, ?_, ?_⟩⟩
                  · rw [(hx _ _ h6).1]
                    show s4.trace = _
                    rw [ht3, htr3, List.append_assoc]
                  · rw [hq1, hk]
                  · rw [hq2]
                    exact hpre
                  · intro s1 h1
                    have h7 := (hx _ _ h6).2 s1 h1
                    subst h7
                    exact ⟨by rw [hq2]; exact d1, d2⟩
            | blocked s4 =>
                rw [hr] at ht3 hcase
                simp only [state_blocked] at ht3
                simp only [andThen_blocked, state_blocked]
                refine ⟨[Ev.lcdClear, Ev.lcdString 0 0 Msg.notMatched, Ev.delay 1000,
                  Ev.delay 1000] ++ t3, by rw [ht3, htr3, List.append_assoc], ?_⟩
                rcases hcase with ⟨hc0, _⟩ | ⟨pre, e, n, hk, hp, he, hpre, _⟩
                · exact Or.inl ⟨by rw [hq2]; exact hc0, fun s1 h => absurd h (by simp)⟩
                · exact Or.inr ⟨pre, e, n, by rw [hq1, hk], hp, he, by rw [hq2]; exact hpre,
                    fun s1 h => absurd h (by simp)⟩
            | noFuel s4 =>
                rw [hr] at ht3 hcase
                simp only [state_noFuel] at ht3
                simp only [andThen_noFuel, state_noFuel]
                refine ⟨[Ev.lcdClear, Ev.lcdString 0 0 Msg.notMatched, Ev.delay 1000,
                  Ev.delay 1000] ++ t3, by rw [ht3, htr3, List.append_assoc], ?_⟩
                rcases hcase with ⟨hc0, _⟩ | ⟨pre, e, n, hk, hp, he, hpre, _⟩
                · exact Or.inl ⟨by rw [hq2]; exact hc0, fun s1 h => absurd h (by simp)⟩
                · exact Or.inr ⟨pre, e, n, by rw [hq1, hk], hp, he, by rw [hq2]; exact hpre,
                    fun s1 h => absurd h (by simp)⟩
          · rw [if_neg hne]
            simp only [pure_run, andThen_done]
            have hcn : (incrCount s).count = s.count + 1 := by
              simp only [incrCount]
              omega
            have heq : s.g_password s.count = s.app.g_rePassword s.count := not_not.mp hne
            obtain ⟨t, i1, icase⟩ := ih F (incrCount s) (by rw [hcn]; omega)
            refine ⟨t, i1, ?_⟩
            rcases icase with ⟨hc0, hd⟩ | hB
            · refine Or.inl ⟨hc0, fun s1 h => ?_⟩
              obtain ⟨a, b, c⟩ := hd s1 h
              refine ⟨a, b, fun i hi1 hi2 => ?_⟩
              by_cases hi : i = s.count
              · rw [hi]
                exact heq
              · exact c i (by rw [hcn]; omega) hi2
            · exact Or.inr hB

end HMI

namespace HMI

theorem entryLoop_res (F : Nat) (s : State) (h : s.count = 0) :
    ∃ r, forLoop countBelow incrCount (do
        Timer2_restartTimer
        let k ← KeyPad_getPressedKey
        storeDigit k
        Timer2_stopTimer
        clearTick
        T1_delay_msec 500
        let s ← getS
        LCD_displayStringRowColumn 1 s.count Msg.star) F s = r ∧
      ∃ t, r.state.trace = s.trace ++ t ∧ sentAs Role.credential t = [] ∧
        ∀ s1, r = Res.done () s1 →
          keysRead t = (List.range' 0 5).map s1.g_password ∧
          s1.app.g_rePassword = s.app.g_rePassword ∧ s1.count = 5 := by
  obtain ⟨t, h1, h2, h3⟩ := entryLoop_from 5 F s (by omega)
  refine ⟨_, rfl, t, h1, h2, fun s1 hs1 => ?_⟩
  obtain ⟨a, _, c, d⟩ := h3 s1 hs1
  rw [h] at a
  exact ⟨a, c, d⟩

theorem reEntryLoop_res (F : Nat) (s : State) (h : s.count = 0) :
    ∃ r, forLoop countBelow incrCount (do
        Timer2_restartTimer
        let k ← KeyPad_getPressedKey
        storeReDigit k
        Timer2_stopTimer
        clearTick
        T1_delay_msec 500
        let s ← getS
        LCD_displayStringRowColumn 1 s.count Msg.star) F s = r ∧
      ∃ t, r.state.trace = s.trace ++ t ∧ sentAs Role.credential t = [] ∧
        ∀ s1, r = Res.done () s1 →
          keysRead t = (List.range' 0 5).map s1.app.g_rePassword ∧
          s1.g_password = s.g_password ∧ s1.count = 5 := by
  obtain ⟨t, h1, h2, h3⟩ := reEntryLoop_from 5 F s (by omega)
  refine ⟨_, rfl, t, h1, h2, fun s1 hs1 => ?_⟩
  obtain ⟨a, _, c, d⟩ := h3 s1 hs1
  rw [h] at a
  exact ⟨a, c, d⟩

theorem compareLoop_res (again : M State Unit) (H : ∀ s, confirmedRun s (again s)) (F : Nat)
    (s : State) (h : s.count = 0) :
    ∃ r, forLoop countBelow incrCount (do
        let s ← getS
        if s.g_password s.count ≠ s.app.g_rePassword s.count then do
          LCD_clearScreen
          LCD_displayStringRowColumn 0 0 Msg.notMatched
          T1_delay_sec 2
          again
        else pure ()) F s = r ∧
      ∃ t, r.state.trace = s.trace ++ t ∧
        ((sentAs Role.credential t = [] ∧
          ∀ s1, r = Res.done () s1 →
            keysRead t = [] ∧ s1.g_password = s.g_password ∧
            (List.range' 0 5).map s.g_password = (List.range' 0 5).map s.app.g_rePassword) ∨
         ∃ pre e n, keysRead t = pre ++ e ++ e ∧ pre.length % 10 = 0 ∧ e.length = 5 ∧
          sentAs Role.credential t <+: (List.replicate (n + 1) e).flatten ∧
          ∀ s1, r = Res.done () s1 →
            sentAs Role.credential t = (List.replicate (n + 1) e).flatten ∧
            (List.range' 0 5).map s1.g_password = e) := by
  obtain ⟨t, h1, h2⟩ := compareLoop_from again H 5 F s (by omega)
  refine ⟨_, rfl, t, h1, ?_⟩
  rcases h2 with ⟨a, b⟩ | hB
  · refine Or.inl ⟨a, fun s1 hs1 => ?_⟩
    obtain ⟨x, y, z⟩ := b s1 hs1
    refine ⟨x, y, List.map_congr_left fun i hi => ?_⟩
    rw [List.mem_range'_1] at hi
    exact z i (by omega) (by omega)
  · exact Or.inr hB

theorem sendPart_res (F : Nat) (s : State) :
    ∃ r, (do
        LCD_clearScreen
        LCD_displayStringRowColumn 0 0 Msg.confirmed
        resetCount
        forLoop countBelow incrCount (do
          UART_sendByte Role.token READY
          UART_waitFor READY
          let s ← getS
          UART_sendByte Role.credential (s.g_password s.count)) F
        T1_delay_msec 1000 : M State Unit) s = r ∧
      ∃ t, r.state.trace = s.trace ++ t ∧ keysRead t = [] ∧
        sentAs Role.credential t <+: (List.range' 0 5).map s.g_password ∧
        ∀ s1, r = Res.done () s1 →
          sentAs Role.credential t = (List.range' 0 5).map s.g_password ∧
          s1.g_password = s.g_password ∧ s1.count = 5 := by
  refine ⟨_, rfl, ?_⟩
  simp only [bind_run, emit_run, andThen_done, modifyS_run]
  generalize hs0 : ({ s with
    count := 0, trace := s.trace ++ [Ev.lcdClear] ++ [Ev.lcdString 0 0 Msg.confirmed] } : State)
      = s0
  have hc0 : s0.count = 0 := by rw [← hs0]
  have hg0 : s0.g_password = s.g_password := by rw [← hs0]
  have ht0 : s0.trace = s.trace ++ [Ev.lcdClear, Ev.lcdString 0 0 Msg.confirmed] := by
    rw [← hs0]
    simp
  obtain ⟨t, h1, h2, h3, h4⟩ := sendLoop_from 5 F s0 (by omega)
  rw [hc0, hg0] at h3 h4
  rw [ht0] at h1
  generalize forLoop countBelow incrCount (do
          UART_sendByte Role.token READY
          UART_waitFor READY
          let s ← getS
          UART_sendByte Role.credential (s.g_password s.count)) F s0 = r at h1 h3 h4 ⊢
  cases r with
  | done u s1 =>
      obtain ⟨a, b, c⟩ := h4 s1 rfl
      simp only [state_done] at h1
      refine ⟨[Ev.lcdClear, Ev.lcdString 0 0 Msg.confirmed] ++ t ++ [Ev.delay 1000], ?_, ?_, ?_, ?_⟩
      · simp [h1]
      · simp [keysRead_append, h2, keysRead]
      · simp [cred_append, sentAs, a]
      · intro s2 hs2
        simp only [andThen_done, T1_delay_msec_run, Res.done.injEq, true_and] at hs2
        subst hs2
        exact ⟨by simp [cred_append, sentAs, a], b, c⟩
  | blocked s1 =>
      simp only [state_blocked] at h1
      refine ⟨[Ev.lcdClear, Ev.lcdString 0 0 Msg.confirmed] ++ t, ?_, ?_, ?_, ?_⟩
      · simp [h1]
      · simp [keysRead_append, h2, keysRead]
      · simpa [cred_append, sentAs] using h3
      · intro s2 hs2
        simp at hs2
  | noFuel s1 =>
      simp only [state_noFuel] at h1
      refine ⟨[Ev.lcdClear, Ev.lcdString 0 0 Msg.confirmed] ++ t, ?_, ?_, ?_, ?_⟩
      · simp [h1]
      · simp [keysRead_append, h2, keysRead]
      · simpa [cred_append, sentAs] using h3
      · intro s2 hs2
        simp at hs2

end HMI

namespace HMI

theorem confirmedRun_stop (s : State) (r : Res State Unit) (t : List Ev)
    (h : r.state.trace = s.trace ++ t) (hc : sentAs Role.credential t = [])
    (hn : ∀ s1, r ≠ Res.done () s1) : confirmedRun s r :=
  ⟨t, h, Or.inl ⟨hc, hn⟩⟩

theorem copies_succ (m : Nat) (e : List Nat) :
    (List.replicate m e).flatten ++ e = (List.replicate (m + 1) e).flatten := by
  rw [List.replicate_succ', List.flatten_append]
  simp

theorem copies_prefix (m : Nat) (e p : List Nat) (h : p <+: e) :
    (List.replicate m e).flatten ++ p <+: (List.replicate (m + 1) e).flatten := by
  rw [← copies_succ]
  exact (List.prefix_append_right_inj _).2 h

theorem confirmedRun_sendPart (s s3 : State) (F : Nat) (T : List Ev) (pre e : List Nat) (m : Nat)
    (hT : s3.trace = s.trace ++ T) (hk : keysRead T = pre ++ e ++ e)
    (hp : pre.length % 10 = 0) (he : e.length = 5)
    (hc : sentAs Role.credential T = (List.replicate m e).flatten)
    (hg : (List.range' 0 5).map s3.g_password = e) :
    confirmedRun s ((do
        LCD_clearScreen
        LCD_displayStringRowColumn 0 0 Msg.confirmed
        resetCount
        forLoop countBelow incrCount (do
          UART_sendByte Role.token READY
          UART_waitFor READY
          let s ← getS
          UART_sendByte Role.credential (s.g_password s.count)) F
        T1_delay_msec 1000 : M State Unit) s3) := by
  obtain ⟨r4, hr4, t4, h4, k4, p4, d4⟩ := sendPart_res F s3
  rw [hr4]
  rw [hg] at p4 d4
  refine ⟨T ++ t4, by rw [h4, hT, List.append_assoc], Or.inr ⟨pre, e, m, ?_, hp, he, ?_, ?_⟩⟩
  · rw [keysRead_append, hk, k4, List.append_nil]
  · rw [cred_append, hc]
    exact copies_prefix _ _ _ p4
  · intro s1 h1
    obtain ⟨x, y, z⟩ := d4 s1 h1
    exact ⟨by rw [cred_append, hc, x, copies_succ], by rw [y, hg], z⟩

theorem EnterNewPass_confirmed (f : Nat) : ∀ s : State, confirmedRun s (EnterNewPass f s) := by
  induction f with
  | zero =>
      intro s
      exact ⟨[], by simp [EnterNewPass], Or.inl ⟨rfl, fun s1 h => by simp [EnterNewPass] at h⟩⟩
  | succ n ih =>
      intro s
      rw [EnterNewPass]
      simp only [bind_run, emit_run, andThen_done, modifyS_run]
      generalize hs0 : ({ s with
        count := 0,
        trace := s.trace ++ [Ev.call Fn.EnterNewPass] ++ [Ev.lcdClear] ++
          [Ev.lcdString 0 0 Msg.enterNew] } : State) = s0
      have ht0 : s0.trace
          = s.trace ++ [Ev.call Fn.EnterNewPass, Ev.lcdClear, Ev.lcdString 0 0 Msg.enterNew] := by
        rw [← hs0]
        simp
      obtain ⟨r1, hr1, t1, h1, c1, d1⟩ := entryLoop_res (n + 1) s0 (by rw [← hs0])
      rw [hr1]
      rw [ht0] at h1
      have hq0 : ∀ t, sentAs Role.credential ([Ev.call Fn.EnterNewPass, Ev.lcdClear,
          Ev.lcdString 0 0 Msg.enterNew] ++ t) = sentAs Role.credential t := fun _ => rfl
      have hk0 : ∀ t, keysRead ([Ev.call Fn.EnterNewPass, Ev.lcdClear,
          Ev.lcdString 0 0 Msg.enterNew] ++ t) = keysRead t := fun _ => rfl
      cases r1 with
      | blocked s1 =>
          simp only [andThen_blocked]
          exact confirmedRun_stop s _ _ (by rw [h1, List.append_assoc]) (by rw [hq0]; exact c1)
            (fun _ h => by simp at h)
      | noFuel s1 =>
          simp only [andThen_noFuel]
          exact confirmedRun_stop s _ _ (by rw [h1, List.append_assoc]) (by rw [hq0]; exact c1)
            (fun _ h => by simp at h)
      | done u s1 =>
          obtain ⟨a1, _, _⟩ := d1 s1 rfl
          simp only [state_done] at h1
          have hT1 : s1.trace = s.trace ++ ([Ev.call Fn.EnterNewPass, Ev.lcdClear,
              Ev.lcdString 0 0 Msg.enterNew] ++ t1) := by rw [h1, List.append_assoc]
          have hc1 : sentAs Role.credential ([Ev.call Fn.EnterNewPass, Ev.lcdClear,
              Ev.lcdString 0 0 Msg.enterNew] ++ t1) = [] := by rw [hq0]; exact c1
          have hk1 : keysRead ([Ev.call Fn.EnterNewPass, Ev.lcdClear,
              Ev.lcdString 0 0 Msg.enterNew] ++ t1) = (List.range' 0 5).map s1.g_password := by
            rw [hk0]; exact a1
          generalize [Ev.call Fn.EnterNewPass, Ev.lcdClear, Ev.lcdString 0 0 Msg.enterNew] ++ t1
            = T1 at hT1 hc1 hk1
          clear hr1 d1 h1 ht0 hs0 hq0 hk0 c1 a1
          simp only [andThen_done, bind_run, emit_run, modifyS_run]
          generalize hs1 : ({ s1 with
            count := 0,
            trace := s1.trace ++ [Ev.lcdClear] ++ [Ev.lcdString 0 0 Msg.reEnter] } : State) = s1'
          have ht1' : s1'.trace = s1.trace ++ [Ev.lcdClear, Ev.lcdString 0 0 Msg.reEnter] := by
            rw [← hs1]
            simp
          have hg1' : s1'.g_password = s1.g_password := by rw [← hs1]
          obtain ⟨r2, hr2, t2, h2, c2, d2⟩ := reEntryLoop_res (n + 1) s1' (by rw [← hs1])
          rw [hr2]
          have hT2 : r2.state.trace
              = s.trace ++ (T1 ++ ([Ev.lcdClear, Ev.lcdString 0 0 Msg.reEnter] ++ t2)) := by
            rw [h2, ht1', hT1]
            simp
          have hc2 : sentAs Role.credential
              (T1 ++ ([Ev.lcdClear, Ev.lcdString 0 0 Msg.reEnter] ++ t2)) = [] := by
            rw [cred_append, hc1, cred_append, c2]
            rfl
          have hk2 : keysRead (T1 ++ ([Ev.lcdClear, Ev.lcdString 0 0 Msg.reEnter] ++ t2))
              = (List.range' 0 5).map s1.g_password ++ keysRead t2 := by
            rw [keysRead_append, hk1, keysRead_append]
            rfl
          generalize T1 ++ ([Ev.lcdClear, Ev.lcdString 0 0 Msg.reEnter] ++ t2) = T2
            at hT2 hc2 hk2
          clear hT1 hc1 hk1 ht1' h2 c2
          cases r2 with
          | blocked s2 =>
              simp only [andThen_blocked]
              exact confirmedRun_stop s _ _ hT2 hc2 (fun _ h => by simp at h)
          | noFuel s2 =>
              simp only [andThen_noFuel]
              exact confirmedRun_stop s _ _ hT2 hc2 (fun _ h => by simp at h)
          | done u2 s2 =>
              obtain ⟨b1, b2, _⟩ := d2 s2 rfl
              rw [b1] at hk2
              rw [hg1'] at b2
              simp only [state_done] at hT2
              clear hr2 d2 b1 hs1 hg1'
              simp only [andThen_done, bind_run, modifyS_run]
              generalize hs2 : ({ s2 with count := 0 } : State) = s2'
              have ht2' : s2'.trace = s2.trace := by rw [← hs2]
              have hg2' : s2'.g_password = s2.g_password := by rw [← hs2]
              have hr2' : s2'.app.g_rePassword = s2.app.g_rePassword := by rw [← hs2]
              obtain ⟨r3, hr3, t3, h3, hcase⟩ :=
                compareLoop_res (EnterNewPass n) ih (n + 1) s2' (by rw [← hs2])
              rw [hr3]
              rw [ht2', hT2, List.append_assoc] at h3
              rw [hg2', hr2', b2] at hcase
              clear hr3 hs2 ht2' hg2' hr2' hT2
              have hlen : ∀ g : Nat → Nat, ((List.range' 0 5).map g).length = 5 := fun g => by simp
              cases r3 with
              | blocked s3 =>
                  simp only [andThen_blocked]
                  rcases hcase with ⟨x, _⟩ | ⟨pre, e, k, y1, y2, y3, y4, _⟩
                  · exact confirmedRun_stop s _ _ h3 (by rw [cred_append, hc2, x]; rfl)
                      (fun _ h => by simp at h)
                  · refine ⟨T2 ++ t3, h3, Or.inr ⟨(List.range' 0 5).map s1.g_password ++
                      (List.range' 0 5).map s2.app.g_rePassword ++ pre, e, k, ?_, ?_, y3, ?_,
                      fun _ h => by simp at h⟩⟩
                    · rw [keysRead_append, hk2, y1]
                      simp only [List.append_assoc]
                    · rw [List.length_append, List.length_append, hlen, hlen]
                      omega
                    · rw [cred_append, hc2]
                      exact y4
              | noFuel s3 =>
                  simp only [andThen_noFuel]
                  rcases hcase with ⟨x, _⟩ | ⟨pre, e, k, y1, y2, y3, y4, _⟩
                  · exact confirmedRun_stop s _ _ h3 (by rw [cred_append, hc2, x]; rfl)
                      (fun _ h => by simp at h)
                  · refine ⟨T2 ++ t3, h3, Or.inr ⟨(List.range' 0 5).map s1.g_password ++
                      (List.range' 0 5).map s2.app.g_rePassword ++ pre, e, k, ?_, ?_, y3, ?_,
                      fun _ h => by simp at h⟩⟩
                    · rw [keysRead_append, hk2, y1]
                      simp only [List.append_assoc]
                    · rw [List.length_append, List.length_append, hlen, hlen]
                      omega
                    · rw [cred_append, hc2]
                      exact y4
              | done u3 s3 =>
                  simp only [andThen_done]
                  simp only [state_done] at h3
                  rcases hcase with ⟨x, hd⟩ | ⟨pre, e, k, y1, y2, y3, y4, hd⟩
                  · obtain ⟨z1, z2, z3⟩ := hd s3 rfl
                    refine confirmedRun_sendPart s s3 (n + 1) (T2 ++ t3) []
                      ((List.range' 0 5).map s1.g_password) 0 h3 ?_ rfl (hlen _) ?_ ?_
                    · rw [keysRead_append, hk2, z1, ← z3]
                      simp
                    · rw [cred_append, hc2, x]
                      rfl
                    · rw [z2]
                  · obtain ⟨z1, z2⟩ := hd s3 rfl
                    refine confirmedRun_sendPart s s3 (n + 1) (T2 ++ t3)
                      ((List.range' 0 5).map s1.g_password ++
                        (List.range' 0 5).map s2.app.g_rePassword ++ pre) e (k + 1) h3 ?_ ?_ y3
                      ?_ z2
                    · rw [keysRead_append, hk2, y1]
                      simp only [List.append_assoc]
                    · rw [List.length_append, List.length_append, hlen, hlen]
                      omega
                    · rw [cred_append, hc2, z1]
                      rfl

end HMI

namespace HMI

/-- C21: in every run of `EnterNewPass`, from every state, whatever keys are
pressed, whatever arrives on the serial line and however the run ends, the
payload bytes sent come from one round whose re-entry equals its entry: either
no payload byte is sent, or the keys read end with five digits `e` typed at the
entry prompt and again at the re-entry prompt of the same round, a whole number
of ten-key rounds comes before that round, and the payload is a prefix of
copies of `e`.  When the call returns, the payload is made of whole copies of
`e`.  No byte of the payload comes from a round whose re-entry differs. -/
theorem C21_only_confirmed_digits_sent (f : Nat) (s : State) :
    ∃ t, (EnterNewPass f s).state.trace = s.trace ++ t ∧
      fromMatchingRound (keysRead t) (sentAs Role.credential t) ∧
      (returned (EnterNewPass f s) = true →
        ∃ pre e k, keysRead t = pre ++ e ++ e ∧ pre.length % 10 = 0 ∧ e.length = PASS_SIZE ∧
          sentAs Role.credential t = (List.replicate (k + 1) e).flatten) := by
  obtain ⟨t, ht, h⟩ := EnterNewPass_confirmed f s
  refine ⟨t, ht, ?_, ?_⟩
  · rcases h with ⟨hc, _⟩ | ⟨pre, e, k, h1, h2, h3, h4, _⟩
    · exact Or.inl hc
    · exact Or.inr ⟨pre, e, k + 1, h1, h2, h3, h4⟩
  · intro hret
    cases hr : EnterNewPass f s with
    | done u s1 =>
        rw [hr] at h
        rcases h with ⟨_, hn⟩ | ⟨pre, e, k, h1, h2, h3, _, hd⟩
        · exact absurd rfl (hn s1)
        · exact ⟨pre, e, k, h1, h2, h3, (hd s1 rfl).1⟩
    | blocked s1 =>
        rw [hr] at hret
        exact absurd hret (by simp [returned])
    | noFuel s1 =>
        rw [hr] at hret
        exact absurd hret (by simp [returned])

end HMI

/-! ## Runs checked by an automaton (C23, C25) -/

section TrackRules
variable {α β γ Q : Type} {step : Q → Ev → Option Q}

theorem runA_append (a b : List Ev) :
    ∀ q, runA step q (a ++ b) = (runA step q a).bind (fun q1 => runA step q1 b) := by
  induction a with
  | nil => intro q; rfl
  | cons e t ih =>
      intro q
      simp only [List.cons_append, runA]
      cases step q e with
      | none => rfl
      | some q1 => exact ih q1

theorem tracks_bind {A : Q → Prop} {B : β → Q → Prop} {C : γ → Q → Prop}
    {m : M (Node α) β} {f : β → M (Node α) γ}
    (hm : Tracks step A B m) (hf : ∀ a, Tracks step (B a) C (f a)) :
    Tracks step A C (m >>= f) := by
  intro s
  obtain ⟨t1, e1, p1⟩ := hm s
  simp only [bind_run]
  cases h : m s with
  | done a s1 =>
      rw [h] at e1 p1
      simp only [andThen_done]
      simp only [state_done] at e1
      obtain ⟨t2, e2, p2⟩ := hf a s1
      refine ⟨t1 ++ t2, by rw [e2, e1, List.append_assoc], fun q hq => ?_⟩
      obtain ⟨q1, r1, n1⟩ := p1 q hq
      obtain ⟨q2, r2, n2⟩ := p2 q1 (n1 a s1 rfl)
      exact ⟨q2, by rw [runA_append, r1]; exact r2, n2⟩
  | blocked s1 =>
      rw [h] at e1 p1
      refine ⟨t1, e1, fun q hq => ?_⟩
      obtain ⟨q1, r1, _⟩ := p1 q hq
      exact ⟨q1, r1, fun _ _ h => by simp at h⟩
  | noFuel s1 =>
      rw [h] at e1 p1
      refine ⟨t1, e1, fun q hq => ?_⟩
      obtain ⟨q1, r1, _⟩ := p1 q hq
      exact ⟨q1, r1, fun _ _ h => by simp at h⟩

theorem tracks_weaken {A A1 : Q → Prop} {C C1 : β → Q → Prop} {m : M (Node α) β}
    (h1 : ∀ q, A1 q → A q) (h2 : ∀ a q, C a q → C1 a q)
    (hm : Tracks step A C m) : Tracks step A1 C1 m := by
  intro s
  obtain ⟨t, e, p⟩ := hm s
  refine ⟨t, e, fun q hq => ?_⟩
  obtain ⟨q1, r1, n1⟩ := p q (h1 q hq)
  exact ⟨q1, r1, fun a s1 h => h2 a q1 (n1 a s1 h)⟩

theorem tracks_pure {pre : Q → Prop} (a : β) :
    Tracks step pre (fun _ => pre) (pure a : M (Node α) β) :=
  fun s => ⟨[], by simp, fun q hq => ⟨q, rfl, fun _ _ _ => hq⟩⟩

theorem tracks_ite {pre : Q → Prop} {post : β → Q → Prop} {c : Prop} [Decidable c]
    {m1 m2 : M (Node α) β} (h1 : c → Tracks step pre post m1)
    (h2 : ¬ c → Tracks step pre post m2) : Tracks step pre post (if c then m1 else m2) := by
  split
  · rename_i h; exact h1 h
  · rename_i h; exact h2 h

theorem tracks_getS_bind {pre : Q → Prop} {post : β → Q → Prop} {f : Node α → M (Node α) β}
    (h : ∀ s, Tracks step pre post (f s)) : Tracks step pre post (getS >>= f) := by
  intro s
  simpa using h s s

theorem tracks_modify {pre : Q → Prop} {f : Node α → Node α} (hf : ∀ s, (f s).trace = s.trace) :
    Tracks step pre (fun _ => pre) (modifyS f) :=
  fun s => ⟨[], by simp [hf], fun q hq => ⟨q, rfl, fun _ _ _ => hq⟩⟩

theorem tracks_emit {pre post : Q → Prop} {e : Ev}
    (h : ∀ q, pre q → ∃ q1, step q e = some q1 ∧ post q1) :
    Tracks step pre (fun _ => post) (emit e : M (Node α) Unit) := by
  intro s
  refine ⟨[e], by simp, fun q hq => ?_⟩
  obtain ⟨q1, r1, n1⟩ := h q hq
  exact ⟨q1, by simp [runA, r1], fun _ _ _ => n1⟩

theorem tracks_recv {pre : Q → Prop} {post : Nat → Q → Prop}
    (h : ∀ b q, pre q → ∃ q1, step q (Ev.recv b) = some q1 ∧ post b q1) :
    Tracks step pre post (UART_receiveByte : M (Node α) Nat) := by
  intro s
  unfold UART_receiveByte
  split
  · exact ⟨[], by simp, fun q _ => ⟨q, rfl, fun _ _ h => by simp at h⟩⟩
  · rename_i b rest hb
    refine ⟨[Ev.recv b], by simp, fun q hq => ?_⟩
    obtain ⟨q1, r1, n1⟩ := h b q hq
    refine ⟨q1, by simp [runA, r1], fun a s1 h => ?_⟩
    simp only [Res.done.injEq] at h
    rw [← h.1]
    exact n1

/-- Trace segments that the automaton accepts from every state in `inv`,
ending in a state in `inv`. -/
theorem kept_closed (inv : Q → Prop) :
    Closed (fun t => ∀ q, inv q → ∃ q1, runA step q t = some q1 ∧ inv q1) where
  nil := fun q hq => ⟨q, rfl, hq⟩
  append := by
    intro a b ha hb q hq
    obtain ⟨q1, r1, n1⟩ := ha q hq
    obtain ⟨q2, r2, n2⟩ := hb q1 n1
    exact ⟨q2, by rw [runA_append, r1]; exact r2, n2⟩

theorem kept_single {inv : Q → Prop} {e : Ev}
    (h : ∀ q, inv q → ∃ q1, step q e = some q1 ∧ inv q1) :
    ∀ q, inv q → ∃ q1, runA step q [e] = some q1 ∧ inv q1 := by
  intro q hq
  obtain ⟨q1, r1, n1⟩ := h q hq
  exact ⟨q1, by simp [runA, r1], n1⟩

theorem tracks_of_seg {inv : Q → Prop} {m : M (Node α) β}
    (h : Sat (Seg (fun t => ∀ q, inv q → ∃ q1, runA step q t = some q1 ∧ inv q1)) m) :
    Tracks step inv (fun _ => inv) m := by
  intro s
  obtain ⟨t, e, p⟩ := h s
  refine ⟨t, e, fun q hq => ?_⟩
  obtain ⟨q1, r, n⟩ := p q hq
  exact ⟨q1, r, fun _ _ _ => n⟩

end TrackRules

namespace HMI

/-! ### The opcode after a match only (C23) -/

theorem each_kept (fn : Fn) (op : Nat) (q : Gate) (t : List Ev)
    (h : Each (Gate.keeps fn op q) t) : runA (Gate.step fn op) q t = some q := by
  induction t with
  | nil => rfl
  | cons e t ih =>
      have he : Gate.step fn op q e = some q := h e (List.mem_cons_self _ _)
      simp only [runA, he]
      exact ih (fun x hx => h x (List.mem_cons_of_mem _ hx))

theorem tracks_keeps {β : Type} {fn : Fn} {op : Nat} {q0 : Gate} {m : M State β}
    (h : Sat (Seg (Each (Gate.keeps fn op q0))) m) :
    Tracks (Gate.step fn op) (fun q => q = q0) (fun _ q => q = q0) m := by
  intro s
  obtain ⟨t, e, p⟩ := h s
  refine ⟨t, e, fun q hq => ?_⟩
  subst hq
  exact ⟨q, each_kept fn op q t p, fun _ _ _ => rfl⟩

theorem BlockSystem_failed (fn : Fn) (op : Nat) (hfn : fn ≠ Fn.BlockSystem) :
    Sat (Seg (Each (Gate.keeps fn op Gate.failed))) BlockSystem := by
  have hP := each_closed (Gate.keeps fn op Gate.failed)
  have hS : Stable (Seg (Each (Gate.keeps fn op Gate.failed)) : State → State → Prop) :=
    seg_stable hP
  have hfn2 : ¬ Fn.BlockSystem = fn := fun h => hfn h.symm
  unfold BlockSystem pinModeC
  repeat' with_reducible first
    | refine sat_bind hS ?_ (fun _ => ?_)
    | refine sat_ite ?_ ?_
    | exact seg_emit (each_single (by simp [Gate.keeps, Gate.step, hfn2]))
    | exact seg_pinWriteC (fun _ _ _ => each_single (by simp [Gate.keeps, Gate.step])) _ _
    | exact seg_delay_sec hP (each_single (by simp [Gate.keeps, Gate.step])) _
    | exact seg_modify hP (fun _ => rfl)

theorem EnterNewPass_matched (fn : Fn) (op : Nat) (hfn : fn ≠ Fn.EnterNewPass) (f : Nat) :
    Sat (Seg (Each (Gate.keeps fn op Gate.matched))) (EnterNewPass f) := by
  have hP := each_closed (Gate.keeps fn op Gate.matched)
  have hS : Stable (Seg (Each (Gate.keeps fn op Gate.matched)) : State → State → Prop) :=
    seg_stable hP
  have hfn2 : ¬ Fn.EnterNewPass = fn := fun h => hfn h.symm
  induction f with
  | zero => intro s; exact hS.refl s
  | succ n ih =>
      unfold EnterNewPass
      repeat' with_reducible first
        | refine sat_bind hS ?_ (fun _ => ?_)
        | refine sat_forLoop hS (seg_incrCount hP) ?_ _
        | refine sat_ite ?_ ?_
        | exact ih
        | exact sat_pure hS _
        | exact sat_getS hS
        | exact seg_emit (each_single (by simp [Gate.keeps, Gate.step, hfn2]))
        | exact seg_waitFor hP (fun b => each_single (by simp [Gate.keeps, Gate.step])) _
        | exact seg_recv hP (fun b => each_single (by simp [Gate.keeps, Gate.step]))
        | exact seg_key hP (fun b => each_single (by simp [Gate.keeps, Gate.step])) 
        | exact seg_delay _ (each_single (by simp [Gate.keeps, Gate.step]))
        | exact seg_delay_sec hP (each_single (by simp [Gate.keeps, Gate.step])) _
        | exact seg_modify hP (fun _ => rfl)

end HMI

namespace HMI

theorem candLoop_gate (fn : Fn) (op : Nat) (k : Nat) :
    ∀ (F : Nat) (s : State), s.count + k = 5 →
    ∃ t,
      (forLoop countBelow incrCount (do
          UART_waitFor READY
          let s ← getS
          UART_sendByte Role.candidate (s.g_password s.count)) F s).state.trace = s.trace ++ t ∧
      ∃ q1, runA (Gate.step fn op) (Gate.sending s.count) t = some q1 ∧
        ∀ s1, forLoop countBelow incrCount (do
          UART_waitFor READY
          let s ← getS
          UART_sendByte Role.candidate (s.g_password s.count)) F s = Res.done () s1 →
          q1 = Gate.sending 5 := by
  induction k with
  | zero =>
      intro F s hc
      have h5 : s.count = 5 := by omega
      cases F with
      | zero =>
          exact ⟨[], by simp [forLoop], _, rfl, fun s1 h => by simp [forLoop] at h⟩
      | succ F =>
          exact ⟨[], by simp [forLoop, countBelow, h5], _, rfl, fun _ _ => by rw [h5]⟩
  | succ k ih =>
      intro F s hc
      have hlt : s.count < 5 := by omega
      cases F with
      | zero =>
          exact ⟨[], by simp [forLoop], _, rfl, fun s1 h => by simp [forLoop] at h⟩
      | succ F =>
          have hne : ¬ s.count = 5 := by omega
          obtain ⟨tw, hw1, hw2⟩ := seg_waitFor_aux (each_closed (Gate.keeps fn op
            (Gate.sending s.count)))
            (fun b => each_single (by simp [Gate.keeps, Gate.step, hne])) READY s.rx s
          have hrun := each_kept fn op _ tw hw2
          obtain ⟨_, _, _, _, _, hcnt, _⟩ := waitFor_spec READY s.rx s
          rw [forLoop]
          simp only [countBelow, hlt, decide_True, if_true, PASS_SIZE, bind_run, UART_waitFor_run]
          generalize waitFor READY s.rx s = r at hw1 hcnt
          cases r with
          | done u s1 =>
              simp only [state_done] at hw1 hcnt
              simp only [andThen_done, bind_run, getS_run, UART_sendByte_run, emit_run]
              have hcn : (incrCount { s1 with
                  trace := s1.trace ++ [Ev.send Role.candidate (s1.g_password s1.count)] }).count
                    = s.count + 1 := by
                simp only [incrCount, hcnt]
                omega
              obtain ⟨t2, i1, q2, i2, i3⟩ := ih F (incrCount { s1 with
                trace := s1.trace ++ [Ev.send Role.candidate (s1.g_password s1.count)] })
                (by rw [hcn]; omega)
              rw [hcn] at i2
              refine ⟨tw ++ [Ev.send Role.candidate (s1.g_password s1.count)] ++ t2, ?_, q2, ?_,
                i3⟩
              · rw [i1]
                show s1.trace ++ [Ev.send Role.candidate (s1.g_password s1.count)] ++ t2 = _
                rw [hw1]
                simp
              · rw [runA_append, runA_append, hrun]
                simp only [Option.bind, runA, Gate.step]
                exact i2
          | blocked s1 =>
              simp only [state_blocked] at hw1
              simp only [andThen_blocked, state_blocked]
              exact ⟨tw, hw1, _, hrun, fun s2 h => by simp at h⟩
          | noFuel s1 =>
              simp only [state_noFuel] at hw1
              simp only [andThen_noFuel, state_noFuel]
              exact ⟨tw, hw1, _, hrun, fun s2 h => by simp at h⟩

theorem candPhase_gate (fn : Fn) (op : Nat) (F : Nat) :
    Tracks (Gate.step fn op) (fun q => q = Gate.sending 0) (fun _ q => q = Gate.sending 5)
      ((resetCount : M State Unit) >>= fun _ =>
        forLoop countBelow incrCount (do
          UART_waitFor READY
          let s ← getS
          UART_sendByte Role.candidate (s.g_password s.count)) F) := by
  intro s
  simp only [bind_run, modifyS_run, andThen_done]
  obtain ⟨t, h1, q1, h2, h3⟩ := candLoop_gate fn op 5 F { s with count := 0 } rfl
  refine ⟨t, h1, fun q hq => ?_⟩
  subst hq
  exact ⟨q1, h2, fun _ s1 h => h3 s1 h⟩

theorem bind_assoc_run {σ α β γ : Type} (m1 : M σ α) (m2 : α → M σ β) (f : β → M σ γ) :
    (m1 >>= fun a => (m2 a >>= f)) = ((m1 >>= m2) >>= f) := by
  funext s
  simp only [bind_run]
  cases m1 s <;> simp

end HMI

namespace HMI

theorem gate_call (fn : Fn) (op : Nat) (q : Gate) :
    Gate.step fn op q (Ev.call fn) = some (Gate.sending 0) := by
  cases q <;> simp [Gate.step]

theorem entryLoop_sending (fn : Fn) (op : Nat) (ms F : Nat) :
    Sat (Seg (Each (Gate.keeps fn op (Gate.sending 0))))
      (forLoop countBelow incrCount (do
        Timer2_restartTimer
        let k ← KeyPad_getPressedKey
        storeDigit k
        Timer2_stopTimer
        clearTick
        T1_delay_msec ms
        let s ← getS
        LCD_displayStringRowColumn 1 s.count Msg.star) F) := by
  have hP := each_closed (Gate.keeps fn op (Gate.sending 0))
  have hS : Stable (Seg (Each (Gate.keeps fn op (Gate.sending 0))) : State → State → Prop) :=
    seg_stable hP
  refine sat_forLoop hS (seg_incrCount hP) ?_ F
  repeat' with_reducible first
    | refine sat_bind hS ?_ (fun _ => ?_)
    | exact sat_getS hS
    | exact seg_emit (each_single (by simp [Gate.keeps, Gate.step]))
    | exact seg_key hP (fun b => each_single (by simp [Gate.keeps, Gate.step]))
    | exact seg_delay _ (each_single (by simp [Gate.keeps, Gate.step]))
    | exact seg_modify hP (fun _ => rfl)

theorem OpenDoor_gate (f : Nat) :
    Tracks (Gate.step Fn.OpenDoor OPEN_DOOR) (fun _ => True) (fun _ q => q = Gate.matched)
      (OpenDoor f) := by
  induction f with
  | zero =>
      intro s
      exact ⟨[], by simp [OpenDoor], fun q _ => ⟨q, rfl, fun _ _ h => by simp [OpenDoor] at h⟩⟩
  | succ n ih =>
      have h0 := each_closed (Gate.keeps Fn.OpenDoor OPEN_DOOR (Gate.sending 0))
      have hM := each_closed (Gate.keeps Fn.OpenDoor OPEN_DOOR Gate.matched)
      have hF := each_closed (Gate.keeps Fn.OpenDoor OPEN_DOOR Gate.failed)
      unfold OpenDoor
      refine tracks_bind (B := fun _ q => q = Gate.sending 0)
        (tracks_emit (fun q _ => ⟨_, gate_call _ _ q, rfl⟩)) fun _ => ?_
      refine tracks_bind (tracks_keeps (seg_delay _ (each_single
        (by simp [Gate.keeps, Gate.step])))) fun _ => ?_
      refine tracks_bind (tracks_keeps (seg_emit (each_single
        (by simp [Gate.keeps, Gate.step])))) fun _ => ?_
      refine tracks_bind (tracks_keeps (seg_emit (each_single
        (by simp [Gate.keeps, Gate.step])))) fun _ => ?_
      refine tracks_bind (tracks_keeps (seg_modify h0 (fun _ => rfl))) fun _ => ?_
      refine tracks_bind (tracks_keeps (entryLoop_sending _ _ _ _)) fun _ => ?_
      refine tracks_bind (tracks_keeps (seg_emit (each_single
        (by simp [Gate.keeps, Gate.step])))) fun _ => ?_
      refine tracks_bind (tracks_keeps (seg_waitFor h0 (fun b => each_single
        (by simp [Gate.keeps, Gate.step])) _)) fun _ => ?_
      refine tracks_bind (tracks_keeps (seg_emit (each_single
        (by simp [Gate.keeps, Gate.step])))) fun _ => ?_
      rw [bind_assoc_run]
      refine tracks_bind (candPhase_gate _ _ _) fun _ => ?_
      refine tracks_bind (B := fun r q => q = if r = MATCH then Gate.matched else Gate.failed)
        (tracks_recv (fun b q hq => ⟨_, by subst hq; simp [Gate.step], rfl⟩)) fun r => ?_
      refine tracks_ite (fun hr => ?_) (fun hr => ?_)
      · refine tracks_weaken (A := fun q => q = Gate.matched)
          (fun q hq => by rw [hq, if_pos hr]) (fun _ _ h => h) ?_
        refine tracks_bind (tracks_keeps (seg_emit (each_single
          (by simp [Gate.keeps, Gate.step])))) fun _ => ?_
        refine tracks_bind (tracks_keeps (seg_waitFor hM (fun b => each_single
          (by simp [Gate.keeps, Gate.step])) _)) fun _ => ?_
        refine tracks_bind (tracks_keeps (seg_emit (each_single
          (by simp [Gate.keeps, Gate.step])))) fun _ => ?_
        refine tracks_bind (tracks_keeps (seg_emit (each_single
          (by simp [Gate.keeps, Gate.step])))) fun _ => ?_
        refine tracks_bind (tracks_keeps (seg_emit (each_single
          (by simp [Gate.keeps, Gate.step])))) fun _ => ?_
        refine tracks_bind (tracks_keeps (seg_delay_sec hM (each_single
          (by simp [Gate.keeps, Gate.step])) _)) fun _ => ?_
        refine tracks_bind (tracks_keeps (seg_emit (each_single
          (by simp [Gate.keeps, Gate.step])))) fun _ => ?_
        refine tracks_bind (tracks_keeps (seg_emit (each_single
          (by simp [Gate.keeps, Gate.step])))) fun _ => ?_
        exact tracks_keeps (seg_delay_sec hM (each_single (by simp [Gate.keeps, Gate.step])) _)
      · refine tracks_weaken (A := fun q => q = Gate.failed)
          (C := fun _ q => q = Gate.matched)
          (fun q hq => by rw [hq, if_neg hr]) (fun _ _ h => h) ?_
        refine tracks_bind (tracks_keeps (seg_modify hF (fun _ => rfl))) fun _ => ?_
        refine tracks_getS_bind fun s => ?_
        simp only []
        refine tracks_ite (fun _ => ?_) (fun _ => ?_)
        · refine tracks_bind (tracks_keeps (seg_modify hF (fun _ => rfl))) fun _ => ?_
          refine tracks_bind (tracks_keeps (BlockSystem_failed _ _ (by decide))) fun _ => ?_
          exact tracks_weaken (fun _ _ => trivial) (fun _ _ h => h) ih
        · refine tracks_bind (B := fun _ q => q = Gate.failed) (tracks_pure _) fun _ => ?_
          exact tracks_weaken (fun _ _ => trivial) (fun _ _ h => h) ih

end HMI

namespace HMI

theorem ChangePass_gate (f : Nat) :
    Tracks (Gate.step Fn.ChangePass CHANGE_PASSWORD) (fun _ => True)
      (fun _ q => q = Gate.matched) (ChangePass f) := by
  induction f with
  | zero =>
      intro s
      exact ⟨[], by simp [ChangePass], fun q _ =>
        ⟨q, rfl, fun _ _ h => by simp [ChangePass] at h⟩⟩
  | succ n ih =>
      have h0 := each_closed (Gate.keeps Fn.ChangePass CHANGE_PASSWORD (Gate.sending 0))
      have hM := each_closed (Gate.keeps Fn.ChangePass CHANGE_PASSWORD Gate.matched)
      have hF := each_closed (Gate.keeps Fn.ChangePass CHANGE_PASSWORD Gate.failed)
      unfold ChangePass
      refine tracks_bind (B := fun _ q => q = Gate.sending 0)
        (tracks_emit (fun q _ => ⟨_, gate_call _ _ q, rfl⟩)) fun _ => ?_
      refine tracks_bind (tracks_keeps (seg_delay _ (each_single
        (by simp [Gate.keeps, Gate.step])))) fun _ => ?_
      refine tracks_bind (tracks_keeps (seg_emit (each_single
        (by simp [Gate.keeps, Gate.step])))) fun _ => ?_
      refine tracks_bind (tracks_keeps (seg_emit (each_single
        (by simp [Gate.keeps, Gate.step])))) fun _ => ?_
      refine tracks_bind (tracks_keeps (seg_modify h0 (fun _ => rfl))) fun _ => ?_
      refine tracks_bind (tracks_keeps (entryLoop_sending _ _ _ _)) fun _ => ?_
      refine tracks_bind (tracks_keeps (seg_emit (each_single
        (by simp [Gate.keeps, Gate.step])))) fun _ => ?_
      refine tracks_bind (tracks_keeps (seg_waitFor h0 (fun b => each_single
        (by simp [Gate.keeps, Gate.step])) _)) fun _ => ?_
      refine tracks_bind (tracks_keeps (seg_emit (each_single
        (by simp [Gate.keeps, Gate.step])))) fun _ => ?_
      rw [bind_assoc_run]
      refine tracks_bind (candPhase_gate _ _ _) fun _ => ?_
      refine tracks_bind (B := fun r q => q = if r = MATCH then Gate.matched else Gate.failed)
        (tracks_recv (fun b q hq => ⟨_, by subst hq; simp [Gate.step], rfl⟩)) fun r => ?_
      refine tracks_ite (fun hr => ?_) (fun hr => ?_)
      · refine tracks_weaken (A := fun q => q = Gate.matched)
          (fun q hq => by rw [hq, if_pos hr]) (fun _ _ h => h) ?_
        refine tracks_bind (tracks_keeps (seg_emit (each_single
          (by simp [Gate.keeps, Gate.step])))) fun _ => ?_
        refine tracks_bind (tracks_keeps (seg_waitFor hM (fun b => each_single
          (by simp [Gate.keeps, Gate.step])) _)) fun _ => ?_
        refine tracks_bind (tracks_keeps (seg_emit (each_single
          (by simp [Gate.keeps, Gate.step])))) fun _ => ?_
        exact tracks_keeps (EnterNewPass_matched _ _ (by decide) n)
      · refine tracks_weaken (A := fun q => q = Gate.failed)
          (C := fun _ q => q = Gate.matched)
          (fun q hq => by rw [hq, if_neg hr]) (fun _ _ h => h) ?_
        refine tracks_bind (tracks_keeps (seg_modify hF (fun _ => rfl))) fun _ => ?_
        refine tracks_getS_bind fun s => ?_
        simp only []
        refine tracks_ite (fun _ => ?_) (fun _ => ?_)
        · refine tracks_bind (tracks_keeps (seg_modify hF (fun _ => rfl))) fun _ => ?_
          refine tracks_bind (tracks_keeps (BlockSystem_failed _ _ (by decide))) fun _ => ?_
          exact tracks_weaken (fun _ _ => trivial) (fun _ _ h => h) ih
        · refine tracks_bind (B := fun _ q => q = Gate.failed) (tracks_pure _) fun _ => ?_
          exact tracks_weaken (fun _ _ => trivial) (fun _ _ h => h) ih

theorem returned_done {σ α : Type} (r : Res σ α) (h : returned r = true) :
    ∃ a s1, r = Res.done a s1 := by
  cases r with
  | done a s1 => exact ⟨a, s1, rfl⟩
  | blocked s1 => exact absurd h (by simp [returned])
  | noFuel s1 => exact absurd h (by simp [returned])

theorem gate_refuses_unmatched :
    runA (Gate.step Fn.OpenDoor OPEN_DOOR) Gate.out
        ([Ev.call Fn.OpenDoor] ++ candidateEvents [1, 1, 1, 1, 1] ++
          [Ev.recv DONT_MATCH, Ev.send Role.token READY, Ev.recv READY,
            Ev.send Role.opcode OPEN_DOOR]) = none ∧
      runA (Gate.step Fn.OpenDoor OPEN_DOOR) Gate.out
        ([Ev.call Fn.OpenDoor] ++ candidateEvents [1, 1, 1, 1, 1] ++
          [Ev.recv MATCH, Ev.send Role.token READY, Ev.recv READY,
            Ev.send Role.opcode OPEN_DOOR]) = some Gate.matched ∧
      runA (Gate.step Fn.OpenDoor OPEN_DOOR) Gate.out
        ([Ev.call Fn.OpenDoor] ++ candidateEvents [1, 1, 1, 1] ++
          [Ev.recv MATCH, Ev.send Role.opcode OPEN_DOOR]) = none := by
  decide

/-- C23: in every run of `OpenDoor` and in every run of `ChangePass`, from
every state, whatever is typed and whatever arrives on the serial line, the
check `Gate.step` accepts the trace: the opcode `OPEN_DOOR` (`CHANGE_PASSWORD`
in `ChangePass`) is sent only in an attempt in which the byte received after
the five bytes of the candidate was `MATCH`; after any other result byte
nothing is sent, received or read before the function is entered again; and
when the run returns, the last attempt has received `MATCH`.  With enough
fuel, an attempt answered by a byte `r` other than `MATCH` is followed by a
new call of the function, after `BlockSystem` at every third such answer. -/
theorem C23_opcode_after_match (s : State) (f n r : Nat) (d krest rest : List Nat)
    (hd : d.length = PASS_SIZE) (hr : r ≠ MATCH) (hkeys : s.app.keys = d ++ krest)
    (hrx : s.rx = answers r ++ rest) :
    (∀ s0 : State, ∃ t q, (OpenDoor f s0).state.trace = s0.trace ++ t ∧
      runA (Gate.step Fn.OpenDoor OPEN_DOOR) Gate.out t = some q ∧
      (returned (OpenDoor f s0) = true → q = Gate.matched)) ∧
    (∀ s0 : State, ∃ t q, (ChangePass f s0).state.trace = s0.trace ++ t ∧
      runA (Gate.step Fn.ChangePass CHANGE_PASSWORD) Gate.out t = some q ∧
      (returned (ChangePass f s0) = true → q = Gate.matched)) ∧
    (∃ s1, OpenDoor (n + 6) s
        = (if s.app.OpenDoor_i + 1 = 3 then BlockSystem >>= fun _ => OpenDoor (n + 5)
           else OpenDoor (n + 5)) s1 ∧
      s1.trace = s.trace ++ attemptEvents Fn.OpenDoor Msg.enterPass d r) ∧
    (∃ s1, ChangePass (n + 6) s
        = (if s.app.ChangePass_i + 1 = 3 then BlockSystem >>= fun _ => ChangePass (n + 5)
           else ChangePass (n + 5)) s1 ∧
      s1.trace = s.trace ++ attemptEvents Fn.ChangePass Msg.enterOld d r) := by
  refine ⟨fun s0 => ?_, fun s0 => ?_, ?_, ?_⟩
  · obtain ⟨t, ht, hq⟩ := OpenDoor_gate f s0
    obtain ⟨q, h1, h2⟩ := hq Gate.out trivial
    refine ⟨t, q, ht, h1, fun h => ?_⟩
    obtain ⟨a, s1, hs1⟩ := returned_done _ h
    exact h2 a s1 hs1
  · obtain ⟨t, ht, hq⟩ := ChangePass_gate f s0
    obtain ⟨q, h1, h2⟩ := hq Gate.out trivial
    refine ⟨t, q, ht, h1, fun h => ?_⟩
    obtain ⟨a, s1, hs1⟩ := returned_done _ h
    exact h2 a s1 hs1
  · obtain ⟨k0, k1, k2, k3, k4, rfl⟩ := Control.list_of_length_five d hd
    obtain ⟨gp, cnt, fl, ra, rb, tc, rx, tr, ⟨rep, tick, ci, oi, ddr, port, keys⟩⟩ := s
    simp only [answers] at hkeys hrx
    subst hkeys hrx
    simp only [List.cons_append, List.nil_append,
      OpenDoor_mismatch _ _ _ _ _ _ _ _ _ _ _ _ _ _ _ _ _ _ _ _ _ _ hr]
    exact ⟨_, rfl, rfl⟩
  · obtain ⟨k0, k1, k2, k3, k4, rfl⟩ := Control.list_of_length_five d hd
    obtain ⟨gp, cnt, fl, ra, rb, tc, rx, tr, ⟨rep, tick, ci, oi, ddr, port, keys⟩⟩ := s
    simp only [answers] at hkeys hrx
    subst hkeys hrx
    simp only [List.cons_append, List.nil_append,
      ChangePass_mismatch _ _ _ _ _ _ _ _ _ _ _ _ _ _ _ _ _ _ _ _ _ _ hr]
    exact ⟨_, rfl, rfl⟩

/-- Witness for C23: the keys 1,1,1,1,1 and a line on which every handshake is
answered and the result byte is 9, which is neither `MATCH` nor `DONT_MATCH`. -/
theorem C23_opcode_after_match_witness :
    [1, 1, 1, 1, 1].length = PASS_SIZE ∧ (9 : Nat) ≠ MATCH ∧
    ((∀ s0 : State, ∃ t q, (OpenDoor 8 s0).state.trace = s0.trace ++ t ∧
      runA (Gate.step Fn.OpenDoor OPEN_DOOR) Gate.out t = some q ∧
      (returned (OpenDoor 8 s0) = true → q = Gate.matched)) ∧
    (∀ s0 : State, ∃ t q, (ChangePass 8 s0).state.trace = s0.trace ++ t ∧
      runA (Gate.step Fn.ChangePass CHANGE_PASSWORD) Gate.out t = some q ∧
      (returned (ChangePass 8 s0) = true → q = Gate.matched)) ∧
    (∃ s1, OpenDoor (0 + 6) (initState ([1, 1, 1, 1, 1] ++ []) (answers 9 ++ []))
        = (if (initState ([1, 1, 1, 1, 1] ++ []) (answers 9 ++ [])).app.OpenDoor_i + 1 = 3
           then BlockSystem >>= fun _ => OpenDoor (0 + 5) else OpenDoor (0 + 5)) s1 ∧
      s1.trace = (initState ([1, 1, 1, 1, 1] ++ []) (answers 9 ++ [])).trace ++
        attemptEvents Fn.OpenDoor Msg.enterPass [1, 1, 1, 1, 1] 9) ∧
    (∃ s1, ChangePass (0 + 6) (initState ([1, 1, 1, 1, 1] ++ []) (answers 9 ++ []))
        = (if (initState ([1, 1, 1, 1, 1] ++ []) (answers 9 ++ [])).app.ChangePass_i + 1 = 3
           then BlockSystem >>= fun _ => ChangePass (0 + 5) else ChangePass (0 + 5)) s1 ∧
      s1.trace = (initState ([1, 1, 1, 1, 1] ++ []) (answers 9 ++ [])).trace ++
        attemptEvents Fn.ChangePass Msg.enterOld [1, 1, 1, 1, 1] 9)) :=
  ⟨rfl, by decide,
    C23_opcode_after_match (initState ([1, 1, 1, 1, 1] ++ []) (answers 9 ++ [])) 8 0 9
      [1, 1, 1, 1, 1] [] [] rfl (by decide) rfl rfl⟩

end HMI

section TrackRules2
variable {α β Q : Type} {step : Q → Ev → Option Q}

theorem tracks_forLoop {I : Q → Prop} {cond : Node α → Bool} {stp : Node α → Node α}
    {body : M (Node α) Unit} (hstep : ∀ s, (stp s).trace = s.trace)
    (hbody : Tracks step I (fun _ => I) body) (fuel : Nat) :
    Tracks step I (fun _ => I) (forLoop cond stp body fuel) := by
  induction fuel with
  | zero =>
      intro s
      exact ⟨[], by simp [forLoop], fun q _ => ⟨q, rfl, fun _ _ h => by simp [forLoop] at h⟩⟩
  | succ n ih =>
      intro s
      simp only [forLoop]
      split
      · exact tracks_bind hbody (fun _ => tracks_bind (tracks_modify hstep) (fun _ => ih)) s
      · exact ⟨[], by simp, fun q hq => ⟨q, rfl, fun _ _ _ => hq⟩⟩

theorem tracks_fixed {q0 : Q} {m : M (Node α) β}
    (h : Sat (Seg (Each (fun e => step q0 e = some q0))) m) :
    Tracks step (fun q => q = q0) (fun _ q => q = q0) m := by
  intro s
  obtain ⟨t, e, p⟩ := h s
  refine ⟨t, e, fun q hq => ?_⟩
  subst hq
  refine ⟨q, ?_, fun _ _ _ => rfl⟩
  clear e
  induction t with
  | nil => rfl
  | cons x t ih =>
      have hx : step q x = some q := p x (List.mem_cons_self _ _)
      simp only [runA, hx]
      exact ih (fun y hy => p y (List.mem_cons_of_mem _ hy))

end TrackRules2

namespace HMI

/-! ### The input timer around each digit (C25) -/

theorem tracks_key {Q : Type} {step : Q → Ev → Option Q} {pre : Q → Prop} {post : Nat → Q → Prop}
    (h : ∀ k q, pre q → ∃ q1, step q (Ev.key k) = some q1 ∧ post k q1) :
    Tracks step pre post KeyPad_getPressedKey := by
  intro s
  unfold KeyPad_getPressedKey
  split
  · exact ⟨[], by simp, fun q _ => ⟨q, rfl, fun _ _ h => by simp at h⟩⟩
  · rename_i k rest hk
    refine ⟨[Ev.key k], by simp, fun q hq => ?_⟩
    obtain ⟨q1, r1, n1⟩ := h k q hq
    refine ⟨q1, by simp [runA, r1], fun a s1 h => ?_⟩
    simp only [Res.done.injEq] at h
    rw [← h.1]
    exact n1

theorem digitStep_arm (store : Nat → M State Unit)
    (hstore : ∀ k, Tracks Arm.step (fun q => q = Arm.got) (fun _ q => q = Arm.got) (store k))
    (ms : Nat) :
    Tracks Arm.step Arm.idle (fun _ q => q = Arm.off) (do
      Timer2_restartTimer
      let k ← KeyPad_getPressedKey
      store k
      Timer2_stopTimer
      clearTick
      T1_delay_msec ms
      let s ← getS
      LCD_displayStringRowColumn 1 s.count Msg.star) := by
  have hO := each_closed (fun e => Arm.step Arm.off e = some Arm.off)
  refine tracks_bind (B := fun _ q => q = Arm.on) (tracks_emit (fun q hq => ?_)) fun _ => ?_
  · rcases hq with rfl | rfl <;> exact ⟨_, rfl, rfl⟩
  refine tracks_bind (B := fun _ q => q = Arm.got)
    (tracks_key (fun k q hq => ⟨_, by subst hq; rfl, rfl⟩)) fun k => ?_
  refine tracks_bind (hstore k) fun _ => ?_
  refine tracks_bind (B := fun _ q => q = Arm.off)
    (tracks_emit (fun q hq => ⟨_, by subst hq; rfl, rfl⟩)) fun _ => ?_
  refine tracks_bind (tracks_fixed (seg_modify hO (fun _ => rfl))) fun _ => ?_
  refine tracks_bind (tracks_fixed (seg_delay _ (each_single rfl))) fun _ => ?_
  refine tracks_getS_bind fun s => ?_
  exact tracks_fixed (seg_emit (each_single rfl))

end HMI

namespace HMI

theorem store_got (f : State → State) (hf : ∀ s, (f s).trace = s.trace) :
    Tracks Arm.step (fun q => q = Arm.got) (fun _ q => q = Arm.got) (modifyS f) :=
  tracks_fixed (seg_modify (each_closed _) hf)

theorem BlockSystem_arm :
    Tracks Arm.step (fun q => q = Arm.off) (fun _ q => q = Arm.off) BlockSystem := by
  have hP := each_closed (fun e => Arm.step Arm.off e = some Arm.off)
  have hS : Stable (Seg (Each (fun e => Arm.step Arm.off e = some Arm.off)) :
    State → State → Prop) := seg_stable hP
  refine tracks_fixed ?_
  unfold BlockSystem pinModeC
  repeat' with_reducible first
    | refine sat_bind hS ?_ (fun _ => ?_)
    | refine sat_ite ?_ ?_
    | exact seg_emit (each_single (by simp [Arm.step]))
    | exact seg_pinWriteC (fun _ _ _ => each_single (by simp [Arm.step])) _ _
    | exact seg_delay_sec hP (each_single (by simp [Arm.step])) _
    | exact seg_modify hP (fun _ => rfl)

theorem call_arm (f : Fn) :
    Tracks Arm.step Arm.idle (fun _ q => q = Arm.off) (emit (Ev.call f) : M State Unit) :=
  tracks_emit (fun q hq => by rcases hq with rfl | rfl <;> exact ⟨_, rfl, rfl⟩)

theorem entryLoop_arm (ms F : Nat) :
    Tracks Arm.step (fun q => q = Arm.off) (fun _ q => q = Arm.off)
      (forLoop countBelow incrCount (do
        Timer2_restartTimer
        let k ← KeyPad_getPressedKey
        storeDigit k
        Timer2_stopTimer
        clearTick
        T1_delay_msec ms
        let s ← getS
        LCD_displayStringRowColumn 1 s.count Msg.star) F) :=
  tracks_forLoop (I := fun q => q = Arm.off) incrCount_trace
    (tracks_weaken (A := Arm.idle) (C := fun _ q => q = Arm.off)
      (fun _ hq => Or.inl hq) (fun _ _ h => h)
      (digitStep_arm storeDigit (fun _ => store_got _ (fun _ => rfl)) ms)) F

theorem reEntryLoop_arm (ms F : Nat) :
    Tracks Arm.step (fun q => q = Arm.off) (fun _ q => q = Arm.off)
      (forLoop countBelow incrCount (do
        Timer2_restartTimer
        let k ← KeyPad_getPressedKey
        storeReDigit k
        Timer2_stopTimer
        clearTick
        T1_delay_msec ms
        let s ← getS
        LCD_displayStringRowColumn 1 s.count Msg.star) F) :=
  tracks_forLoop (I := fun q => q = Arm.off) incrCount_trace
    (tracks_weaken (A := Arm.idle) (C := fun _ q => q = Arm.off)
      (fun _ hq => Or.inl hq) (fun _ _ h => h)
      (digitStep_arm storeReDigit (fun _ => store_got _ (fun _ => rfl)) ms)) F

theorem EnterNewPass_arm (f : Nat) :
    Tracks Arm.step Arm.idle (fun _ q => q = Arm.off) (EnterNewPass f) := by
  have hO := each_closed (fun e => Arm.step Arm.off e = some Arm.off)
  induction f with
  | zero =>
      intro s
      exact ⟨[], by simp [EnterNewPass], fun q _ =>
        ⟨q, rfl, fun _ _ h => by simp [EnterNewPass] at h⟩⟩
  | succ n ih =>
      have ih' : Tracks Arm.step (fun q => q = Arm.off) (fun _ q => q = Arm.off)
          (EnterNewPass n) := tracks_weaken (fun q hq => Or.inl hq) (fun _ _ h => h) ih
      unfold EnterNewPass
      refine tracks_bind (call_arm _) fun _ => ?_
      repeat' with_reducible first
        | exact entryLoop_arm _ _
        | exact reEntryLoop_arm _ _
        | exact ih'
        | exact tracks_fixed (seg_delay_sec hO (each_single (by simp [Arm.step])) _)
        | refine tracks_bind (B := fun _ q => q = Arm.off) ?_ (fun _ => ?_)
        | refine tracks_forLoop incrCount_trace ?_ _
        | refine tracks_getS_bind fun _ => ?_
        | refine tracks_ite (fun _ => ?_) (fun _ => ?_)
        | exact tracks_pure _
        | exact tracks_fixed (seg_emit (each_single (by simp [Arm.step])))
        | exact tracks_fixed (seg_modify hO (fun _ => rfl))
        | exact tracks_fixed (seg_delay _ (each_single (by simp [Arm.step])))
        | exact tracks_fixed (seg_waitFor hO (fun _ => each_single (by simp [Arm.step])) _)

end HMI

namespace HMI

theorem ChangePass_arm (f : Nat) :
    Tracks Arm.step Arm.idle (fun _ q => q = Arm.off) (ChangePass f) := by
  have hO := each_closed (fun e => Arm.step Arm.off e = some Arm.off)
  induction f with
  | zero =>
      intro s
      exact ⟨[], by simp [ChangePass], fun q _ =>
        ⟨q, rfl, fun _ _ h => by simp [ChangePass] at h⟩⟩
  | succ n ih =>
      have ih' : Tracks Arm.step (fun q => q = Arm.off) (fun _ q => q = Arm.off)
          (ChangePass n) := tracks_weaken (fun q hq => Or.inl hq) (fun _ _ h => h) ih
      have hE : Tracks Arm.step (fun q => q = Arm.off) (fun _ q => q = Arm.off)
          (EnterNewPass n) :=
        tracks_weaken (fun q hq => Or.inl hq) (fun _ _ h => h) (EnterNewPass_arm n)
      unfold ChangePass
      refine tracks_bind (call_arm _) fun _ => ?_
      repeat' with_reducible first
        | exact entryLoop_arm _ _
        | exact ih'
        | exact hE
        | exact BlockSystem_arm
        | refine tracks_bind (B := fun _ q => q = Arm.off) ?_ (fun _ => ?_)
        | refine tracks_forLoop incrCount_trace ?_ _
        | refine tracks_getS_bind fun _ => ?_
        | refine tracks_ite (fun _ => ?_) (fun _ => ?_)
        | exact tracks_pure _
        | exact tracks_fixed (seg_emit (each_single (by simp [Arm.step])))
        | exact tracks_fixed (seg_modify hO (fun _ => rfl))
        | exact tracks_fixed (seg_delay _ (each_single (by simp [Arm.step])))
        | exact tracks_fixed (seg_waitFor hO (fun _ => each_single (by simp [Arm.step])) _)
        | exact tracks_fixed (seg_recv hO (fun _ => each_single (by simp [Arm.step])))

theorem OpenDoor_arm (f : Nat) :
    Tracks Arm.step Arm.idle (fun _ q => q = Arm.off) (OpenDoor f) := by
  have hO := each_closed (fun e => Arm.step Arm.off e = some Arm.off)
  induction f with
  | zero =>
      intro s
      exact ⟨[], by simp [OpenDoor], fun q _ =>
        ⟨q, rfl, fun _ _ h => by simp [OpenDoor] at h⟩⟩
  | succ n ih =>
      have ih' : Tracks Arm.step (fun q => q = Arm.off) (fun _ q => q = Arm.off)
          (OpenDoor n) := tracks_weaken (fun q hq => Or.inl hq) (fun _ _ h => h) ih
      unfold OpenDoor
      refine tracks_bind (call_arm _) fun _ => ?_
      repeat' with_reducible first
        | exact entryLoop_arm _ _
        | exact ih'
        | exact BlockSystem_arm
        | exact tracks_fixed (seg_delay_sec hO (each_single (by simp [Arm.step])) _)
        | refine tracks_bind (B := fun _ q => q = Arm.off) ?_ (fun _ => ?_)
        | refine tracks_forLoop incrCount_trace ?_ _
        | refine tracks_getS_bind fun _ => ?_
        | refine tracks_ite (fun _ => ?_) (fun _ => ?_)
        | exact tracks_pure _
        | exact tracks_fixed (seg_emit (each_single (by simp [Arm.step])))
        | exact tracks_fixed (seg_modify hO (fun _ => rfl))
        | exact tracks_fixed (seg_delay _ (each_single (by simp [Arm.step])))
        | exact tracks_fixed (seg_waitFor hO (fun _ => each_single (by simp [Arm.step])) _)
        | exact tracks_fixed (seg_recv hO (fun _ => each_single (by simp [Arm.step])))

end HMI

namespace HMI

theorem key_menu :
    Tracks Arm.step (fun q => q = Arm.menu) (fun _ q => q = Arm.menu) KeyPad_getPressedKey :=
  tracks_key (fun _ q hq => ⟨_, by subst hq; rfl, rfl⟩)

theorem MainScreen_arm (f : Nat) :
    Tracks Arm.step Arm.idle (fun _ q => Arm.idle q) (MainScreen f) := by
  have hO := each_closed (fun e => Arm.step Arm.off e = some Arm.off)
  have hM := each_closed (fun e => Arm.step Arm.menu e = some Arm.menu)
  have hidle : ∀ q, q = Arm.menu → Arm.idle q := fun _ h => Or.inr h
  have hoff : ∀ q, q = Arm.off → Arm.idle q := fun _ h => Or.inl h
  induction f with
  | zero =>
      intro s
      exact ⟨[], by simp [MainScreen], fun q _ =>
        ⟨q, rfl, fun _ _ h => by simp [MainScreen] at h⟩⟩
  | succ n ih =>
      unfold MainScreen
      refine tracks_bind (call_arm _) fun _ => ?_
      refine tracks_bind (B := fun _ q => q = Arm.off)
        (tracks_fixed (seg_emit (each_single (by simp [Arm.step])))) fun _ => ?_
      refine tracks_bind (B := fun _ q => q = Arm.menu)
        (tracks_emit (fun q hq => ⟨_, by subst hq; rfl, rfl⟩)) fun _ => ?_
      refine tracks_bind key_menu fun k1 => ?_
      refine tracks_ite (fun _ => ?_) (fun _ => ?_)
      · exact tracks_weaken hidle (fun _ _ h => Or.inl h) (ChangePass_arm n)
      refine tracks_bind key_menu fun k2 => ?_
      refine tracks_ite (fun _ => ?_) (fun _ => ?_)
      · exact tracks_weaken hidle (fun _ _ h => Or.inl h) (OpenDoor_arm n)
      refine tracks_bind key_menu fun k3 => ?_
      refine tracks_ite (fun _ => ?_) (fun _ => ?_)
      swap
      · exact tracks_weaken (fun _ h => h) (fun _ q h => hidle q h) (tracks_pure _)
      refine tracks_bind (B := fun _ q => q = Arm.menu)
        (tracks_fixed (seg_delay_sec hM (each_single (by simp [Arm.step])) _)) fun _ => ?_
      refine tracks_bind key_menu fun k4 => ?_
      refine tracks_ite (fun _ => ?_) (fun _ => ?_)
      swap
      · exact tracks_weaken (fun _ h => h) (fun _ q h => hidle q h) (tracks_pure _)
      refine tracks_bind (B := fun _ q => q = Arm.off)
        (tracks_emit (fun q hq => ⟨_, by subst hq; rfl, rfl⟩)) fun _ => ?_
      refine tracks_bind (tracks_fixed (seg_emit (each_single (by simp [Arm.step])))) fun _ => ?_
      refine tracks_bind (tracks_fixed (seg_delay _ (each_single (by simp [Arm.step]))))
        fun _ => ?_
      refine tracks_bind (B := fun _ q => Arm.idle q)
        (tracks_weaken (fun _ h => h) (fun _ q h => hoff q h)
          (tracks_fixed (seg_modify hO (fun _ => rfl)))) fun _ => ?_
      refine tracks_bind (B := fun _ q => Arm.idle q)
        (tracks_forLoop (I := Arm.idle) incrCount_trace ?_ _) fun _ => ?_
      · refine tracks_bind (B := fun _ q => q = Arm.on) (tracks_emit (fun q hq => ?_))
          fun _ => ?_
        · rcases hq with rfl | rfl <;> exact ⟨_, rfl, rfl⟩
        refine tracks_bind (B := fun _ q => q = Arm.got)
          (tracks_key (fun k q hq => ⟨_, by subst hq; rfl, rfl⟩)) fun k => ?_
        refine tracks_bind (store_got _ (fun _ => rfl)) fun _ => ?_
        refine tracks_bind (B := fun _ q => q = Arm.off)
          (tracks_emit (fun q hq => ⟨_, by subst hq; rfl, rfl⟩)) fun _ => ?_
        refine tracks_bind (tracks_fixed (seg_modify hO (fun _ => rfl))) fun _ => ?_
        refine tracks_bind (tracks_fixed (seg_delay _ (each_single rfl))) fun _ => ?_
        refine tracks_getS_bind fun s => ?_
        refine tracks_bind (tracks_fixed (seg_emit (each_single rfl))) fun _ => ?_
        refine tracks_ite (fun _ => ?_) (fun _ => ?_)
        · exact tracks_weaken hoff (fun _ _ h => h) ih
        · exact tracks_weaken (fun _ h => h) (fun _ q h => hoff q h) (tracks_pure _)
      refine tracks_bind (B := fun _ q => q = Arm.off) (tracks_emit (fun q hq => ?_))
        fun _ => ?_
      · rcases hq with rfl | rfl <;> exact ⟨_, rfl, rfl⟩
      refine tracks_bind (tracks_fixed (seg_waitFor hO (fun _ => each_single
        (by simp [Arm.step])) _)) fun _ => ?_
      refine tracks_bind (tracks_fixed (seg_emit (each_single (by simp [Arm.step]))))
        fun _ => ?_
      exact tracks_weaken hoff (fun _ _ h => Or.inl h) (EnterNewPass_arm n)

end HMI

namespace HMI

theorem tickOk_stable : Stable TickOk where
  refl := fun s => ⟨[], by simp, by simp⟩
  trans := by
    rintro a b c ⟨t1, h1, p1⟩ ⟨t2, h2, p2⟩
    refine ⟨t1 ++ t2, by rw [h2, h1, List.append_assoc], ?_⟩
    rw [p2, p1]
    by_cases m2 : Ev.timer2 false ∈ t2
    · simp [m2]
    · by_cases m1 : Ev.timer2 false ∈ t1 <;> simp [m1, m2]

theorem tickOk_quiet (s s1 : State) (t : List Ev) (h1 : s1.trace = s.trace ++ t)
    (h2 : s1.app.g_T2_tick = s.app.g_T2_tick) (ht : Ev.timer2 false ∉ t) : TickOk s s1 :=
  ⟨t, h1, by rw [if_neg ht]; exact h2⟩

theorem tick_emit {e : Ev} (he : e ≠ Ev.timer2 false) : Sat TickOk (emit e : M State Unit) :=
  fun s => tickOk_quiet s _ [e] rfl rfl (by simpa using Ne.symm he)

theorem tick_modify {f : State → State} (h1 : ∀ s, (f s).trace = s.trace)
    (h2 : ∀ s, (f s).app.g_T2_tick = s.app.g_T2_tick) : Sat TickOk (modifyS f) :=
  fun s => tickOk_quiet s _ [] (by simp [modifyS, h1]) (by simp [modifyS, h2]) (by simp)

theorem tick_key : Sat TickOk KeyPad_getPressedKey := by
  intro s
  unfold KeyPad_getPressedKey
  split
  · exact tickOk_stable.refl s
  · exact tickOk_quiet s _ [Ev.key _] rfl rfl (by simp)

theorem tick_recv : Sat TickOk (UART_receiveByte : M State Nat) := by
  intro s
  unfold UART_receiveByte
  split
  · exact tickOk_stable.refl s
  · exact tickOk_quiet s _ [Ev.recv _] rfl rfl (by simp)

theorem tick_waitFor (tok : Nat) : Sat TickOk (UART_waitFor tok : M State Unit) := by
  intro s
  obtain ⟨t, ht, hq⟩ := seg_waitFor (each_closed (fun e => e ≠ Ev.timer2 false))
    (fun b => each_single (by simp)) tok s
  exact tickOk_quiet s _ t ht (by rw [UART_waitFor, Control.waitFor_app])
    (fun hm => hq _ hm rfl)

theorem tick_delay (msec : Nat) : Sat TickOk (T1_delay_msec msec : M State Unit) :=
  fun s => tickOk_quiet s _ [Ev.delay msec] rfl rfl (by simp)

theorem tick_delay_sec (sec : Nat) : Sat TickOk (T1_delay_sec sec : M State Unit) :=
  sat_delay_sec tickOk_stable (tick_delay 1000) sec

theorem tick_pinWriteC (pin value : Nat) : Sat TickOk (pinWriteC pin value) :=
  fun s => tickOk_quiet s _ [Ev.pin portC pin value] rfl rfl (by simp)

theorem tick_incrCount (s : State) : TickOk s (incrCount s) :=
  tickOk_quiet s _ [] (by simp [incrCount]) rfl (by simp)

theorem tick_stop_clear {α : Type} {rest : M State α} (h : Sat TickOk rest) :
    Sat TickOk (Timer2_stopTimer >>= fun _ => clearTick >>= fun _ => rest) := by
  intro s
  simp only [bind_run, emit_run, modifyS_run, andThen_done]
  refine tickOk_stable.trans _ _ _ ⟨[Ev.timer2 false], rfl, ?_⟩ (h _)
  simp

end HMI

namespace HMI

theorem BlockSystem_tick : Sat TickOk BlockSystem := by
  have hS : Stable TickOk := tickOk_stable
  unfold BlockSystem pinModeC
  repeat' with_reducible first
    | exact tick_delay_sec _
    | refine sat_bind hS ?_ (fun _ => ?_)
    | refine sat_ite ?_ ?_
    | exact tick_emit (by simp)
    | exact tick_pinWriteC _ _
    | exact tick_modify (fun _ => rfl) (fun _ => rfl)

theorem EnterNewPass_tick (f : Nat) : Sat TickOk (EnterNewPass f) := by
  have hS : Stable TickOk := tickOk_stable
  induction f with
  | zero => intro s; exact hS.refl s
  | succ n ih =>
      unfold EnterNewPass
      repeat' with_reducible first
        | refine tick_stop_clear ?_
        | exact ih
        | exact tick_delay_sec _
        | refine sat_bind hS ?_ (fun _ => ?_)
        | refine sat_forLoop hS tick_incrCount ?_ _
        | refine sat_ite ?_ ?_
        | exact sat_pure hS _
        | exact sat_getS hS
        | exact tick_emit (by simp)
        | exact tick_waitFor _
        | exact tick_recv
        | exact tick_key
        | exact tick_delay _
        | exact tick_pinWriteC _ _
        | exact tick_modify (fun _ => rfl) (fun _ => rfl)

theorem ChangePass_tick (f : Nat) : Sat TickOk (ChangePass f) := by
  have hS : Stable TickOk := tickOk_stable
  induction f with
  | zero => intro s; exact hS.refl s
  | succ n ih =>
      unfold ChangePass
      repeat' with_reducible first
        | refine tick_stop_clear ?_
        | exact ih
        | exact BlockSystem_tick
        | exact EnterNewPass_tick n
        | exact tick_delay_sec _
        | refine sat_bind hS ?_ (fun _ => ?_)
        | refine sat_forLoop hS tick_incrCount ?_ _
        | refine sat_ite ?_ ?_
        | exact sat_pure hS _
        | exact sat_getS hS
        | exact tick_emit (by simp)
        | exact tick_waitFor _
        | exact tick_recv
        | exact tick_key
        | exact tick_delay _
        | exact tick_pinWriteC _ _
        | exact tick_modify (fun _ => rfl) (fun _ => rfl)

theorem OpenDoor_tick (f : Nat) : Sat TickOk (OpenDoor f) := by
  have hS : Stable TickOk := tickOk_stable
  induction f with
  | zero => intro s; exact hS.refl s
  | succ n ih =>
      unfold OpenDoor
      repeat' with_reducible first
        | refine tick_stop_clear ?_
        | exact ih
        | exact BlockSystem_tick
        | exact tick_delay_sec _
        | refine sat_bind hS ?_ (fun _ => ?_)
        | refine sat_forLoop hS tick_incrCount ?_ _
        | refine sat_ite ?_ ?_
        | exact sat_pure hS _
        | exact sat_getS hS
        | exact tick_emit (by simp)
        | exact tick_waitFor _
        | exact tick_recv
        | exact tick_key
        | exact tick_delay _
        | exact tick_pinWriteC _ _
        | exact tick_modify (fun _ => rfl) (fun _ => rfl)

theorem MainScreen_tick (f : Nat) : Sat TickOk (MainScreen f) := by
  have hS : Stable TickOk := tickOk_stable
  induction f with
  | zero => intro s; exact hS.refl s
  | succ n ih =>
      unfold MainScreen
      repeat' with_reducible first
        | refine tick_stop_clear ?_
        | exact ih
        | exact ChangePass_tick n
        | exact OpenDoor_tick n
        | exact EnterNewPass_tick n
        | exact tick_delay_sec _
        | refine sat_bind hS ?_ (fun _ => ?_)
        | refine sat_forLoop hS tick_incrCount ?_ _
        | refine sat_ite ?_ ?_
        | exact sat_pure hS _
        | exact sat_getS hS
        | exact tick_emit (by simp)
        | exact tick_waitFor _
        | exact tick_recv
        | exact tick_key
        | exact tick_delay _
        | exact tick_pinWriteC _ _
        | exact tick_modify (fun _ => rfl) (fun _ => rfl)

end HMI

namespace HMI

theorem digitStep_tick (key : M State Nat) (store : Nat → M State Unit) (ms : Nat) (s s1 : State)
    (h : (do
      Timer2_restartTimer
      let k ← key
      store k
      Timer2_stopTimer
      clearTick
      T1_delay_msec ms
      let s ← getS
      LCD_displayStringRowColumn 1 s.count Msg.star : M State Unit) s = Res.done () s1) :
    s1.app.g_T2_tick = 0 := by
  simp only [bind_run, emit_run, andThen_done] at h
  cases hk : key { s with trace := s.trace ++ [Ev.timer2 true] } with
  | done k s2 =>
      rw [hk] at h
      simp only [andThen_done, bind_run] at h
      cases hs : store k s2 with
      | done u s3 =>
          rw [hs] at h
          simp only [andThen_done, modifyS_run, getS_run, T1_delay_msec_run, emit_run,
            bind_run, Res.done.injEq, true_and] at h
          rw [← h]
      | blocked s3 => rw [hs] at h; simp at h
      | noFuel s3 => rw [hs] at h; simp at h
  | blocked s2 => rw [hk] at h; simp at h
  | noFuel s2 => rw [hk] at h; simp at h

theorem digitStep_agree (key1 key2 : M State Nat)
    (hk : ∀ s, s.app.g_T2_tick = 0 → key1 s = key2 s) (store : Nat → M State Unit) (ms : Nat)
    (s : State) (h0 : s.app.g_T2_tick = 0) :
    (do
      Timer2_restartTimer
      let k ← key1
      store k
      Timer2_stopTimer
      clearTick
      T1_delay_msec ms
      let s ← getS
      LCD_displayStringRowColumn 1 s.count Msg.star : M State Unit) s
    = (do
      Timer2_restartTimer
      let k ← key2
      store k
      Timer2_stopTimer
      clearTick
      T1_delay_msec ms
      let s ← getS
      LCD_displayStringRowColumn 1 s.count Msg.star : M State Unit) s := by
  simp only [bind_run, emit_run, andThen_done]
  rw [hk { s with trace := s.trace ++ [Ev.timer2 true] } h0]

theorem digitLoop_waits (key1 key2 : M State Nat)
    (hk : ∀ s, s.app.g_T2_tick = 0 → key1 s = key2 s) (store : Nat → M State Unit) (ms : Nat) :
    ∀ (F : Nat) (s : State), s.app.g_T2_tick = 0 →
      digitLoop key1 store ms F s = digitLoop key2 store ms F s ∧
      ∀ s1, digitLoop key1 store ms F s = Res.done () s1 → s1.app.g_T2_tick = 0 := by
  intro F
  induction F with
  | zero =>
      intro s _
      exact ⟨rfl, fun s1 h => by simp [digitLoop, forLoop] at h⟩
  | succ n ih =>
      intro s h0
      unfold digitLoop at ih ⊢
      simp only [forLoop]
      by_cases hc : countBelow s = true
      · rw [if_pos hc, if_pos hc, ← digitStep_agree key1 key2 hk store ms s h0]
        have hstep := digitStep_tick key1 store ms s
        generalize (do
          Timer2_restartTimer
          let k ← key1
          store k
          Timer2_stopTimer
          clearTick
          T1_delay_msec ms
          let s ← getS
          LCD_displayStringRowColumn 1 s.count Msg.star : M State Unit) s = r at hstep
        cases r with
        | done u s1 =>
            simp only [andThen_done]
            exact ih (incrCount s1) (hstep s1 rfl)
        | blocked s1 => exact ⟨rfl, fun s2 h => by simp at h⟩
        | noFuel s1 => exact ⟨rfl, fun s2 h => by simp at h⟩
      · rw [if_neg hc, if_neg hc]
        exact ⟨rfl, fun s1 h => by
          simp only [Res.done.injEq, true_and] at h
          rw [← h]
          exact h0⟩

end HMI

namespace HMI

theorem rootStep_tick (key : M State Nat) (again : M State Unit)
    (hagain : ∀ s s1, s.app.g_T2_tick = 0 → again s = Res.done () s1 → s1.app.g_T2_tick = 0)
    (s s1 : State)
    (h : (do
      Timer2_restartTimer
      let k ← key
      storeDigit k
      Timer2_stopTimer
      clearTick
      T1_delay_msec 500
      let s ← getS
      LCD_displayStringRowColumn 1 s.count Msg.star
      if s.g_password s.count ≠ ROOT_PASS s.count then again
      else pure () : M State Unit) s = Res.done () s1) :
    s1.app.g_T2_tick = 0 := by
  simp only [bind_run, emit_run, andThen_done] at h
  cases hk : key { s with trace := s.trace ++ [Ev.timer2 true] } with
  | done k s2 =>
      rw [hk] at h
      simp only [andThen_done, bind_run, modifyS_run, getS_run, T1_delay_msec_run, emit_run,
        ite_run] at h
      split at h
      · exact hagain _ s1 rfl h
      · simp only [pure_run, Res.done.injEq, true_and] at h
        rw [← h]
  | blocked s2 => rw [hk] at h; simp at h
  | noFuel s2 => rw [hk] at h; simp at h

theorem rootStep_agree (key1 key2 : M State Nat)
    (hk : ∀ s, s.app.g_T2_tick = 0 → key1 s = key2 s) (again : M State Unit)
    (s : State) (h0 : s.app.g_T2_tick = 0) :
    (do
      Timer2_restartTimer
      let k ← key1
      storeDigit k
      Timer2_stopTimer
      clearTick
      T1_delay_msec 500
      let s ← getS
      LCD_displayStringRowColumn 1 s.count Msg.star
      if s.g_password s.count ≠ ROOT_PASS s.count then again
      else pure () : M State Unit) s
    = (do
      Timer2_restartTimer
      let k ← key2
      storeDigit k
      Timer2_stopTimer
      clearTick
      T1_delay_msec 500
      let s ← getS
      LCD_displayStringRowColumn 1 s.count Msg.star
      if s.g_password s.count ≠ ROOT_PASS s.count then again
      else pure () : M State Unit) s := by
  simp only [bind_run, emit_run, andThen_done]
  rw [hk { s with trace := s.trace ++ [Ev.timer2 true] } h0]

theorem rootLoop_waits (key1 key2 : M State Nat)
    (hk : ∀ s, s.app.g_T2_tick = 0 → key1 s = key2 s) (again : M State Unit)
    (hagain : ∀ s s1, s.app.g_T2_tick = 0 → again s = Res.done () s1 → s1.app.g_T2_tick = 0) :
    ∀ (F : Nat) (s : State), s.app.g_T2_tick = 0 →
      rootLoop key1 again F s = rootLoop key2 again F s ∧
      ∀ s1, rootLoop key1 again F s = Res.done () s1 → s1.app.g_T2_tick = 0 := by
  intro F
  induction F with
  | zero =>
      intro s _
      exact ⟨rfl, fun s1 h => by simp [rootLoop, forLoop] at h⟩
  | succ n ih =>
      intro s h0
      unfold rootLoop at ih ⊢
      simp only [forLoop]
      by_cases hc : countBelow s = true
      · rw [if_pos hc, if_pos hc, ← rootStep_agree key1 key2 hk again s h0]
        have hstep := rootStep_tick key1 again hagain s
        generalize (do
          Timer2_restartTimer
          let k ← key1
          storeDigit k
          Timer2_stopTimer
          clearTick
          T1_delay_msec 500
          let s ← getS
          LCD_displayStringRowColumn 1 s.count Msg.star
          if s.g_password s.count ≠ ROOT_PASS s.count then again
          else pure () : M State Unit) s = r at hstep
        cases r with
        | done u s1 =>
            simp only [andThen_done]
            exact ih (incrCount s1) (hstep s1 rfl)
        | blocked s1 => exact ⟨rfl, fun s2 h => by simp at h⟩
        | noFuel s1 => exact ⟨rfl, fun s2 h => by simp at h⟩
      · rw [if_neg hc, if_neg hc]
        exact ⟨rfl, fun s1 h => by
          simp only [Res.done.injEq, true_and] at h
          rw [← h]
          exact h0⟩

theorem tick_kept {α : Type} (m : M State α) (h : Sat TickOk m) (s s1 : State) (a : α)
    (h0 : s.app.g_T2_tick = 0) (hd : m s = Res.done a s1) : s1.app.g_T2_tick = 0 := by
  obtain ⟨t, _, ht⟩ := h s
  rw [hd] at ht
  simp only [state_done] at ht
  rw [ht, h0]
  simp

end HMI

namespace HMI

theorem EnterNewPass_loops (f : Nat) :
    EnterNewPass (f + 1) = (do
      emit (Ev.call Fn.EnterNewPass)
      LCD_clearScreen
      LCD_displayStringRowColumn 0 0 Msg.enterNew
      resetCount
      digitLoop KeyPad_getPressedKey storeDigit 500 (f + 1)
      LCD_clearScreen
      LCD_displayStringRowColumn 0 0 Msg.reEnter
      resetCount
      digitLoop KeyPad_getPressedKey storeReDigit 500 (f + 1)
      resetCount
      forLoop countBelow incrCount (do
        let s ← getS
        if s.g_password s.count ≠ s.app.g_rePassword s.count then do
          LCD_clearScreen
          LCD_displayStringRowColumn 0 0 Msg.notMatched
          T1_delay_sec 2
          EnterNewPass f
        else pure ()) (f + 1)
      LCD_clearScreen
      LCD_displayStringRowColumn 0 0 Msg.confirmed
      resetCount
      forLoop countBelow incrCount (do
        UART_sendByte Role.token READY
        UART_waitFor READY
        let s ← getS
        UART_sendByte Role.credential (s.g_password s.count)) (f + 1)
      T1_delay_msec 1000) := by
  rw [EnterNewPass]
  rfl

theorem ChangePass_loops (f : Nat) :
    ChangePass (f + 1) = (do
      emit (Ev.call Fn.ChangePass)
      T1_delay_msec 500
      LCD_clearScreen
      LCD_displayStringRowColumn 0 0 Msg.enterOld
      resetCount
      digitLoop KeyPad_getPressedKey storeDigit 350 (f + 1)
      UART_sendByte Role.token READY
      UART_waitFor READY
      UART_sendByte Role.opcode CHECK_PASSWORD
      resetCount
      forLoop countBelow incrCount (do
        UART_waitFor READY
        let s ← getS
        UART_sendByte Role.candidate (s.g_password s.count)) (f + 1)
      let r ← UART_receiveByte
      if r = MATCH then do
        UART_sendByte Role.token READY
        UART_waitFor READY
        UART_sendByte Role.opcode CHANGE_PASSWORD
        EnterNewPass f
      else do
        modifyS (fun s => { s with app := { s.app with ChangePass_i := s.app.ChangePass_i + 1 } })
        let s ← getS
        if s.app.ChangePass_i = 3 then do
          modifyS (fun s => { s with app := { s.app with ChangePass_i := 0 } })
          BlockSystem
        else pure ()
        ChangePass f) := by
  rw [ChangePass]
  rfl

theorem OpenDoor_loops (f : Nat) :
    OpenDoor (f + 1) = (do
      emit (Ev.call Fn.OpenDoor)
      T1_delay_msec 500
      LCD_clearScreen
      LCD_displayStringRowColumn 0 0 Msg.enterPass
      resetCount
      digitLoop KeyPad_getPressedKey storeDigit 350 (f + 1)
      UART_sendByte Role.token READY
      UART_waitFor READY
      UART_sendByte Role.opcode CHECK_PASSWORD
      resetCount
      forLoop countBelow incrCount (do
        UART_waitFor READY
        let s ← getS
        UART_sendByte Role.candidate (s.g_password s.count)) (f + 1)
      let r ← UART_receiveByte
      if r = MATCH then do
        UART_sendByte Role.token READY
        UART_waitFor READY
        UART_sendByte Role.opcode OPEN_DOOR
        LCD_clearScreen
        LCD_displayStringRowColumn 0 0 Msg.doorOpen
        T1_delay_sec 10
        LCD_clearScreen
        LCD_displayStringRowColumn 0 0 Msg.doorClose
        T1_delay_sec 10
      else do
        modifyS (fun s => { s with app := { s.app with OpenDoor_i := s.app.OpenDoor_i + 1 } })
        let s ← getS
        if s.app.OpenDoor_i = 3 then do
          modifyS (fun s => { s with app := { s.app with OpenDoor_i := 0 } })
          BlockSystem
        else pure ()
        OpenDoor f) := by
  rw [OpenDoor]
  rfl

theorem MainScreen_loops (f : Nat) :
    MainScreen (f + 1) = (do
      emit (Ev.call Fn.MainScreen)
      LCD_displayStringRowColumn 0 0 Msg.menuChange
      LCD_displayStringRowColumn 1 0 Msg.menuOpen
      let k1 ← KeyPad_getPressedKey
      if k1 = KEY_PLUS then ChangePass f
      else do
        let k2 ← KeyPad_getPressedKey
        if k2 = KEY_MINUS then OpenDoor f
        else do
          let k3 ← KeyPad_getPressedKey
          if k3 = KEY_EQUAL then do
            T1_delay_sec 3
            let k4 ← KeyPad_getPressedKey
            if k4 = KEY_EQUAL then do
              LCD_clearScreen
              LCD_displayStringRowColumn 0 0 Msg.enterRoot
              T1_delay_msec 500
              resetCount
              rootLoop KeyPad_getPressedKey (MainScreen f) (f + 1)
              UART_sendByte Role.token READY
              UART_waitFor READY
              UART_sendByte Role.opcode CHANGE_PASSWORD
              EnterNewPass f
            else pure ()
          else pure ()) := by
  rw [MainScreen]
  rfl

theorem arm_examples :
    runA Arm.step Arm.off [Ev.timer2 true, Ev.key 1, Ev.timer2 false] = some Arm.off ∧
      runA Arm.step Arm.off [Ev.key 1] = none ∧
      runA Arm.step Arm.off [Ev.timer2 true, Ev.key 1, Ev.delay 500, Ev.timer2 false] = none ∧
      runA Arm.step Arm.off [Ev.timer2 true, Ev.key 1, Ev.timer2 false, Ev.key 2] = none ∧
      runA Arm.step Arm.off [Ev.timer2 true, Ev.timer2 true] = none ∧
      runA Arm.step Arm.off [Ev.lcdString 1 0 Msg.menuOpen, Ev.key 1, Ev.key 2] = some Arm.menu := by
  decide

end HMI

namespace HMI

theorem tracks_run {Q : Type} {step : Q → Ev → Option Q} {pre post : Q → Prop}
    {m : M State Unit} (h : Tracks step pre (fun _ => post) m) (s : State) (q : Q) (hq : pre q) :
    ∃ t q1, (m s).state.trace = s.trace ++ t ∧ runA step q t = some q1 ∧
      (returned (m s) = true → post q1) := by
  obtain ⟨t, ht, hp⟩ := h s
  obtain ⟨q1, h1, h2⟩ := hp q hq
  refine ⟨t, q1, ht, h1, fun hr => ?_⟩
  obtain ⟨a, s1, hs1⟩ := returned_done _ hr
  exact h2 a s1 hs1

/-- C25: in every run of `EnterNewPass`, `ChangePass`, `OpenDoor` and
`MainScreen`, from every state and whatever is typed and received, the check
`Arm.step` accepts the trace: each key read outside the main menu comes right
after a start of Timer2 and is followed at once by the stop of Timer2, and
Timer2 is stopped when the function returns.  After each such run the tick
count `g_T2_tick` is 0 if Timer2 has been stopped during the run and is
unchanged otherwise.  In the digit-entry loops (`digitLoop` and `rootLoop` with
`key = KeyPad_getPressedKey` are the loops of the four functions, see
`EnterNewPass_loops`, `ChangePass_loops`, `OpenDoor_loops`, `MainScreen_loops`)
the read of the keypad may change the tick count in any way, as the overflow
interrupt of Timer2 does during the wait: started with the tick count at 0, the
loop calls the read only in states with the tick count at 0, since two reads
that agree on those states give the same run, and the tick count is 0 when the
loop ends. -/
theorem C25_timer_around_each_digit (f : Nat) :
    (∀ (s : State) (q : Arm), Arm.idle q →
      (∃ t q1, (EnterNewPass f s).state.trace = s.trace ++ t ∧ runA Arm.step q t = some q1 ∧
        (returned (EnterNewPass f s) = true → q1 = Arm.off)) ∧
      (∃ t q1, (ChangePass f s).state.trace = s.trace ++ t ∧ runA Arm.step q t = some q1 ∧
        (returned (ChangePass f s) = true → q1 = Arm.off)) ∧
      (∃ t q1, (OpenDoor f s).state.trace = s.trace ++ t ∧ runA Arm.step q t = some q1 ∧
        (returned (OpenDoor f s) = true → q1 = Arm.off)) ∧
      (∃ t q1, (MainScreen f s).state.trace = s.trace ++ t ∧ runA Arm.step q t = some q1 ∧
        (returned (MainScreen f s) = true → Arm.idle q1))) ∧
    (∀ s : State, TickOk s (EnterNewPass f s).state ∧ TickOk s (ChangePass f s).state ∧
      TickOk s (OpenDoor f s).state ∧ TickOk s (MainScreen f s).state) ∧
    (∀ (key1 key2 : M State Nat) (store : Nat → M State Unit) (ms F : Nat) (s : State),
      (∀ s0, s0.app.g_T2_tick = 0 → key1 s0 = key2 s0) → s.app.g_T2_tick = 0 →
      digitLoop key1 store ms F s = digitLoop key2 store ms F s ∧
      ∀ s1, digitLoop key1 store ms F s = Res.done () s1 → s1.app.g_T2_tick = 0) ∧
    (∀ (key1 key2 : M State Nat) (F : Nat) (s : State),
      (∀ s0, s0.app.g_T2_tick = 0 → key1 s0 = key2 s0) → s.app.g_T2_tick = 0 →
      rootLoop key1 (MainScreen f) F s = rootLoop key2 (MainScreen f) F s ∧
      ∀ s1, rootLoop key1 (MainScreen f) F s = Res.done () s1 → s1.app.g_T2_tick = 0) := by
  refine ⟨fun s q hq => ⟨?_, ?_, ?_, ?_⟩, fun s => ⟨?_, ?_, ?_, ?_⟩, ?_, ?_⟩
  · exact tracks_run (EnterNewPass_arm f) s q hq
  · exact tracks_run (ChangePass_arm f) s q hq
  · exact tracks_run (OpenDoor_arm f) s q hq
  · exact tracks_run (MainScreen_arm f) s q hq
  · exact EnterNewPass_tick f s
  · exact ChangePass_tick f s
  · exact OpenDoor_tick f s
  · exact MainScreen_tick f s
  · intro key1 key2 store ms F s hk h0
    exact digitLoop_waits key1 key2 hk store ms F s h0
  · intro key1 key2 F s hk h0
    exact rootLoop_waits key1 key2 hk (MainScreen f)
      (fun s s1 h0 hd => tick_kept _ (MainScreen_tick f) s s1 () h0 hd) F s h0

end HMI

end DoorLock
